import Mathlib

/-!
# Qwt: the zoom stack of `QwtPlotZoomer` and the scales of `QwtPlotRescaler`

Shallow embedding of `src/qwt_plot_zoomer.cpp`.  The private data of a zoomer
(`zoomRectIndex`, `zoomStack`, `maxStackDepth`) becomes a record that every
operation takes and returns; the `zoomed` signal becomes the list of the
rectangles an operation emits, in order.  An access outside the stack (undefined
in C++) makes an operation return `none`.

`rescale()` only drives the attached plot: it reads the rectangle at the current
position, which every caller has read or written before, and leaves the
zoomer's own data untouched, so it does not appear in the state.

Values of type `double` are `Double`: the finite values, the two infinities and
NaN, every operation rounded to IEEE 754 binary64 (to the nearest double, a tie
to the even one).  The rescaler computes in `Double` throughout.  The
coordinates of the rectangles of the zoomer are finite doubles, given as
rationals; the sums and differences in the zoomer's own code are rounded by
`Double.fl`, while the operations of Qt's `QRectF`, absent from the sources, are
taken as exact.

The namespace `Rescaler` embeds `src/qwt_plot_rescaler.cpp`.  The plot is what
the rescaler reads of it, the bounds of the scale division of each axis; the
calls the rescaler makes on the plot are recorded in order, and `plt->replot()`
is a function on the rescaler, so that a replot can re-enter `rescale`.
-/

namespace Qwt

/-- The values of the C++ type `double` (IEEE 754 binary64): the finite values
as rationals, the two infinities and NaN.  The sign of zero is not kept. -/
inductive Double where
  | finite (q : ℚ)
  | posInf
  | negInf
  | nan
deriving DecidableEq

namespace Double

/-- The binary exponent a double near `x` has: the exponent of the largest
power of two not above `|x|`, and -1022 for the subnormal values. -/
def exponent (x : ℚ) : Int :=
  if |x| < (2 : ℚ) ^ (-1022 : Int) then -1022 else Int.log 2 |x|

/-- The distance of neighbouring doubles near `x`: 53 significant bits. -/
def ulp (x : ℚ) : ℚ := (2 : ℚ) ^ (exponent x - 52)

/-- Rounding to the nearest integer, a tie to the even one. -/
def roundToEven (y : ℚ) : Int :=
  if y - (⌊y⌋ : ℚ) < 1 / 2 then ⌊y⌋
  else if 1 / 2 < y - (⌊y⌋ : ℚ) then ⌊y⌋ + 1
  else if ⌊y⌋ % 2 = 0 then ⌊y⌋ else ⌊y⌋ + 1

/-- Rounding of a rational to the nearest double, a tie to the one with an
even last bit, as every arithmetic operation on `double` does; the range of
the exponent is not limited upwards here. -/
def fl (x : ℚ) : ℚ := (roundToEven (x / ulp x) : ℚ) * ulp x

/-- The double an exact result is rounded to: beyond the largest finite double
the result is an infinity. -/
def round (x : ℚ) : Double :=
  if (2 : ℚ) ^ (1024 : Nat) ≤ |fl x| then (if 0 < x then posInf else negInf)
  else finite (fl x)

/-- The conversion of an `int` to `double`, which is exact. -/
def ofInt (n : Int) : Double := finite n

instance : OfNat Double n := ⟨finite n⟩

/-- The double that the literal `0.1` denotes. -/
def lit_0_1 : ℚ := 3602879701896397 / 36028797018963968

/-- The double that the literal `0.3` denotes. -/
def lit_0_3 : ℚ := 5404319552844595 / 18014398509481984

/-- The double that the literal `0.5` denotes. -/
def lit_0_5 : ℚ := 1 / 2

/-- The double that the literal `0.9` denotes. -/
def lit_0_9 : ℚ := 8106479329266893 / 9007199254740992

/-- The double that the literal `0.2` denotes. -/
def lit_0_2 : ℚ := 3602879701896397 / 18014398509481984

/-- The double that the literal `0.4` denotes. -/
def lit_0_4 : ℚ := 3602879701896397 / 9007199254740992

/-- The operator `-` with one operand. -/
def neg : Double → Double
  | finite a => finite (-a)
  | posInf => negInf
  | negInf => posInf
  | nan => nan

/-- The operator `+`. -/
def add : Double → Double → Double
  | finite a, finite b => round (a + b)
  | finite _, posInf => posInf
  | finite _, negInf => negInf
  | posInf, finite _ => posInf
  | posInf, posInf => posInf
  | negInf, finite _ => negInf
  | negInf, negInf => negInf
  | _, _ => nan

/-- The operator `-`. -/
def sub (a b : Double) : Double := add a (neg b)

/-- The operator `*`. -/
def mul : Double → Double → Double
  | finite a, finite b => round (a * b)
  | finite a, posInf => if 0 < a then posInf else if a < 0 then negInf else nan
  | finite a, negInf => if 0 < a then negInf else if a < 0 then posInf else nan
  | posInf, finite b => if 0 < b then posInf else if b < 0 then negInf else nan
  | negInf, finite b => if 0 < b then negInf else if b < 0 then posInf else nan
  | posInf, posInf => posInf
  | posInf, negInf => negInf
  | negInf, posInf => negInf
  | negInf, negInf => posInf
  | _, _ => nan

/-- The operator `/`; a zero divisor counts as +0.0. -/
def div : Double → Double → Double
  | finite a, finite b =>
    if b = 0 then (if 0 < a then posInf else if a < 0 then negInf else nan)
    else round (a / b)
  | finite _, posInf => finite 0
  | finite _, negInf => finite 0
  | posInf, finite b => if b < 0 then negInf else posInf
  | negInf, finite b => if b < 0 then posInf else negInf
  | _, _ => nan

/-- The operator `<`; false whenever an operand is NaN. -/
def lt : Double → Double → Bool
  | finite a, finite b => a < b
  | finite _, posInf => true
  | negInf, finite _ => true
  | negInf, posInf => true
  | _, _ => false

/-- The operator `<=`; false whenever an operand is NaN. -/
def le : Double → Double → Bool
  | finite a, finite b => a ≤ b
  | finite _, posInf => true
  | negInf, finite _ => true
  | negInf, posInf => true
  | posInf, posInf => true
  | negInf, negInf => true
  | _, _ => false

instance : Neg Double := ⟨neg⟩
instance : Add Double := ⟨add⟩
instance : Sub Double := ⟨sub⟩
instance : Mul Double := ⟨mul⟩
instance : Div Double := ⟨div⟩
instance : LT Double := ⟨fun a b => lt a b = true⟩
instance : LE Double := ⟨fun a b => le a b = true⟩
instance (a b : Double) : Decidable (a < b) := by
  show Decidable (lt a b = true); infer_instance
instance (a b : Double) : Decidable (a ≤ b) := by
  show Decidable (le a b = true); infer_instance

end Double

/-- Modelled from the spec: the rectangle type `QwtDoubleRect` is declared in
`qwt_double_rect.h`, which is not among the sources (it is Qt's `QRectF`: a top
left corner `xp`, `yp`, a width and a height, each of which may be negative).
Coordinates are rationals, which include every finite `double`; a NaN or an
infinite coordinate is outside the model.  The intersection and the union are
exact; what the zoomer itself computes is rounded to `double`.  Two rectangles
are equal (`==`) when their four numbers are. -/
structure QwtDoubleRect where
  xp : ℚ
  yp : ℚ
  w : ℚ
  h : ℚ
deriving DecidableEq

namespace QwtDoubleRect

/-- Modelled from the spec: `QRectF::left()`, the x coordinate of the corner. -/
def left (r : QwtDoubleRect) : ℚ := r.xp

/-- Modelled from the spec: `QRectF::top()`, the y coordinate of the corner. -/
def top (r : QwtDoubleRect) : ℚ := r.yp

/-- Modelled from the spec: `QRectF::right()`, corner plus width, the sum
rounded to `double`. -/
def right (r : QwtDoubleRect) : ℚ := Double.fl (r.xp + r.w)

/-- Modelled from the spec: `QRectF::bottom()`, corner plus height, the sum
rounded to `double`. -/
def bottom (r : QwtDoubleRect) : ℚ := Double.fl (r.yp + r.h)

/-- Modelled from the spec: `QRectF::width()`. -/
def width (r : QwtDoubleRect) : ℚ := r.w

/-- Modelled from the spec: `QRectF::height()`. -/
def height (r : QwtDoubleRect) : ℚ := r.h

/-- Modelled from the spec: the default constructed `QRectF()`, the null
rectangle at the origin. -/
def null : QwtDoubleRect := ⟨0, 0, 0, 0⟩

/-- Modelled from the spec: `QRectF::isNull()`, width and height both zero. -/
def isNull (r : QwtDoubleRect) : Bool := r.w = 0 ∧ r.h = 0

/-- Modelled from the spec: `QRectF::isEmpty()`, no positive width or no
positive height. -/
def isEmpty (r : QwtDoubleRect) : Bool := r.w ≤ 0 ∨ r.h ≤ 0

/-- Smaller x coordinate of the two vertical edges. -/
def xMin (r : QwtDoubleRect) : ℚ := if r.w < 0 then r.xp + r.w else r.xp

/-- Larger x coordinate of the two vertical edges. -/
def xMax (r : QwtDoubleRect) : ℚ := if r.w < 0 then r.xp else r.xp + r.w

/-- Smaller y coordinate of the two horizontal edges. -/
def yMin (r : QwtDoubleRect) : ℚ := if r.h < 0 then r.yp + r.h else r.yp

/-- Larger y coordinate of the two horizontal edges. -/
def yMax (r : QwtDoubleRect) : ℚ := if r.h < 0 then r.yp else r.yp + r.h

/-- Modelled from the spec: `QRectF::normalized()`, the same rectangle with a
non-negative width and height ("callers must normalize before geometric
operations"). -/
def normalized (r : QwtDoubleRect) : QwtDoubleRect :=
  let r1 : QwtDoubleRect := if r.w < 0 then { r with xp := r.xp + r.w, w := -r.w } else r
  if r1.h < 0 then { r1 with yp := r1.yp + r1.h, h := -r1.h } else r1

/-- Modelled from the spec: `QRectF::operator&`, the intersection.  A rectangle
without extent on an axis, or a pair of rectangles that do not overlap, gives
the null rectangle. -/
def intersected (a b : QwtDoubleRect) : QwtDoubleRect :=
  let l1 := a.xMin
  let r1 := a.xMax
  if l1 = r1 then null else
  let l2 := b.xMin
  let r2 := b.xMax
  if l2 = r2 then null else
  if l1 ≥ r2 ∨ l2 ≥ r1 then null else
  let t1 := a.yMin
  let b1 := a.yMax
  if t1 = b1 then null else
  let t2 := b.yMin
  let b2 := b.yMax
  if t2 = b2 then null else
  if t1 ≥ b2 ∨ t2 ≥ b1 then null else
  { xp := max l1 l2, yp := max t1 t2,
    w := min r1 r2 - max l1 l2, h := min b1 b2 - max t1 t2 }

/-- Modelled from the spec: `QRectF::operator|`, the bounding rectangle of
both; a null operand gives the other operand as it is. -/
def united (a b : QwtDoubleRect) : QwtDoubleRect :=
  if a.isNull then b else
  if b.isNull then a else
  let l := min a.xMin b.xMin
  let r := max a.xMax b.xMax
  let t := min a.yMin b.yMin
  let bt := max a.yMax b.yMax
  { xp := l, yp := t, w := r - l, h := bt - t }

/-- Modelled from the spec: `QRectF::moveTo(x, y)`, the corner is moved, the
size is kept. -/
def moveTo (r : QwtDoubleRect) (x y : ℚ) : QwtDoubleRect := { r with xp := x, yp := y }

/-- Modelled from the spec: `QRectF::contains(const QPointF &)`: the point lies
between the edges, both included; a rectangle without extent on an axis
contains no point. -/
def containsPoint (r : QwtDoubleRect) (px py : ℚ) : Prop :=
  r.xMin ≠ r.xMax ∧ r.xMin ≤ px ∧ px ≤ r.xMax ∧
  r.yMin ≠ r.yMax ∧ r.yMin ≤ py ∧ py ≤ r.yMax

/-- Set inclusion of rectangles: every point of `r` is a point of `b`. -/
def subsetOf (r b : QwtDoubleRect) : Prop :=
  ∀ px py : ℚ, r.containsPoint px py → b.containsPoint px py

/-- Modelled from the spec: `QRectF::contains(const QRectF &)`: `r` has an
extent on both axes and its edges lie between the edges of `b`. -/
def containsRect (b r : QwtDoubleRect) : Prop :=
  b.xMin ≠ b.xMax ∧ r.xMin ≠ r.xMax ∧ b.xMin ≤ r.xMin ∧ r.xMax ≤ b.xMax ∧
  b.yMin ≠ b.yMax ∧ r.yMin ≠ r.yMax ∧ b.yMin ≤ r.yMin ∧ r.yMax ≤ b.yMax

end QwtDoubleRect

/-- Conversion of an integer to `uint`: reduction modulo 2^32. -/
def toUInt (n : Int) : Nat := (n % 4294967296).toNat

/-- Conversion of a `uint` to `int`: values from 2^31 on wrap to the negatives. -/
def toInt (n : Nat) : Int :=
  if n % 4294967296 < 2147483648 then ((n % 4294967296 : Nat) : Int)
  else ((n % 4294967296 : Nat) : Int) - 4294967296

/-- The private data of a zoomer, `QwtPlotZoomer::PrivateData`.  The stack is a
list whose head is the zoom base and whose last entry is the top. -/
structure PrivateData where
  zoomRectIndex : Nat
  zoomStack : List QwtDoubleRect
  maxStackDepth : Int
deriving DecidableEq

/-- What a call leaves behind: the private data and the rectangles carried by
the `zoomed` signals it emitted, in order. -/
structure Outcome where
  data : PrivateData
  zoomed : List QwtDoubleRect
deriving DecidableEq

namespace PrivateData

/-- The accessor `QwtPlotZoomer::zoomBase()`, `zoomStack[0]`. -/
def zoomBase (d : PrivateData) : Option QwtDoubleRect := d.zoomStack[0]?

/-- The accessor `QwtPlotZoomer::zoomRect()`, `zoomStack[zoomRectIndex]`. -/
def zoomRect (d : PrivateData) : Option QwtDoubleRect := d.zoomStack[d.zoomRectIndex]?

/-- States a zoomer can be in: the stack holds the base, the index points into
the stack, and the `int` quantities fit their type. -/
def valid (d : PrivateData) : Prop :=
  d.zoomRectIndex < d.zoomStack.length ∧ d.zoomStack.length < 2147483648 ∧
  -2147483648 ≤ d.maxStackDepth ∧ d.maxStackDepth < 2147483648

instance (d : PrivateData) : Decidable d.valid := by
  unfold valid; infer_instance

end PrivateData

/-- The loops `for ( i = count - 1; i > zoomRectIndex; i-- ) zoomStack.pop()` of
`zoom` and `setMaxStackDepth`: `i` is the loop counter on entry. -/
def popTrailing (i idx : Nat) (st : List QwtDoubleRect) : Option (List QwtDoubleRect) :=
  match i with
  | 0 => some st
  | k + 1 =>
    if idx < k + 1 then
      match st with
      | [] => none
      | _ :: _ => popTrailing k idx st.dropLast
    else some st

/-- The method `QwtPlotZoomer::zoom(const QwtDoubleRect &)`. -/
def zoom (d : PrivateData) (rect : QwtDoubleRect) : Option Outcome :=
  if 0 ≤ d.maxStackDepth ∧ d.maxStackDepth ≤ toInt d.zoomRectIndex then some ⟨d, []⟩
  else
    match d.zoomStack[0]?, d.zoomStack[d.zoomRectIndex]? with
    | some base, some cur =>
      let zoomRect := base.intersected rect.normalized
      if zoomRect ≠ cur then
        match popTrailing (toUInt ((d.zoomStack.length : Int) - 1)) d.zoomRectIndex d.zoomStack with
        | some st =>
          some ⟨{ d with zoomStack := st ++ [zoomRect],
                         zoomRectIndex := (d.zoomRectIndex + 1) % 4294967296 }, [zoomRect]⟩
        | none => none
      else some ⟨d, []⟩
    | _, _ => none

/-- The method `QwtPlotZoomer::zoom(int offset)`.  The sum
`zoomRectIndex + offset` is formed in `uint` and then stored in an `int`. -/
def zoomOffset (d : PrivateData) (offset : Int) : Option Outcome :=
  let idx : Nat :=
    if offset = 0 then 0
    else
      let newIndex := toInt (toUInt ((d.zoomRectIndex : Int) + offset))
      let newIndex := max 0 newIndex
      let newIndex := min ((d.zoomStack.length : Int) - 1) newIndex
      toUInt newIndex
  let d1 : PrivateData := { d with zoomRectIndex := idx }
  match d1.zoomRect with
  | some r => some ⟨d1, [r]⟩
  | none => none

/-- The method `QwtPlotZoomer::setMaxStackDepth(int depth)`. -/
def setMaxStackDepth (d : PrivateData) (depth : Int) : Option Outcome :=
  let d1 : PrivateData := { d with maxStackDepth := depth }
  if 0 ≤ depth then
    let zoomOut : Int := (d1.zoomStack.length : Int) - 1 - depth
    if 0 < zoomOut then
      match zoomOffset d1 (-zoomOut) with
      | some o =>
        match popTrailing (o.data.zoomStack.length - 1) o.data.zoomRectIndex o.data.zoomStack with
        | some st => some ⟨{ o.data with zoomStack := st }, o.zoomed⟩
        | none => none
      | none => none
    else some ⟨d1, []⟩
  else some ⟨d1, []⟩

/-- The method `QwtPlotZoomer::setZoomStack(zoomStack, zoomRectIndex)`. -/
def setZoomStack (d : PrivateData) (zoomStack : List QwtDoubleRect) (zoomRectIndex : Int) :
    Option Outcome :=
  if zoomStack.isEmpty then some ⟨d, []⟩
  else if 0 ≤ d.maxStackDepth ∧ d.maxStackDepth < (zoomStack.length : Int) then some ⟨d, []⟩
  else
    let zoomRectIndex : Int :=
      if zoomRectIndex < 0 ∨ (zoomStack.length : Int) < zoomRectIndex then
        (zoomStack.length : Int) - 1
      else zoomRectIndex
    match zoomStack[zoomRectIndex.toNat]?, d.zoomRect with
    | some r, some cur =>
      let doRescale : Bool := r ≠ cur
      let d1 : PrivateData :=
        { d with zoomStack := zoomStack, zoomRectIndex := toUInt zoomRectIndex }
      if doRescale then
        match d1.zoomRect with
        | some z => some ⟨d1, [z]⟩
        | none => none
      else some ⟨d1, []⟩
    | _, _ => none

/-- The method `QwtPlotZoomer::setZoomBase(bool)`.  `scaleRect` is what
`scaleRect()` returns for the attached plot, `none` when `plot()` is null. -/
def setZoomBaseScale (d : PrivateData) (scaleRect : Option QwtDoubleRect) : Option Outcome :=
  match scaleRect with
  | none => some ⟨d, []⟩
  | some sRect => some ⟨{ d with zoomStack := [sRect], zoomRectIndex := 0 }, []⟩

/-- The method `QwtPlotZoomer::setZoomBase(const QwtDoubleRect &base)`.
`scaleRect` is what `scaleRect()` returns for the attached plot, `none` when
`plot()` is null. -/
def setZoomBase (d : PrivateData) (scaleRect : Option QwtDoubleRect) (base : QwtDoubleRect) :
    Option Outcome :=
  match scaleRect with
  | none => some ⟨d, []⟩
  | some sRect =>
    let bRect := base.united sRect
    let d1 : PrivateData := { d with zoomStack := [bRect], zoomRectIndex := 0 }
    let d2 : PrivateData :=
      if base ≠ sRect then
        { d1 with zoomStack := d1.zoomStack ++ [sRect],
                  zoomRectIndex := (d1.zoomRectIndex + 1) % 4294967296 }
      else d1
    some ⟨d2, []⟩

/-- The two steps by which `move` limits a coordinate: `if ( v < lo ) v = lo;`
and then `if ( v > hi ) v = hi;`. -/
def limitTo (lo hi v : ℚ) : ℚ :=
  let v := if v < lo then lo else v
  if v > hi then hi else v

/-- The method `QwtPlotZoomer::move(double x, double y)`, for finite `x` and
`y`; the differences are rounded to `double`. -/
def move (d : PrivateData) (x y : ℚ) : Option Outcome :=
  match d.zoomBase, d.zoomRect with
  | some base, some cur =>
    let x := limitTo base.left (Double.fl (base.right - cur.width)) x
    let y := limitTo base.top (Double.fl (base.bottom - cur.height)) y
    if x ≠ cur.left ∨ y ≠ cur.top then
      some ⟨{ d with zoomStack := d.zoomStack.set d.zoomRectIndex (cur.moveTo x y) }, []⟩
    else some ⟨d, []⟩
  | _, _ => none

/-- The method `QwtPlotZoomer::moveBy(double dx, double dy)`, for finite `dx`
and `dy`; the sums are rounded to `double`. -/
def moveBy (d : PrivateData) (dx dy : ℚ) : Option Outcome :=
  match d.zoomRect with
  | some rect => move d (Double.fl (rect.left + dx)) (Double.fl (rect.top + dy))
  | none => none

/-- The state `QwtPlotZoomer::init` leaves for an attached plot: the depth is
set to -1 and `setZoomBase(scaleRect())` builds the stack, the scale rectangle
united with itself and nothing above it, since the base passed in equals the
scale rectangle. -/
def init (scaleRect : QwtDoubleRect) : PrivateData :=
  { zoomRectIndex := 0, zoomStack := [scaleRect.united scaleRect], maxStackDepth := -1 }

/-- The square `[a, b] x [a, b]` as a rectangle. -/
def square (a b : ℚ) : QwtDoubleRect := ⟨a, a, b - a, b - a⟩

/-- A zoomer of unlimited depth over the base `[0, 100] x [0, 100]`, zoomed in
twice and standing on the first zoomed rectangle. -/
def sampleData : PrivateData :=
  { zoomRectIndex := 1, zoomStack := [square 0 100, square 20 80, square 30 40],
    maxStackDepth := -1 }

/-- A fresh zoomer of unlimited depth over the base `[0, 100] x [0, 100]`. -/
def freshData : PrivateData :=
  { zoomRectIndex := 0, zoomStack := [square 0 100], maxStackDepth := -1 }

/-- The public operations of a zoomer with their arguments.  The scale rectangle
of the attached plot, which both `setZoomBase` read, is an argument as well. -/
inductive Op where
  | zoom (rect : QwtDoubleRect)
  | zoomOffset (offset : Int)
  | setMaxStackDepth (depth : Int)
  | setZoomStack (zoomStack : List QwtDoubleRect) (zoomRectIndex : Int)
  | setZoomBaseScale (scaleRect : Option QwtDoubleRect)
  | setZoomBase (scaleRect : Option QwtDoubleRect) (base : QwtDoubleRect)
  | move (x y : ℚ)
  | moveBy (dx dy : ℚ)

/-- The call of an operation on a zoomer. -/
def Op.run : Op → PrivateData → Option Outcome
  | Op.zoom rect, d => Qwt.zoom d rect
  | Op.zoomOffset offset, d => Qwt.zoomOffset d offset
  | Op.setMaxStackDepth depth, d => Qwt.setMaxStackDepth d depth
  | Op.setZoomStack zoomStack zoomRectIndex, d => Qwt.setZoomStack d zoomStack zoomRectIndex
  | Op.setZoomBaseScale scaleRect, d => Qwt.setZoomBaseScale d scaleRect
  | Op.setZoomBase scaleRect base, d => Qwt.setZoomBase d scaleRect base
  | Op.move x y, d => Qwt.move d x y
  | Op.moveBy dx dy, d => Qwt.moveBy d dx dy

/-- Arguments an operation can receive: an `int` argument fits its type, and a
stack passed in holds fewer than 2^31 rectangles. -/
def Op.wellFormed : Op → Prop
  | Op.zoomOffset offset => -2147483648 ≤ offset ∧ offset < 2147483648
  | Op.setMaxStackDepth depth => -2147483648 ≤ depth ∧ depth < 2147483648
  | Op.setZoomStack zoomStack zoomRectIndex =>
    zoomStack.length < 2147483648 ∧ -2147483648 ≤ zoomRectIndex ∧ zoomRectIndex < 2147483648
  | _ => True

/-- The operations that keep the stack inside the base: every operation but
`setZoomStack`, `move` and `moveBy`. -/
def Op.keepsBase : Op → Prop
  | Op.setZoomStack _ _ => False
  | Op.move _ _ => False
  | Op.moveBy _ _ => False
  | _ => True

/-- The edges of `r` lie between the edges of `b`. -/
def QwtDoubleRect.withinEdges (r b : QwtDoubleRect) : Prop :=
  b.xMin ≤ r.xMin ∧ r.xMax ≤ b.xMax ∧ b.yMin ≤ r.yMin ∧ r.yMax ≤ b.yMax

/-- The zoomers that calls of the operations in `allowed` lead to, from the
zoomer `init` leaves; a stack never holds 2^31 rectangles or more. -/
inductive Reachable (allowed : Op → Prop) : PrivateData → Prop
  | init (scaleRect : QwtDoubleRect) : Reachable allowed (init scaleRect)
  | step (d : PrivateData) (op : Op) (o : Outcome) :
      Reachable allowed d → allowed op → op.run d = some o →
      o.data.zoomStack.length < 2147483648 → Reachable allowed o.data

/-- The invariant of the zoom stack: the zoomer is valid and every rectangle on
the stack is a null rectangle or has its edges between the edges of the zoom
base. -/
def StackInv (d : PrivateData) : Prop :=
  d.valid ∧ ∃ base, d.zoomBase = some base ∧
    ∀ r ∈ d.zoomStack, r.isNull = true ∨ r.withinEdges base

/-- Modelled from the spec: the size type `QwtDoubleSize` (Qt's `QSizeF`) of
the absent `qwt_double_rect.h`: a width and a height, exact rationals here. -/
structure QwtDoubleSize where
  wd : ℚ
  ht : ℚ
deriving DecidableEq

/-- The method `QwtPlotZoomer::minZoomSize()`.  The literal `10e4` is the
number 100000. -/
def minZoomSize (d : PrivateData) : Option QwtDoubleSize :=
  match d.zoomStack[0]? with
  | some base => some ⟨base.width / 100000, base.height / 100000⟩
  | none => none

/-- Modelled from the spec: Qt's `QPoint`, a pixel position with `int`
coordinates. -/
structure QPoint where
  x : Int
  y : Int
deriving DecidableEq

/-- Modelled from the spec: Qt's `QSize`, a pixel size with `int` width and
height. -/
structure QSize where
  wd : Int
  ht : Int
deriving DecidableEq

namespace QSize

/-- Modelled from the spec: `QSize::isEmpty()`, a width or a height below 1. -/
def isEmpty (s : QSize) : Bool := s.wd < 1 ∨ s.ht < 1

/-- Modelled from the spec: `QSize::expandedTo`, the larger width and the
larger height of both. -/
def expandedTo (s other : QSize) : QSize := ⟨max s.wd other.wd, max s.ht other.ht⟩

end QSize

/-- Modelled from the spec: Qt's `QRect`, the pixels from the corner `x1`, `y1`
to the corner `x2`, `y2`, both included. -/
structure QRect where
  x1 : Int
  y1 : Int
  x2 : Int
  y2 : Int
deriving DecidableEq

namespace QRect

/-- Modelled from the spec: the constructor `QRect(topLeft, bottomRight)`. -/
def ofPoints (topLeft bottomRight : QPoint) : QRect :=
  ⟨topLeft.x, topLeft.y, bottomRight.x, bottomRight.y⟩

/-- Modelled from the spec: `QRect::width()`, the number of pixel columns. -/
def width (r : QRect) : Int := r.x2 - r.x1 + 1

/-- Modelled from the spec: `QRect::height()`, the number of pixel rows. -/
def height (r : QRect) : Int := r.y2 - r.y1 + 1

/-- Modelled from the spec: `QRect::normalized()`, corners in the wrong order
are swapped. -/
def normalized (r : QRect) : QRect :=
  let xs : Int × Int := if r.x2 < r.x1 - 1 then (r.x2, r.x1) else (r.x1, r.x2)
  let ys : Int × Int := if r.y2 < r.y1 - 1 then (r.y2, r.y1) else (r.y1, r.y2)
  ⟨xs.1, ys.1, xs.2, ys.2⟩

/-- Modelled from the spec: `QRect::size()`. -/
def size (r : QRect) : QSize := ⟨r.width, r.height⟩

/-- Modelled from the spec: `QRect::setSize`, the first corner stays. -/
def setSize (r : QRect) (s : QSize) : QRect :=
  { r with x2 := s.wd + r.x1 - 1, y2 := s.ht + r.y1 - 1 }

/-- Modelled from the spec: `QRect::center()`, with the division of `int`. -/
def center (r : QRect) : QPoint := ⟨Int.tdiv (r.x1 + r.x2) 2, Int.tdiv (r.y1 + r.y2) 2⟩

/-- Modelled from the spec: `QRect::moveCenter`, the size stays. -/
def moveCenter (r : QRect) (p : QPoint) : QRect :=
  let w := r.x2 - r.x1
  let h := r.y2 - r.y1
  let x1 := p.x - Int.tdiv w 2
  let y1 := p.y - Int.tdiv h 2
  ⟨x1, y1, x1 + w, y1 + h⟩

/-- Modelled from the spec: `QRect::topLeft()`. -/
def topLeft (r : QRect) : QPoint := ⟨r.x1, r.y1⟩

/-- Modelled from the spec: `QRect::bottomRight()`. -/
def bottomRight (r : QRect) : QPoint := ⟨r.x2, r.y2⟩

end QRect

/-- The method `QwtPlotZoomer::accept(QwtPolygon &pa)`: the value returned and
the polygon `pa` afterwards. -/
def accept (pa : List QPoint) : Bool × List QPoint :=
  if pa.length < 2 then (false, pa)
  else
    match pa[0]?, pa[pa.length - 1]? with
    | some first, some last =>
      let rect := (QRect.ofPoints first last).normalized
      let minSize : Int := 2
      if rect.width < minSize ∧ rect.height < minSize then (false, pa)
      else
        let minZoomSize : Int := 11
        let center := rect.center
        let rect := rect.setSize (rect.size.expandedTo ⟨minZoomSize, minZoomSize⟩)
        let rect := rect.moveCenter center
        (true, [rect.topLeft, rect.bottomRight])
    | _, _ => (false, pa)

/-- Modelled from the spec: the interval type `QwtDoubleInterval` of the absent
`qwt_double_interval.h`: a lower and an upper bound of type `double`; the
interval "may be inverted (lower > upper)" and is then not valid.  Border flags
are not modelled: every interval includes its borders. -/
structure QwtDoubleInterval where
  minValue : Double
  maxValue : Double
deriving DecidableEq

namespace QwtDoubleInterval

/-- Modelled from the spec: the default constructed `QwtDoubleInterval()`, the
invalid interval from 0 to -1. -/
def invalid : QwtDoubleInterval := ⟨0, -1⟩

/-- Modelled from the spec: `isValid()`, the bounds are in order. -/
def isValid (i : QwtDoubleInterval) : Bool := i.minValue ≤ i.maxValue

/-- Modelled from the spec: `width()`, the distance of the bounds of a valid
interval and 0 for an invalid one. -/
def width (i : QwtDoubleInterval) : Double :=
  if i.isValid then i.maxValue - i.minValue else 0

/-- Modelled from the spec: `isNull()`, a valid interval without extent. -/
def isNull (i : QwtDoubleInterval) : Bool := i.isValid ∧ i.minValue ≥ i.maxValue

/-- Modelled from the spec: `normalized()`, inverted bounds are swapped. -/
def normalized (i : QwtDoubleInterval) : QwtDoubleInterval :=
  if i.minValue > i.maxValue then ⟨i.maxValue, i.minValue⟩ else i

/-- Modelled from the spec: `setMinValue`. -/
def setMinValue (i : QwtDoubleInterval) (v : Double) : QwtDoubleInterval :=
  { i with minValue := v }

/-- Modelled from the spec: `setMaxValue`. -/
def setMaxValue (i : QwtDoubleInterval) (v : Double) : QwtDoubleInterval :=
  { i with maxValue := v }

end QwtDoubleInterval

namespace QwtPlot

/-- Modelled from the spec: the axis `QwtPlot::yLeft` of the enum
`QwtPlot::Axis` in the absent `qwt_plot.h` ("left/right/top/bottom"). -/
def yLeft : Int := 0

/-- Modelled from the spec: the axis `QwtPlot::yRight`. -/
def yRight : Int := 1

/-- Modelled from the spec: the axis `QwtPlot::xBottom`. -/
def xBottom : Int := 2

/-- Modelled from the spec: the axis `QwtPlot::xTop`. -/
def xTop : Int := 3

/-- Modelled from the spec: the number of axes `QwtPlot::axisCnt` ("typically
4"). -/
def axisCnt : Int := 4

end QwtPlot

/-- Modelled from the spec: the orientations `Qt::Horizontal` and
`Qt::Vertical`. -/
inductive Orientation where
  | Horizontal
  | Vertical
deriving DecidableEq

/-- The attached plot as the rescaler reads it: the bounds of the scale
division of every axis, `axisScaleDiv(axis)->lowerBound()` and `upperBound()`. -/
structure Plot where
  lowerBound : Int → Double
  upperBound : Int → Double

namespace Rescaler

/-- The enum `QwtPlotRescaler::RescalePolicy`. -/
inductive RescalePolicy where
  | Fixed
  | Expanding
  | Fitting
deriving DecidableEq

/-- The enum `QwtPlotRescaler::ExpandingDirection`. -/
inductive ExpandingDirection where
  | ExpandUp
  | ExpandDown
  | ExpandBoth
deriving DecidableEq

/-- The class `QwtPlotRescaler::AxisData`; of the cached scale division only the
bounds are kept. -/
structure AxisData where
  aspectRatio : Double
  intervalHint : QwtDoubleInterval
  expandingDirection : ExpandingDirection
  scaleDiv : Double × Double

/-- The constructor `AxisData()`; the interval hint and the scale division are
default constructed. -/
def AxisData.init : AxisData :=
  { aspectRatio := 1, intervalHint := QwtDoubleInterval.invalid,
    expandingDirection := ExpandingDirection.ExpandUp, scaleDiv := (0, 0) }

/-- The class `QwtPlotRescaler::PrivateData`.  The array `axisData` is a function
of the index; the source reads and writes it at indices from 0 to `axisCnt - 1`
only. -/
structure PrivateData where
  referenceAxis : Int
  rescalePolicy : RescalePolicy
  axisData : Int → AxisData
  isEnabled : Bool
  inReplot : Int

/-- The constructor `PrivateData()`. -/
def PrivateData.init : PrivateData :=
  { referenceAxis := QwtPlot.xBottom, rescalePolicy := RescalePolicy.Expanding,
    axisData := fun _ => AxisData.init, isEnabled := false, inReplot := 0 }

/-- The method `setEnabled`; installing the event filter is left to the
widget. -/
def setEnabled (d : PrivateData) (enable : Bool) : PrivateData :=
  if d.isEnabled ≠ enable then { d with isEnabled := enable } else d

/-- The constructor `QwtPlotRescaler(canvas, referenceAxis, policy)`. -/
def construct (referenceAxis : Int) (policy : RescalePolicy) : PrivateData :=
  setEnabled { PrivateData.init with referenceAxis := referenceAxis, rescalePolicy := policy }
    true

/-- The method `setRescalePolicy`. -/
def setRescalePolicy (d : PrivateData) (policy : RescalePolicy) : PrivateData :=
  { d with rescalePolicy := policy }

/-- The method `setReferenceAxis`. -/
def setReferenceAxis (d : PrivateData) (axis : Int) : PrivateData :=
  { d with referenceAxis := axis }

/-- The method `setExpandingDirection(int axis, ExpandingDirection)`. -/
def setExpandingDirection (d : PrivateData) (axis : Int) (direction : ExpandingDirection) :
    PrivateData :=
  if 0 ≤ axis ∧ axis < QwtPlot.axisCnt then
    { d with
      axisData := Function.update d.axisData axis
        ({ d.axisData axis with expandingDirection := direction }) }
  else d

/-- The method `setExpandingDirection(ExpandingDirection)`, the loop over all
axes. -/
def setExpandingDirectionAll (d : PrivateData) (direction : ExpandingDirection) : PrivateData :=
  [0, 1, 2, 3].foldl (fun d axis => setExpandingDirection d axis direction) d

/-- The method `expandingDirection(int axis)`. -/
def expandingDirection (d : PrivateData) (axis : Int) : ExpandingDirection :=
  if 0 ≤ axis ∧ axis < QwtPlot.axisCnt then (d.axisData axis).expandingDirection
  else ExpandingDirection.ExpandBoth

/-- The method `setAspectRatio(int axis, double ratio)`. -/
def setAspectRatio (d : PrivateData) (axis : Int) (ratio : Double) : PrivateData :=
  let ratio := if ratio < 0 then 0 else ratio
  if 0 ≤ axis ∧ axis < QwtPlot.axisCnt then
    { d with
      axisData := Function.update d.axisData axis
        ({ d.axisData axis with aspectRatio := ratio }) }
  else d

/-- The method `setAspectRatio(double ratio)`, the loop over all axes. -/
def setAspectRatioAll (d : PrivateData) (ratio : Double) : PrivateData :=
  [0, 1, 2, 3].foldl (fun d axis => setAspectRatio d axis ratio) d

/-- The method `aspectRatio(int axis)`. -/
def aspectRatio (d : PrivateData) (axis : Int) : Double :=
  if 0 ≤ axis ∧ axis < QwtPlot.axisCnt then (d.axisData axis).aspectRatio else 0

/-- The method `setIntervalHint`. -/
def setIntervalHint (d : PrivateData) (axis : Int) (interval : QwtDoubleInterval) :
    PrivateData :=
  if 0 ≤ axis ∧ axis < QwtPlot.axisCnt then
    { d with
      axisData := Function.update d.axisData axis
        ({ d.axisData axis with intervalHint := interval }) }
  else d

/-- The method `intervalHint(int axis)`. -/
def intervalHint (d : PrivateData) (axis : Int) : QwtDoubleInterval :=
  if 0 ≤ axis ∧ axis < QwtPlot.axisCnt then (d.axisData axis).intervalHint
  else QwtDoubleInterval.invalid

/-- The method `orientation(int axis)`. -/
def orientation (axis : Int) : Orientation :=
  if axis = QwtPlot.yLeft ∨ axis = QwtPlot.yRight then Orientation.Vertical
  else Orientation.Horizontal

/-- The method `interval(int axis)`, the normalized bounds of the axis of the
plot. -/
def interval (plot : Plot) (axis : Int) : QwtDoubleInterval :=
  if axis < 0 ∨ axis ≥ QwtPlot.axisCnt then QwtDoubleInterval.invalid
  else
    let v1 := plot.lowerBound axis
    let v2 := plot.upperBound axis
    QwtDoubleInterval.normalized ⟨v1, v2⟩

/-- The method `expandInterval(interval, width, direction)`. -/
def expandInterval (interval : QwtDoubleInterval) (width : Double)
    (direction : ExpandingDirection) : QwtDoubleInterval :=
  let expanded := interval
  match direction with
  | ExpandingDirection.ExpandUp =>
    let expanded := expanded.setMinValue interval.minValue
    expanded.setMaxValue (interval.minValue + width)
  | ExpandingDirection.ExpandDown =>
    let expanded := expanded.setMaxValue interval.maxValue
    expanded.setMinValue (interval.maxValue - width)
  | ExpandingDirection.ExpandBoth =>
    let expanded := expanded.setMinValue (interval.minValue + interval.width / 2 - width / 2)
    expanded.setMaxValue (expanded.minValue + width)

/-- The method `pixelDist(int axis, const QSize &size)`. -/
def pixelDist (d : PrivateData) (axis : Int) (size : QSize) : Double :=
  let intv := intervalHint d axis
  let dist : Double :=
    if ¬ intv.isNull then
      if axis = d.referenceAxis then intv.width
      else
        let r := aspectRatio d axis
        if r > 0 then intv.width * r else 0
    else 0
  if dist > 0 then
    if orientation axis = Orientation.Horizontal then dist / Double.ofInt size.wd
    else dist / Double.ofInt size.ht
  else dist

/-- The method `expandScale(axis, oldSize, newSize)`. -/
def expandScale (d : PrivateData) (plot : Plot) (axis : Int) (oldSize newSize : QSize) :
    QwtDoubleInterval :=
  let oldInterval := interval plot axis
  match d.rescalePolicy with
  | RescalePolicy.Fixed => oldInterval
  | RescalePolicy.Expanding =>
    if ¬ oldSize.isEmpty then
      let width := oldInterval.width
      let width :=
        if orientation axis = Orientation.Horizontal then
          width * (Double.ofInt newSize.wd / Double.ofInt oldSize.wd)
        else width * (Double.ofInt newSize.ht / Double.ofInt oldSize.ht)
      expandInterval oldInterval width (expandingDirection d axis)
    else oldInterval
  | RescalePolicy.Fitting =>
    let dist : Double := [0, 1, 2, 3].foldl
      (fun dist ax => if pixelDist d ax newSize > dist then pixelDist d ax newSize else dist) 0
    if dist > 0 then
      let width :=
        if orientation axis = Orientation.Horizontal then Double.ofInt newSize.wd * dist
        else Double.ofInt newSize.ht * dist
      expandInterval (intervalHint d axis) width (expandingDirection d axis)
    else oldInterval

/-- The method `syncScale(axis, reference, size)`. -/
def syncScale (d : PrivateData) (plot : Plot) (axis : Int) (reference : QwtDoubleInterval)
    (size : QSize) : QwtDoubleInterval :=
  let dist : Double :=
    if orientation d.referenceAxis = Orientation.Horizontal then reference.width / Double.ofInt size.wd
    else reference.width / Double.ofInt size.ht
  let dist : Double :=
    if orientation axis = Orientation.Horizontal then dist * Double.ofInt size.wd
    else dist * Double.ofInt size.ht
  let dist : Double := dist / aspectRatio d axis
  let intv :=
    if d.rescalePolicy = RescalePolicy.Fitting then intervalHint d axis else interval plot axis
  expandInterval intv dist (expandingDirection d axis)

/-- The calls the rescaler makes on the plot: `setAxisScale(axis, v1, v2)`,
`setAxisScaleDiv(axis, QwtScaleDiv(v1, v2, ticks))` (the ticks are not kept)
and `replot()`, recorded with the value `inReplot` has during the call. -/
inductive PlotCall where
  | setAxisScale (axis : Int) (v1 v2 : Double)
  | setAxisScaleDiv (axis : Int) (v1 v2 : Double)
  | replot (inReplot : Int)
deriving DecidableEq

/-- The value of `inReplot` a recorded call was made at, 0 for the calls that
are not `replot()`. -/
def PlotCall.depth : PlotCall → Int
  | PlotCall.replot k => k
  | _ => 0

/-- The rescaler at work: its private data and the calls made on the plot so
far, in order. -/
structure Run where
  data : PrivateData
  calls : List PlotCall

/-- The body of the loop over the axes in `updateScales`. -/
def updateAxis (plot : Plot) (intervals : Int → QwtDoubleInterval) (r : Run) (axis : Int) :
    Run :=
  if axis = r.data.referenceAxis ∨ aspectRatio r.data axis > 0 then
    let v1 := (intervals axis).minValue
    let v2 := (intervals axis).maxValue
    let swap : Bool := plot.lowerBound axis > plot.upperBound axis
    let w1 := if swap then v2 else v1
    let w2 := if swap then v1 else v2
    let data : PrivateData :=
      if r.data.inReplot ≥ 1 then
        { r.data with
          axisData := Function.update r.data.axisData axis
            ({ r.data.axisData axis with
              scaleDiv := (plot.lowerBound axis, plot.upperBound axis) }) }
      else r.data
    if r.data.inReplot ≥ 2 then
      { data := data, calls := r.calls ++ [PlotCall.setAxisScaleDiv axis w1 w2] }
    else { data := data, calls := r.calls ++ [PlotCall.setAxisScale axis w1 w2] }
  else r

/-- The method `updateScales(intervals)`.  The argument `replot` is what
`plt->replot()` does to the rescaler; it returns `none` when a call it makes
runs into undefined behaviour. -/
def updateScales (r : Run) (plot : Plot) (intervals : Int → QwtDoubleInterval)
    (replot : Run → Option Run) : Option Run :=
  if r.data.inReplot ≥ 5 then some r
  else
    let r1 := [0, 1, 2, 3].foldl (updateAxis plot intervals) r
    let r2 : Run :=
      { data := { r1.data with inReplot := r1.data.inReplot + 1 },
        calls := r1.calls ++ [PlotCall.replot (r1.data.inReplot + 1)] }
    match replot r2 with
    | some r3 => some { r3 with data := { r3.data with inReplot := r3.data.inReplot - 1 } }
    | none => none

/-- The method `rescale(oldSize, newSize)`.  The local array `intervals` is a
function of the index; a reference axis outside the array (a write outside
`intervals`, undefined in C++) gives `none`. -/
def rescale (r : Run) (plot : Plot) (oldSize newSize : QSize) (replot : Run → Option Run) :
    Option Run :=
  if newSize.isEmpty then some r
  else
    let intervals : Int → QwtDoubleInterval := fun axis => interval plot axis
    let refAxis := r.data.referenceAxis
    if refAxis < 0 ∨ QwtPlot.axisCnt ≤ refAxis then none
    else
      let intervals := Function.update intervals refAxis
        (expandScale r.data plot refAxis oldSize newSize)
      let intervals := [0, 1, 2, 3].foldl
        (fun iv axis =>
          if aspectRatio r.data axis > 0 ∧ axis ≠ refAxis then
            Function.update iv axis (syncScale r.data plot axis (iv refAxis) newSize)
          else iv) intervals
      updateScales r plot intervals replot

/-- What a `replot()` of the plot does to the rescaler: it returns, or a resize
or polish event of the canvas reaches the event filter and re-enters
`rescale(oldSize, newSize)`, on the plot as it is then, with a replot `inner`
of its own, before the replot goes on with `rest`. -/
inductive Replot where
  | done
  | reenter (plot : Plot) (oldSize newSize : QSize) (inner rest : Replot)

/-- The effect of a replot on the rescaler. -/
def Replot.run : Replot → Run → Option Run
  | Replot.done, r => some r
  | Replot.reenter plot oldSize newSize inner rest, r =>
    match rescale r plot oldSize newSize (Replot.run inner) with
    | some r1 => Replot.run rest r1
    | none => none

/-- The pixel length of an axis on a canvas of the given size: the width for a
horizontal and the height for a vertical axis. -/
def pixelLength (size : QSize) (axis : Int) : Int :=
  if orientation axis = Orientation.Horizontal then size.wd else size.ht

/-- The reference axis is one of the axes of the plot. -/
def Run.validRef (r : Run) : Prop :=
  0 ≤ r.data.referenceAxis ∧ r.data.referenceAxis < QwtPlot.axisCnt

/-- Every `replot()` recorded so far was called with `inReplot` at 5 or
below. -/
def Run.bounded (r : Run) : Prop := ∀ e ∈ r.calls, e.depth ≤ 5

/-- What a run from `r` to `r1` keeps: the counter `inReplot`, the reference
axis, the aspect ratios, and the bound on the recorded replots. -/
def Run.keeps (r r1 : Run) : Prop :=
  r1.data.inReplot = r.data.inReplot ∧ r1.data.referenceAxis = r.data.referenceAxis ∧
    (∀ axis, (r1.data.axisData axis).aspectRatio = (r.data.axisData axis).aspectRatio) ∧
    (r.bounded → r1.bounded)

/-- A behaviour of `plt->replot()` that returns whenever the reference axis is
an axis of the plot, and keeps what `Run.keeps` lists. -/
def goodReplot (replot : Run → Option Run) : Prop :=
  ∀ r : Run, r.validRef → ∃ r1, replot r = some r1 ∧ r.keeps r1

/-- The public operations of a rescaler that change its data, with their
arguments; `rescale` comes with the plot it reads and the replot it causes. -/
inductive Op where
  | setEnabled (enable : Bool)
  | setRescalePolicy (policy : RescalePolicy)
  | setReferenceAxis (axis : Int)
  | setExpandingDirection (axis : Int) (direction : ExpandingDirection)
  | setExpandingDirectionAll (direction : ExpandingDirection)
  | setAspectRatio (axis : Int) (ratio : Double)
  | setAspectRatioAll (ratio : Double)
  | setIntervalHint (axis : Int) (interval : QwtDoubleInterval)
  | rescale (plot : Plot) (oldSize newSize : QSize) (replot : Replot)

/-- The call of an operation on a rescaler. -/
def Op.run : Op → PrivateData → Option PrivateData
  | Op.setEnabled enable, d => some (Rescaler.setEnabled d enable)
  | Op.setRescalePolicy policy, d => some (Rescaler.setRescalePolicy d policy)
  | Op.setReferenceAxis axis, d => some (Rescaler.setReferenceAxis d axis)
  | Op.setExpandingDirection axis direction, d =>
    some (Rescaler.setExpandingDirection d axis direction)
  | Op.setExpandingDirectionAll direction, d =>
    some (Rescaler.setExpandingDirectionAll d direction)
  | Op.setAspectRatio axis ratio, d => some (Rescaler.setAspectRatio d axis ratio)
  | Op.setAspectRatioAll ratio, d => some (Rescaler.setAspectRatioAll d ratio)
  | Op.setIntervalHint axis interval, d => some (Rescaler.setIntervalHint d axis interval)
  | Op.rescale plot oldSize newSize replot, d =>
    match Rescaler.rescale ⟨d, []⟩ plot oldSize newSize replot.run with
    | some r => some r.data
    | none => none

/-- The rescalers that calls of the allowed operations lead to, from a freshly
constructed one. -/
inductive Reachable (allowed : Op → Prop) : PrivateData → Prop
  | construct (referenceAxis : Int) (policy : RescalePolicy) :
      Reachable allowed (construct referenceAxis policy)
  | step (d : PrivateData) (op : Op) (d1 : PrivateData) :
      Reachable allowed d → allowed op → op.run d = some d1 → Reachable allowed d1

/-- The ratio the operation passes, if it passes one, is a number: not NaN. -/
def Op.ratioIsNumber : Op → Prop
  | Op.setAspectRatio _ ratio => ratio ≠ Double.nan
  | Op.setAspectRatioAll ratio => ratio ≠ Double.nan
  | _ => True

/-- A plot whose axes all start at 0; `xBottom` ends at 100, the others at
50. -/
def samplePlot : Plot :=
  { lowerBound := fun _ => 0, upperBound := fun axis => if axis = 2 then 100 else 50 }

/-- A rescaler with reference axis `xBottom` and the Expanding policy, as
constructed. -/
def sampleRescaler : PrivateData := construct QwtPlot.xBottom RescalePolicy.Expanding

end Rescaler

/-- The stack is within the depth limit: at most `maxStackDepth` rectangles
above the zoom base, and the position not above `maxStackDepth`. -/
def PrivateData.withinDepth (d : PrivateData) : Prop :=
  (d.zoomStack.length : Int) ≤ d.maxStackDepth + 1 ∧ (d.zoomRectIndex : Int) ≤ d.maxStackDepth

namespace Rescaler

/-- The largest `pixelDist` over the axes, the loop of the Fitting branch of
`expandScale`. -/
def maxPixelDist (d : PrivateData) (size : QSize) : Double :=
  [0, 1, 2, 3].foldl
    (fun dist ax => if pixelDist d ax size > dist then pixelDist d ax size else dist) 0

/-- A plot whose axes all run from 0.1 to 0.4. -/
def tenthsPlot : Plot :=
  { lowerBound := fun _ => Double.finite Double.lit_0_1,
    upperBound := fun _ => Double.finite Double.lit_0_4 }

end Rescaler

/-- Modelled from the spec: Qt's `qRound(double)`, "round-half-away-from-zero";
`none` for a value that is not an `int`. -/
def qRound (d : ℚ) : Option Int :=
  let n : Int := if 0 ≤ d then ⌊d + 1 / 2⌋ else ⌈d - 1 / 2⌉
  if -2147483648 ≤ n ∧ n ≤ 2147483647 then some n else none

/-- Modelled from the spec: the constructor `QRect(x, y, width, height)`. -/
def QRect.ofSize (x y width height : Int) : QRect := ⟨x, y, x + width - 1, y + height - 1⟩

/-- The class `QwtMetricsMap`: the four ratios, exact rationals here. -/
structure QwtMetricsMap where
  d_screenToLayoutX : ℚ
  d_screenToLayoutY : ℚ
  d_deviceToLayoutX : ℚ
  d_deviceToLayoutY : ℚ

namespace QwtMetricsMap

/-- The method `isIdentity()`. -/
def isIdentity (m : QwtMetricsMap) : Bool := m.d_deviceToLayoutX = 1 ∧ m.d_deviceToLayoutY = 1

/-- The method `layoutToDeviceX(int x)`; a division by a ratio of 0 gives
`none`. -/
def layoutToDeviceX (m : QwtMetricsMap) (x : Int) : Option Int :=
  if m.d_deviceToLayoutX = 0 then none else qRound ((x : ℚ) / m.d_deviceToLayoutX)

/-- The method `deviceToLayoutX(int x)`. -/
def deviceToLayoutX (m : QwtMetricsMap) (x : Int) : Option Int :=
  qRound ((x : ℚ) * m.d_deviceToLayoutX)

/-- The method `screenToLayoutX(int x)`. -/
def screenToLayoutX (m : QwtMetricsMap) (x : Int) : Option Int :=
  qRound ((x : ℚ) * m.d_screenToLayoutX)

/-- The method `layoutToScreenX(int x)`; a division by a ratio of 0 gives
`none`. -/
def layoutToScreenX (m : QwtMetricsMap) (x : Int) : Option Int :=
  if m.d_screenToLayoutX = 0 then none else qRound ((x : ℚ) / m.d_screenToLayoutX)

/-- The method `layoutToDeviceY(int y)`; a division by a ratio of 0 gives
`none`. -/
def layoutToDeviceY (m : QwtMetricsMap) (y : Int) : Option Int :=
  if m.d_deviceToLayoutY = 0 then none else qRound ((y : ℚ) / m.d_deviceToLayoutY)

/-- The method `deviceToLayoutY(int y)`. -/
def deviceToLayoutY (m : QwtMetricsMap) (y : Int) : Option Int :=
  qRound ((y : ℚ) * m.d_deviceToLayoutY)

/-- The method `screenToLayoutY(int y)`. -/
def screenToLayoutY (m : QwtMetricsMap) (y : Int) : Option Int :=
  qRound ((y : ℚ) * m.d_screenToLayoutY)

/-- The method `layoutToScreenY(int y)`; a division by a ratio of 0 gives
`none`. -/
def layoutToScreenY (m : QwtMetricsMap) (y : Int) : Option Int :=
  if m.d_screenToLayoutY = 0 then none else qRound ((y : ℚ) / m.d_screenToLayoutY)

/-- The method `layoutToDevice(const QPoint &, const QPainter *)`, called
without a painter. -/
def layoutToDevice (m : QwtMetricsMap) (point : QPoint) : Option QPoint :=
  if m.isIdentity then some point
  else
    match m.layoutToDeviceX point.x, m.layoutToDeviceY point.y with
    | some x, some y => some ⟨x, y⟩
    | _, _ => none

/-- The method `deviceToLayout(const QPoint &, const QPainter *)`, called
without a painter. -/
def deviceToLayout (m : QwtMetricsMap) (point : QPoint) : Option QPoint :=
  if m.isIdentity then some point
  else
    match m.deviceToLayoutX point.x, m.deviceToLayoutY point.y with
    | some x, some y => some ⟨x, y⟩
    | _, _ => none

/-- The method `screenToLayout(const QPoint &)`. -/
def screenToLayout (m : QwtMetricsMap) (point : QPoint) : Option QPoint :=
  if m.d_screenToLayoutX = 1 ∧ m.d_screenToLayoutY = 1 then some point
  else
    match m.screenToLayoutX point.x, m.screenToLayoutY point.y with
    | some x, some y => some ⟨x, y⟩
    | _, _ => none

/-- The method `layoutToScreen(const QPoint &)`. -/
def layoutToScreen (m : QwtMetricsMap) (point : QPoint) : Option QPoint :=
  if m.d_screenToLayoutX = 1 ∧ m.d_screenToLayoutY = 1 then some point
  else
    match m.layoutToScreenX point.x, m.layoutToScreenY point.y with
    | some x, some y => some ⟨x, y⟩
    | _, _ => none

/-- The method `layoutToDevice(const QRect &, const QPainter *)`, called
without a painter: `dx` and `dy` stay 0. -/
def layoutToDeviceRect (m : QwtMetricsMap) (rect : QRect) : Option QRect :=
  if m.isIdentity then some rect
  else
    let dx : Int := 0
    let dy : Int := 0
    let mappedRect := rect
    match m.layoutToDevice mappedRect.topLeft, m.layoutToDevice mappedRect.bottomRight with
    | some topLeft, some bottomRight =>
      let mappedRect := QRect.ofPoints topLeft bottomRight
      some (QRect.ofSize (mappedRect.x1 - dx) (mappedRect.y1 - dy) mappedRect.width
        mappedRect.height)
    | _, _ => none

/-- The method `deviceToLayout(const QRect &, const QPainter *)`, called
without a painter. -/
def deviceToLayoutRect (m : QwtMetricsMap) (rect : QRect) : Option QRect :=
  if m.isIdentity then some rect
  else
    let mappedRect := rect
    match m.deviceToLayout mappedRect.topLeft, m.deviceToLayout mappedRect.bottomRight with
    | some topLeft, some bottomRight => some (QRect.ofPoints topLeft bottomRight)
    | _, _ => none

/-- The method `screenToLayout(const QRect &)`. -/
def screenToLayoutRect (m : QwtMetricsMap) (rect : QRect) : Option QRect :=
  if m.d_screenToLayoutX = 1 ∧ m.d_screenToLayoutY = 1 then some rect
  else
    match m.screenToLayoutX rect.x1, m.screenToLayoutY rect.y1,
      m.screenToLayoutX rect.width, m.screenToLayoutY rect.height with
    | some x, some y, some w, some h => some (QRect.ofSize x y w h)
    | _, _, _, _ => none

/-- The method `layoutToScreen(const QRect &)`. -/
def layoutToScreenRect (m : QwtMetricsMap) (rect : QRect) : Option QRect :=
  if m.d_screenToLayoutX = 1 ∧ m.d_screenToLayoutY = 1 then some rect
  else
    match m.layoutToScreenX rect.x1, m.layoutToScreenY rect.y1,
      m.layoutToScreenX rect.width, m.layoutToScreenY rect.height with
    | some x, some y, some w, some h => some (QRect.ofSize x y w h)
    | _, _, _, _ => none

/-- The rectangle from the transformed top-left to the transformed
bottom-right corner of `rect`, for a transform `f` of points. -/
def mapCorners (f : QPoint → Option QPoint) (rect : QRect) : Option QRect :=
  match f rect.topLeft, f rect.bottomRight with
  | some topLeft, some bottomRight => some (QRect.ofPoints topLeft bottomRight)
  | _, _ => none

end QwtMetricsMap

/-- A metrics map with four layout units per screen pixel and the device at
layout resolution. -/
def sampleMetrics : QwtMetricsMap :=
  { d_screenToLayoutX := 4, d_screenToLayoutY := 4, d_deviceToLayoutX := 1,
    d_deviceToLayoutY := 1 }

/-- Modelled from the spec: the linear `ScaleMap` (`QwtScaleMap` of the absent
`qwt_scale_map.h`): the scale interval from `s0` to `s1` and the paint interval
from `p0` to `p1`, exact rationals here. -/
structure QwtScaleMap where
  s0 : ℚ
  s1 : ℚ
  p0 : ℚ
  p1 : ℚ

namespace QwtScaleMap

/-- Modelled from the spec: `setScaleInterval(lo, hi)`. -/
def setScaleInterval (m : QwtScaleMap) (lo hi : ℚ) : QwtScaleMap := { m with s0 := lo, s1 := hi }

/-- Modelled from the spec: `setPaintInterval(lo, hi)`. -/
def setPaintInterval (m : QwtScaleMap) (lo hi : ℚ) : QwtScaleMap := { m with p0 := lo, p1 := hi }

/-- Modelled from the spec: `transform(dataValue)`, "pixel = p0 + (value - s0) *
(p1-p0)/(s1-s0)"; the "degenerate case s1 == s0 must fail", which is `none`. -/
def transform (m : QwtScaleMap) (value : ℚ) : Option ℚ :=
  if m.s1 = m.s0 then none
  else some (m.p0 + (value - m.s0) * (m.p1 - m.p0) / (m.s1 - m.s0))

/-- Modelled from the spec: `invTransform(pixelValue)`, "the exact algebraic
inverse" of `transform`, value = s0 + (pixel - p0) * (s1-s0)/(p1-p0); the
division by zero for p1 == p0 is `none`. -/
def invTransform (m : QwtScaleMap) (pixel : ℚ) : Option ℚ :=
  if m.p1 = m.p0 then none
  else some (m.s0 + (pixel - m.p0) * (m.s1 - m.s0) / (m.p1 - m.p0))

end QwtScaleMap

/-- The map of the example: scale interval from 0 to 100, paint interval from 0
to 500. -/
def sampleScaleMap : QwtScaleMap :=
  (QwtScaleMap.setScaleInterval ⟨0, 0, 0, 0⟩ 0 100).setPaintInterval 0 500

/-- A map with the scale interval from 0 to 100 and the paint interval
collapsed to the pixel 5. -/
def flatScaleMap : QwtScaleMap :=
  (QwtScaleMap.setScaleInterval ⟨0, 0, 0, 0⟩ 0 100).setPaintInterval 5 5

/-- The squared pixel distance `f` that `closestPoint` computes for a curve
point: `qwtSqr(cx) + qwtSqr(cy)` with `cx = xMap.xTransform(x(i)) - pos.x()` and
`cy = yMap.xTransform(y(i)) - pos.y()`, every operation rounded to `double`.
The two canvas maps enter as the functions their `xTransform` is, on finite
values; a square beyond the range of `double`, an infinity in the source, is a
finite number here that compares with `dmin` in the same way. -/
def sqrDistance (xMap yMap : ℚ → ℚ) (pos : QPoint) (p : ℚ × ℚ) : ℚ :=
  let cx := Double.fl (xMap p.1 - (pos.x : ℚ))
  let cy := Double.fl (yMap p.2 - (pos.y : ℚ))
  Double.fl (Double.fl (cx * cx) + Double.fl (cy * cy))

/-- The loop of `QwtPlotCurve::closestPoint` over the points from index `i` on,
with `index` and `dmin` as they are on entry. -/
def closestLoop (xMap yMap : ℚ → ℚ) (pos : QPoint) :
    List (ℚ × ℚ) → Int → Int × ℚ → Int × ℚ
  | [], _, found => found
  | p :: rest, i, (index, dmin) =>
    let f := sqrDistance xMap yMap pos p
    if f < dmin then closestLoop xMap yMap pos rest (i + 1) (i, f)
    else closestLoop xMap yMap pos rest (i + 1) (index, dmin)

/-- The method `QwtPlotCurve::closestPoint(pos, dist)`: the index returned, and
the value of `dmin` whose square root is stored in `*dist` (`none` when nothing
is stored).  The argument `plot` is `none` for a curve without a plot and holds
the canvas maps of the two axes otherwise; `data` are the points of the curve,
`dataSize()` is their number as an `int`. -/
def closestPoint (plot : Option ((ℚ → ℚ) × (ℚ → ℚ))) (data : List (ℚ × ℚ)) (pos : QPoint) :
    Int × Option ℚ :=
  match plot with
  | none => (-1, none)
  | some (xMap, yMap) =>
    let dataSize := toInt data.length
    if dataSize ≤ 0 then (-1, none)
    else
      let found := closestLoop xMap yMap pos (data.take dataSize.toNat) 0 (-1, 10000000000)
      (found.1, some found.2)

/-- The loop `for ( int i = 0; i < numPoints; i += splitSize )` of the split
mode of `QwtPainter::drawPolyline`, from the counter `i` on: every call
`painter->drawPolyline(points + i, n)` as the pair of `i` and `n`, where `size`
is `cpa.size()`.  The rounds are bounded by `fuel`; the result is `none` when
the fuel is used up, or when `i += splitSize` leaves the range of `int`. -/
def splitLoop (numPoints size : Int) : Nat → Int → Option (List (Int × Int))
  | 0, i => if i < numPoints then none else some []
  | fuel + 1, i =>
    if i < numPoints then
      let splitSize : Int := 20
      let n := min (splitSize + 1) (size - i)
      if 2147483647 < i + splitSize then none
      else
        match splitLoop numPoints size fuel (i + splitSize) with
        | some calls => some ((i, n) :: calls)
        | none => none
    else some []

/-- The method `QwtPainter::drawPolyline(painter, pa)`, for a polygon of
`QPoint` as for one of `QPointF`, from the mapped and clipped polygon `cpa` on:
the calls of `QPainter::drawPolyline` it makes, each as the index of its first
point in `cpa` and its number of points.  The flag `raster` says that the
painter has a paint engine of type `Raster`; `penWidth` is
`painter->pen().width()`. -/
def drawPolyline {α : Type} (raster : Bool) (penWidth : Int) (cpa : List α) :
    Option (List (Int × Int)) :=
  let doSplit : Bool := raster ∧ penWidth ≥ 2
  if doSplit then
    let numPoints := toInt cpa.length
    splitLoop numPoints (toInt cpa.length) cpa.length 0
  else some [(0, toInt cpa.length)]

/-- The call of `QPainter::drawPolyline` on the points from index `c.1` on,
`c.2` of them, draws the segment from the point `k` to the point `k + 1`. -/
def drawsSegment (k : Int) (c : Int × Int) : Bool := c.1 ≤ k ∧ k + 1 < c.1 + c.2

/-- Modelled from the spec: `qwtLim(x, x1, x2)` of the absent `qwt_math.h`, the
value `x` limited to the range between `x1` and `x2`. -/
def qwtLim (x x1 x2 : Int) : Int :=
  let xmin := min x1 x2
  let xmax := max x1 x2
  if x < xmin then xmin else if x > xmax then xmax else x

/-- The function `verifyRange(size, i1, i2)` of `qwt_plot_curve.cpp`: the value
returned, and `i1` and `i2` afterwards. -/
def verifyRange (size i1 i2 : Int) : Int × Int × Int :=
  if size < 1 then (0, i1, i2)
  else
    let i1 := qwtLim i1 0 (size - 1)
    let i2 := qwtLim i2 0 (size - 1)
    let swapped : Int × Int := if i1 > i2 then (i2, i1) else (i1, i2)
    (swapped.2 - swapped.1 + 1, swapped.1, swapped.2)

/-- The enumeration `QwtPlotCurve::CurveStyle`. -/
inductive CurveStyle where
  | NoCurve
  | Lines
  | Sticks
  | Steps
  | Dots
deriving DecidableEq

/-- What `QwtPlotCurve` keeps of a curve: the points `d_xy`, the style, whether
the attribute `Fitted` is set in `d_data->attributes`, and whether
`d_data->curveFitter` is set. -/
structure Curve where
  data : List (ℚ × ℚ)
  style : CurveStyle
  fitted : Bool
  curveFitter : Bool

/-- The method `QwtPlotCurve::dataSize()`, the number of points as an `int`. -/
def Curve.dataSize (c : Curve) : Int := toInt c.data.length

/-- How far a call that draws a curve is followed: it returned without drawing,
or it reached `fitCurve(points)` in `drawLines` with the buffer `points`, or it
took another way that is not followed. -/
inductive Drawn where
  | nothing
  | fitting (points : List (ℚ × ℚ))
  | other
deriving DecidableEq

/-- The loop `for (int i = from; i <= to; i++)` of the fitted branch of
`drawLines`, over the values `i` takes: each round writes the transformed
point `x(i)`, `y(i)` to `points[i]`.  An index outside the buffer `points`, or
outside the data of the curve, gives `none`. -/
def fillPoints (c : Curve) (xMap yMap : ℚ → ℚ) :
    List Int → List (ℚ × ℚ) → Option (List (ℚ × ℚ))
  | [], points => some points
  | i :: rest, points =>
    if 0 ≤ i ∧ i < (points.length : Int) then
      match c.data[i.toNat]? with
      | some p => fillPoints c xMap yMap rest (points.set i.toNat (xMap p.1, yMap p.2))
      | none => none
    else none

/-- The method `QwtPlotCurve::drawLines(painter, xMap, yMap, from, to)`, followed
up to the call of `fitCurve`; the arguments `from` and `to` are `first` and
`last`, and the maps enter as the functions their `xTransform` is. -/
def drawLines (c : Curve) (xMap yMap : ℚ → ℚ) (first last : Int) : Option Drawn :=
  let size := last - first + 1
  if size ≤ 0 then some Drawn.nothing
  else if c.fitted ∧ c.curveFitter then
    let points : List (ℚ × ℚ) := List.replicate size.toNat (0, 0)
    match fillPoints c xMap yMap
        ((List.range size.toNat).map (fun (k : Nat) => first + (k : Int))) points with
    | some points => some (Drawn.fitting points)
    | none => none
  else some Drawn.other

/-- The method `QwtPlotCurve::drawCurve(painter, style, xMap, yMap, from, to)`. -/
def drawCurve (c : Curve) (style : CurveStyle) (xMap yMap : ℚ → ℚ) (first last : Int) :
    Option Drawn :=
  match style with
  | CurveStyle.Lines =>
    let range : Int × Int := if c.fitted then (0, c.dataSize - 1) else (first, last)
    drawLines c xMap yMap range.1 range.2
  | CurveStyle.Sticks => some Drawn.other
  | CurveStyle.Steps => some Drawn.other
  | CurveStyle.Dots => some Drawn.other
  | CurveStyle.NoCurve => some Drawn.nothing

/-- The method `QwtPlotCurve::draw(painter, xMap, yMap, from, to)`, up to the
call of `drawCurve`; `painter` says that the pointer is not null. -/
def draw (c : Curve) (painter : Bool) (xMap yMap : ℚ → ℚ) (first last : Int) : Option Drawn :=
  if ¬ painter ∨ c.dataSize ≤ 0 then some Drawn.nothing
  else
    let last := if last < 0 then c.dataSize - 1 else last
    let verified := verifyRange c.dataSize first last
    if verified.1 > 0 then drawCurve c c.style xMap yMap verified.2.1 verified.2.2
    else some Drawn.nothing

/-- A curve of three points drawn as fitted lines. -/
def sampleCurve : Curve :=
  { data := [(0, 0), (1, 2), (2, 1)], style := CurveStyle.Lines, fitted := true,
    curveFitter := true }

/-! ## Machine integers and the pop loop -/

theorem toInt_of_lt (n : Nat) (h : n < 2147483648) : toInt n = (n : Int) := by
  unfold toInt
  have h1 : n % 4294967296 = n := Nat.mod_eq_of_lt (by omega)
  rw [h1, if_pos h]

/-- A natural number below 2^32 keeps its value as a `uint`. -/
theorem toUInt_of_nat (n : Nat) (h : n < 4294967296) : toUInt (n : Int) = n := by
  unfold toUInt
  have : ((n : Int) % 4294967296) = (n : Int) := Int.emod_eq_of_lt (by omega) (by omega)
  rw [this]; simp

/-- The pop loop started at the top of a stack leaves the entries up to
position `idx`. -/
theorem popTrailing_eq_take (i idx : Nat) :
    ∀ st : List QwtDoubleRect, st.length = i + 1 → idx ≤ i →
      popTrailing i idx st = some (st.take (idx + 1)) := by
  induction i with
  | zero =>
    intro st hlen _
    simp only [popTrailing]
    rw [List.take_of_length_le (by omega)]
  | succ k ih =>
    intro st hlen hidx
    by_cases hlt : idx < k + 1
    · cases st with
      | nil => simp at hlen
      | cons a t =>
        simp only [popTrailing, if_pos hlt]
        have hl : (a :: t).dropLast.length = k + 1 := by
          rw [List.length_dropLast]; simp at hlen ⊢; omega
        rw [ih _ hl (by omega), List.dropLast_eq_take, List.take_take]
        congr 2
        simp at hlen ⊢
        omega
    · simp only [popTrailing, if_neg hlt]
      rw [List.take_of_length_le (by omega)]

/-! ## The arithmetic of `double` -/

namespace Double

theorem ulp_pos (x : ℚ) : 0 < ulp x := by
  unfold ulp
  positivity

theorem roundToEven_error (y : ℚ) : |((roundToEven y : Int) : ℚ) - y| ≤ 1 / 2 := by
  have h1 := Int.floor_le y
  have h2 := Int.lt_floor_add_one y
  unfold roundToEven
  split_ifs with a b c
  · rw [abs_le]; constructor <;> linarith
  · rw [abs_le]; push_cast; constructor <;> linarith
  · rw [abs_le]; constructor <;> linarith
  · rw [abs_le]; push_cast; constructor <;> linarith

theorem roundToEven_eq (y : ℚ) (m : Int) (h : |y - m| < 1 / 2) : roundToEven y = m := by
  have h1 := roundToEven_error y
  rw [abs_lt] at h
  rw [abs_le] at h1
  have h3 : |((roundToEven y : Int) : ℚ) - (m : ℚ)| < 1 := by
    rw [abs_lt]; constructor <;> linarith [h.1, h.2, h1.1, h1.2]
  have h4 : |roundToEven y - m| < 1 := by exact_mod_cast h3
  have := Int.abs_lt_one_iff.mp h4
  omega

theorem roundToEven_tie (y : ℚ) (m : Int) (h : y - m = 1 / 2 ∨ y - m = -(1 / 2))
    (he : m % 2 = 0) : roundToEven y = m := by
  unfold roundToEven
  rcases h with h | h
  · have hf : ⌊y⌋ = m := by
      rw [Int.floor_eq_iff]; constructor <;> linarith
    rw [hf]
    rw [if_neg (by linarith), if_neg (by linarith), if_pos he]
  · have hf : ⌊y⌋ = m - 1 := by
      rw [Int.floor_eq_iff]; push_cast; constructor <;> linarith
    rw [hf]
    push_cast
    rw [if_neg (by linarith), if_neg (by linarith), if_neg (by omega)]
    ring

theorem exponent_eq (x : ℚ) (e : Int) (he : -1022 ≤ e) (h1 : (2 : ℚ) ^ e ≤ |x|)
    (h2 : |x| < (2 : ℚ) ^ (e + 1)) : exponent x = e := by
  have hpos : 0 < |x| := lt_of_lt_of_le (by positivity) h1
  have hlow : (2 : ℚ) ^ (-1022 : Int) ≤ |x| :=
    le_trans (zpow_le_zpow_right₀ (by norm_num) he) h1
  unfold exponent
  rw [if_neg (not_lt.mpr hlow)]
  have a1 : e ≤ Int.log 2 |x| := (Int.zpow_le_iff_le_log (by norm_num) hpos).mp (by exact_mod_cast h1)
  have a2 : Int.log 2 |x| < e + 1 := (Int.lt_zpow_iff_log_lt (by norm_num) hpos).mp (by exact_mod_cast h2)
  omega

theorem exponent_subnormal (x : ℚ) (h : |x| < (2 : ℚ) ^ (-1022 : Int)) : exponent x = -1022 := by
  unfold exponent
  rw [if_pos h]

theorem fl_eq (x : ℚ) (e m : Int) (hexp : exponent x = e)
    (hm : roundToEven (x / (2 : ℚ) ^ (e - 52)) = m) : fl x = (m : ℚ) * (2 : ℚ) ^ (e - 52) := by
  unfold fl ulp
  rw [hexp, hm]

theorem fl_zero : fl 0 = 0 := by
  unfold fl
  rw [zero_div]
  have : roundToEven 0 = 0 := roundToEven_eq 0 0 (by norm_num)
  rw [this]
  simp

/-- The rounding error of `fl`: at most half the distance of neighbouring
doubles. -/
theorem fl_error_ulp (x : ℚ) : |fl x - x| ≤ ulp x / 2 := by
  have hu := ulp_pos x
  have h := roundToEven_error (x / ulp x)
  unfold fl
  have e : ((roundToEven (x / ulp x) : Int) : ℚ) * ulp x - x =
      (((roundToEven (x / ulp x) : Int) : ℚ) - x / ulp x) * ulp x := by
    field_simp
  rw [e, abs_mul, abs_of_pos hu]
  calc |((roundToEven (x / ulp x) : Int) : ℚ) - x / ulp x| * ulp x ≤ 1 / 2 * ulp x :=
        mul_le_mul_of_nonneg_right h hu.le
    _ = ulp x / 2 := by ring

/-- The rounding error of `fl`, relative to the value, and absolute for the
subnormal values. -/
theorem fl_error (x : ℚ) :
    |fl x - x| ≤ |x| * (2 : ℚ) ^ (-53 : Int) + (2 : ℚ) ^ (-1075 : Int) := by
  have h := fl_error_ulp x
  have hu : ulp x / 2 ≤ |x| * (2 : ℚ) ^ (-53 : Int) + (2 : ℚ) ^ (-1075 : Int) := by
    unfold ulp exponent
    split_ifs with hs
    · have : (2 : ℚ) ^ ((-1022 : Int) - 52) / 2 = (2 : ℚ) ^ (-1075 : Int) := by
        rw [show ((-1022 : Int) - 52) = -1075 + 1 by norm_num, zpow_add_one₀ (by norm_num)]
        ring
      rw [this]
      have : 0 ≤ |x| * (2 : ℚ) ^ (-53 : Int) := by positivity
      linarith
    · have hpos : 0 < |x| := lt_of_lt_of_le (by positivity) (not_lt.mp hs)
      have hl := Int.zpow_log_le_self (b := 2) (by norm_num) hpos
      have : (2 : ℚ) ^ (Int.log 2 |x| - 52) / 2 = (2 : ℚ) ^ (Int.log 2 |x|) * (2 : ℚ) ^ (-53 : Int) := by
        rw [show Int.log 2 |x| - 52 = Int.log 2 |x| + (-53) + 1 by ring,
          zpow_add_one₀ (by norm_num), zpow_add₀ (by norm_num)]
        ring
      rw [this]
      have h53 : (0 : ℚ) < (2 : ℚ) ^ (-53 : Int) := by positivity
      have h1075 : (0 : ℚ) < (2 : ℚ) ^ (-1075 : Int) := by positivity
      have hl' : (2 : ℚ) ^ Int.log 2 |x| ≤ |x| := by exact_mod_cast hl
      nlinarith
  exact le_trans h hu

/-- The exponent of a value between two neighbouring powers of two. -/
theorem exponent_of_bounds (x : ℚ) (e : Int) (he : -1022 ≤ e)
    (h1 : (2 : ℚ) ^ e ≤ x ∨ (2 : ℚ) ^ e ≤ -x)
    (h2 : -(2 : ℚ) ^ (e + 1) < x ∧ x < (2 : ℚ) ^ (e + 1)) : exponent x = e :=
  exponent_eq x e he (le_abs.mpr h1) (abs_lt.mpr h2)

/-- Rounding to even of a value less than a half from an integer. -/
theorem roundToEven_of_bounds (y : ℚ) (m : Int) (h : -(1 / 2) < y - m ∧ y - m < 1 / 2) :
    roundToEven y = m :=
  roundToEven_eq y m (abs_lt.mpr h)

/-- A result that `fl` rounds to a value within the range of `double` is that
finite double. -/
theorem round_of_fl (x v : ℚ) (h : fl x = v)
    (hv : -(2 : ℚ) ^ (1024 : Nat) < v ∧ v < (2 : ℚ) ^ (1024 : Nat)) : round x = finite v := by
  unfold round
  rw [h, if_neg (not_le.mpr (abs_lt.mpr hv))]

/-- The sum of two finite doubles, when it is within the range. -/
theorem add_finite (a b v : ℚ) (h : fl (a + b) = v)
    (hv : -(2 : ℚ) ^ (1024 : Nat) < v ∧ v < (2 : ℚ) ^ (1024 : Nat)) :
    finite a + finite b = finite v :=
  round_of_fl (a + b) v h hv

/-- The difference of two finite doubles, when it is within the range. -/
theorem sub_finite (a b v : ℚ) (h : fl (a - b) = v)
    (hv : -(2 : ℚ) ^ (1024 : Nat) < v ∧ v < (2 : ℚ) ^ (1024 : Nat)) :
    finite a - finite b = finite v := by
  show round (a + -b) = finite v
  rw [← sub_eq_add_neg]
  exact round_of_fl (a - b) v h hv

/-- The product of two finite doubles, when it is within the range. -/
theorem mul_finite (a b v : ℚ) (h : fl (a * b) = v)
    (hv : -(2 : ℚ) ^ (1024 : Nat) < v ∧ v < (2 : ℚ) ^ (1024 : Nat)) :
    finite a * finite b = finite v :=
  round_of_fl (a * b) v h hv

/-- The quotient of two finite doubles, when it is within the range. -/
theorem div_finite (a b v : ℚ) (hb : b ≠ 0) (h : fl (a / b) = v)
    (hv : -(2 : ℚ) ^ (1024 : Nat) < v ∧ v < (2 : ℚ) ^ (1024 : Nat)) :
    finite a / finite b = finite v := by
  show (if b = 0 then (if 0 < a then posInf else if a < 0 then negInf else nan)
    else round (a / b)) = finite v
  rw [if_neg hb]
  exact round_of_fl (a / b) v h hv

/-- A numeral of type `double` is the finite double of that value. -/
theorem ofNat_eq (n : Nat) [n.AtLeastTwo] :
    (OfNat.ofNat n : Double) = finite (OfNat.ofNat n) := rfl

/-- The numeral 0 of type `double`. -/
theorem zero_eq : (0 : Double) = finite 0 := by
  show finite ((0 : Nat) : ℚ) = finite 0
  rw [Nat.cast_zero]

/-- The numeral 1 of type `double`. -/
theorem one_eq : (1 : Double) = finite 1 := by
  show finite ((1 : Nat) : ℚ) = finite 1
  rw [Nat.cast_one]

/-- The sum of finite doubles is the rounded sum. -/
theorem add_def (a b : ℚ) : finite a + finite b = round (a + b) := rfl

/-- The difference of finite doubles is the rounded difference. -/
theorem sub_def (a b : ℚ) : finite a - finite b = round (a - b) := by
  show round (a + -b) = round (a - b)
  rw [← sub_eq_add_neg]

/-- The product of finite doubles is the rounded product. -/
theorem mul_def (a b : ℚ) : finite a * finite b = round (a * b) := rfl

/-- The quotient of finite doubles by a divisor other than zero is the rounded
quotient. -/
theorem div_def (a b : ℚ) (hb : b ≠ 0) : finite a / finite b = round (a / b) := by
  show (if b = 0 then (if 0 < a then posInf else if a < 0 then negInf else nan)
    else round (a / b)) = round (a / b)
  rw [if_neg hb]

/-- The order of finite doubles is the order of their values. -/
theorem lt_finite (a b : ℚ) : finite a < finite b ↔ a < b := by
  show lt (finite a) (finite b) = true ↔ a < b
  simp [lt]

/-- The order of finite doubles is the order of their values. -/
theorem le_finite (a b : ℚ) : finite a ≤ finite b ↔ a ≤ b := by
  show le (finite a) (finite b) = true ↔ a ≤ b
  simp [le]

/-- A round result within the range is finite. -/
theorem round_of_fl_self (x : ℚ) (h : fl x = x)
    (hv : -(2 : ℚ) ^ (1024 : Nat) < x ∧ x < (2 : ℚ) ^ (1024 : Nat)) : round x = finite x :=
  round_of_fl x x h hv

/-! ### Rounding never crosses a double -/

/-- The exponent is never below that of the subnormal doubles. -/
theorem exponent_ge (x : ℚ) : -1022 ≤ exponent x := by
  unfold exponent
  split_ifs with h
  · exact le_refl _
  · have hlow : (2 : ℚ) ^ (-1022 : Int) ≤ |x| := not_lt.mp h
    have hpos : 0 < |x| := lt_of_lt_of_le (by positivity) hlow
    exact (Int.zpow_le_iff_le_log (by norm_num) hpos).mp (by exact_mod_cast hlow)

/-- The exponent grows with the magnitude. -/
theorem exponent_mono (x y : ℚ) (h : |x| ≤ |y|) : exponent x ≤ exponent y := by
  by_cases hx : |x| < (2 : ℚ) ^ (-1022 : Int)
  · rw [exponent_subnormal x hx]
    exact exponent_ge y
  · have hxl : (2 : ℚ) ^ (-1022 : Int) ≤ |x| := not_lt.mp hx
    have hy : ¬ |y| < (2 : ℚ) ^ (-1022 : Int) := not_lt.mpr (le_trans hxl h)
    have hpos : 0 < |x| := lt_of_lt_of_le (by positivity) hxl
    unfold exponent
    rw [if_neg hx, if_neg hy]
    exact Int.log_mono_right hpos h

/-- The rounding error of `fl` as two bounds, against a bound of the
magnitude. -/
theorem fl_within (x X : ℚ) (hX : |x| ≤ X) :
    x - (X * (2 : ℚ) ^ (-53 : Int) + (2 : ℚ) ^ (-1075 : Int)) ≤ fl x ∧
      fl x ≤ x + (X * (2 : ℚ) ^ (-53 : Int) + (2 : ℚ) ^ (-1075 : Int)) := by
  have h := fl_error x
  rw [abs_le] at h
  have h53 : (0 : ℚ) < (2 : ℚ) ^ (-53 : Int) := by positivity
  have hm : |x| * (2 : ℚ) ^ (-53 : Int) ≤ X * (2 : ℚ) ^ (-53 : Int) :=
    mul_le_mul_of_nonneg_right hX h53.le
  constructor <;> linarith [h.1, h.2]

/-- A finite rounded result is the rounding of the exact result. -/
theorem round_eq_finite (x c : ℚ) (h : round x = finite c) : c = fl x := by
  unfold round at h
  split_ifs at h with h1 h2
  · cases h
    rfl

/-- The operands of a finite sum are finite, and the sum is the rounding of
the exact sum. -/
theorem add_eq_finite (x y : Double) (c : ℚ) (h : x + y = finite c) :
    ∃ a b, x = finite a ∧ y = finite b ∧ c = fl (a + b) := by
  cases x <;> cases y <;> first
    | exact ⟨_, _, rfl, rfl, round_eq_finite _ _ h⟩
    | cases h

/-- The operands of a finite difference are finite, and the difference is the
rounding of the exact difference. -/
theorem sub_eq_finite (x y : Double) (c : ℚ) (h : x - y = finite c) :
    ∃ a b, x = finite a ∧ y = finite b ∧ c = fl (a - b) := by
  cases x <;> cases y <;> first
    | exact ⟨_, _, rfl, rfl, by rw [sub_eq_add_neg]; exact round_eq_finite _ _ h⟩
    | cases h

/-- The operands of a finite product are finite, and the product is the
rounding of the exact product. -/
theorem mul_eq_finite (x y : Double) (c : ℚ) (h : x * y = finite c) :
    ∃ a b, x = finite a ∧ y = finite b ∧ c = fl (a * b) := by
  cases x <;> cases y <;> first
    | exact ⟨_, _, rfl, rfl, round_eq_finite _ _ h⟩
    | cases h
    | (exfalso
       change Double.mul _ _ = _ at h
       simp only [Double.mul] at h
       split_ifs at h)

/-- The dividend of a finite quotient by a finite divisor other than zero is
finite, and the quotient is the rounding of the exact quotient. -/
theorem div_eq_finite (x : Double) (b c : ℚ) (hb : b ≠ 0) (h : x / finite b = finite c) :
    ∃ a, x = finite a ∧ c = fl (a / b) := by
  cases x with
  | finite a =>
    rw [div_def a b hb] at h
    exact ⟨a, rfl, round_eq_finite _ _ h⟩
  | posInf =>
    exfalso
    change Double.div _ _ = _ at h
    simp only [Double.div] at h
    split_ifs at h
  | negInf =>
    exfalso
    change Double.div _ _ = _ at h
    simp only [Double.div] at h
    split_ifs at h
  | nan => cases h

/-- NaN is below nothing. -/
theorem not_nan_lt (x : Double) : ¬ nan < x := by
  show ¬ lt nan x = true
  simp [lt]

/-- NaN is in order with nothing. -/
theorem not_nan_le (x : Double) : ¬ nan ≤ x := by
  show ¬ le nan x = true
  simp [le]

/-- Nothing is in order with NaN. -/
theorem not_le_nan (x : Double) : ¬ x ≤ nan := by
  show ¬ le x nan = true
  cases x <;> simp [le]

/-- A value other than NaN is in order with itself. -/
theorem le_refl_of_ne_nan (x : Double) (h : x ≠ nan) : x ≤ x := by
  cases x with
  | finite a => exact (le_finite a a).mpr (le_refl a)
  | posInf => show le posInf posInf = true; rfl
  | negInf => show le negInf negInf = true; rfl
  | nan => exact absurd rfl h

/-- A value below another is in order with it. -/
theorem le_of_lt_double (x y : Double) (h : x < y) : x ≤ y := by
  change lt x y = true at h
  show le x y = true
  cases x <;> cases y <;> simp [lt, le] at h ⊢
  exact le_of_lt h

/-- Of two values other than NaN, one that is not above the other is in order
with it. -/
theorem le_of_not_lt_double (x y : Double) (hx : x ≠ nan) (hy : y ≠ nan) (h : ¬ y < x) :
    x ≤ y := by
  change ¬ lt y x = true at h
  show le x y = true
  cases x <;> cases y <;> simp [lt, le] at h hx hy ⊢
  exact h

/-- A value that is not NaN and not below zero is zero or above. -/
theorem nonneg_of_not_lt_zero (x : Double) (hx : x ≠ nan) (h : ¬ x < finite 0) :
    finite 0 ≤ x :=
  le_of_not_lt_double (finite 0) x (by simp) hx h

/-! ### Roundings used in the examples -/

/-- The number 40 is a double. -/
theorem fl_40 : fl (40) = 40 := by
  rw [fl_eq (40) (5) (5629499534213120)
    (exponent_of_bounds _ (5) (by norm_num) (Or.inl (by norm_num)) ⟨by norm_num, by norm_num⟩)
    (roundToEven_of_bounds _ (5629499534213120) ⟨by norm_num, by norm_num⟩)]
  norm_num

/-- The number 100 is a double. -/
theorem fl_100 : fl (100) = 100 := by
  rw [fl_eq (100) (6) (7036874417766400)
    (exponent_of_bounds _ (6) (by norm_num) (Or.inl (by norm_num)) ⟨by norm_num, by norm_num⟩)
    (roundToEven_of_bounds _ (7036874417766400) ⟨by norm_num, by norm_num⟩)]
  norm_num

/-- The number 160 is a double. -/
theorem fl_160 : fl (160) = 160 := by
  rw [fl_eq (160) (7) (5629499534213120)
    (exponent_of_bounds _ (7) (by norm_num) (Or.inl (by norm_num)) ⟨by norm_num, by norm_num⟩)
    (roundToEven_of_bounds _ (5629499534213120) ⟨by norm_num, by norm_num⟩)]
  norm_num

/-- The double 0.9 is rounded to itself. -/
theorem fl_lit_0_9 : fl (8106479329266893 / 9007199254740992) = 8106479329266893 / 9007199254740992 := by
  rw [fl_eq (8106479329266893 / 9007199254740992) (-1) (8106479329266893)
    (exponent_of_bounds _ (-1) (by norm_num) (Or.inl (by norm_num)) ⟨by norm_num, by norm_num⟩)
    (roundToEven_of_bounds _ (8106479329266893) ⟨by norm_num, by norm_num⟩)]
  norm_num

/-- The difference 0.9 - 0.3 is rounded to 0.6000000000000001. -/
theorem fl_0_9_sub_0_3 : fl (10808639105689191 / 18014398509481984) = 1351079888211149 / 2251799813685248 := by
  rw [fl_eq (10808639105689191 / 18014398509481984) (-1) (5404319552844596)
    (exponent_of_bounds _ (-1) (by norm_num) (Or.inl (by norm_num)) ⟨by norm_num, by norm_num⟩)
    (roundToEven_tie _ (5404319552844596) (Or.inr (by norm_num)) (by norm_num))]
  norm_num

/-- The sum 0.6000000000000001 + 0.3 is rounded to 0.9000000000000001. -/
theorem fl_0_6_add_0_3 : fl (16212958658533787 / 18014398509481984) = 4053239664633447 / 4503599627370496 := by
  rw [fl_eq (16212958658533787 / 18014398509481984) (-1) (8106479329266894)
    (exponent_of_bounds _ (-1) (by norm_num) (Or.inl (by norm_num)) ⟨by norm_num, by norm_num⟩)
    (roundToEven_tie _ (8106479329266894) (Or.inr (by norm_num)) (by norm_num))]
  norm_num

/-- The sum 0.1 + 0.3 is rounded to 0.4. -/
theorem fl_0_1_add_0_3 : fl (14411518807585587 / 36028797018963968) = 3602879701896397 / 9007199254740992 := by
  rw [fl_eq (14411518807585587 / 36028797018963968) (-2) (7205759403792794)
    (exponent_of_bounds _ (-2) (by norm_num) (Or.inl (by norm_num)) ⟨by norm_num, by norm_num⟩)
    (roundToEven_tie _ (7205759403792794) (Or.inr (by norm_num)) (by norm_num))]
  norm_num

/-- The sum 0.1 + 1.0 is rounded to 1.1. -/
theorem fl_0_1_add_1 : fl (39631676720860365 / 36028797018963968) = 2476979795053773 / 2251799813685248 := by
  rw [fl_eq (39631676720860365 / 36028797018963968) (0) (4953959590107546)
    (exponent_of_bounds _ (0) (by norm_num) (Or.inl (by norm_num)) ⟨by norm_num, by norm_num⟩)
    (roundToEven_of_bounds _ (4953959590107546) ⟨by norm_num, by norm_num⟩)]
  norm_num

/-- The difference 1.1 - 1.0 is rounded to 0.10000000000000009. -/
theorem fl_1_1_sub_1 : fl (225179981368525 / 2251799813685248) = 225179981368525 / 2251799813685248 := by
  rw [fl_eq (225179981368525 / 2251799813685248) (-4) (7205759403792800)
    (exponent_of_bounds _ (-4) (by norm_num) (Or.inl (by norm_num)) ⟨by norm_num, by norm_num⟩)
    (roundToEven_of_bounds _ (7205759403792800) ⟨by norm_num, by norm_num⟩)]
  norm_num

/-- The number 100000 is a double. -/
theorem fl_100000 : fl (100000) = 100000 := by
  rw [fl_eq (100000) (16) (6871947673600000)
    (exponent_of_bounds _ (16) (by norm_num) (Or.inl (by norm_num)) ⟨by norm_num, by norm_num⟩)
    (roundToEven_of_bounds _ (6871947673600000) ⟨by norm_num, by norm_num⟩)]
  norm_num

/-- The number 1.0e10 is a double. -/
theorem fl_10000000000 : fl (10000000000) = 10000000000 := by
  rw [fl_eq (10000000000) (33) (5242880000000000)
    (exponent_of_bounds _ (33) (by norm_num) (Or.inl (by norm_num)) ⟨by norm_num, by norm_num⟩)
    (roundToEven_of_bounds _ (5242880000000000) ⟨by norm_num, by norm_num⟩)]
  norm_num

/-- The number 1 is a double. -/
theorem fl_1 : fl (1) = 1 := by
  rw [fl_eq (1) (0) (4503599627370496)
    (exponent_of_bounds _ (0) (by norm_num) (Or.inl (by norm_num)) ⟨by norm_num, by norm_num⟩)
    (roundToEven_of_bounds _ (4503599627370496) ⟨by norm_num, by norm_num⟩)]
  norm_num

/-- The number 1 as a rounded result. -/
theorem round_1 : round 1 = finite 1 := round_of_fl_self 1 fl_1 ⟨by norm_num, by norm_num⟩

/-- The number 100 as a rounded result. -/
theorem round_100 : round 100 = finite 100 :=
  round_of_fl_self 100 fl_100 ⟨by norm_num, by norm_num⟩

/-- The sum 0.1 + 0.2 is rounded to 0.30000000000000004. -/
theorem fl_0_1_add_0_2 : fl (10808639105689191 / 36028797018963968) = 1351079888211149 / 4503599627370496 := by
  rw [fl_eq (10808639105689191 / 36028797018963968) (-2) (5404319552844596)
    (exponent_of_bounds _ (-2) (by norm_num) (Or.inl (by norm_num)) ⟨by norm_num, by norm_num⟩)
    (roundToEven_tie _ (5404319552844596) (Or.inr (by norm_num)) (by norm_num))]
  norm_num

/-- The sum 0.1 + 0.2 is rounded to 0.30000000000000004. -/
theorem round_0_1_add_0_2 : round (10808639105689191 / 36028797018963968) = finite (1351079888211149 / 4503599627370496) :=
  round_of_fl _ _ fl_0_1_add_0_2 ⟨by norm_num, by norm_num⟩

/-- The difference 0.30000000000000004 - 0.1 is rounded to 0.20000000000000004. -/
theorem fl_0_3x_sub_0_1 : fl (7205759403792795 / 36028797018963968) = 7205759403792795 / 36028797018963968 := by
  rw [fl_eq (7205759403792795 / 36028797018963968) (-3) (7205759403792795)
    (exponent_of_bounds _ (-3) (by norm_num) (Or.inl (by norm_num)) ⟨by norm_num, by norm_num⟩)
    (roundToEven_of_bounds _ (7205759403792795) ⟨by norm_num, by norm_num⟩)]
  norm_num

/-- The difference 0.30000000000000004 - 0.1 is rounded to 0.20000000000000004. -/
theorem round_0_3x_sub_0_1 : round (7205759403792795 / 36028797018963968) = finite (7205759403792795 / 36028797018963968) :=
  round_of_fl _ _ fl_0_3x_sub_0_1 ⟨by norm_num, by norm_num⟩

/-- The difference 0.3 - 0.1 is rounded to 0.19999999999999998. -/
theorem fl_0_3_sub_0_1 : fl (7205759403792793 / 36028797018963968) = 7205759403792793 / 36028797018963968 := by
  rw [fl_eq (7205759403792793 / 36028797018963968) (-3) (7205759403792793)
    (exponent_of_bounds _ (-3) (by norm_num) (Or.inl (by norm_num)) ⟨by norm_num, by norm_num⟩)
    (roundToEven_of_bounds _ (7205759403792793) ⟨by norm_num, by norm_num⟩)]
  norm_num

/-- The difference 0.3 - 0.1 is rounded to 0.19999999999999998. -/
theorem round_0_3_sub_0_1 : round (7205759403792793 / 36028797018963968) = finite (7205759403792793 / 36028797018963968) :=
  round_of_fl _ _ fl_0_3_sub_0_1 ⟨by norm_num, by norm_num⟩

/-- Half of 0.19999999999999998 is a double. -/
theorem fl_0_2y_half : fl (7205759403792793 / 72057594037927936) = 7205759403792793 / 72057594037927936 := by
  rw [fl_eq (7205759403792793 / 72057594037927936) (-4) (7205759403792793)
    (exponent_of_bounds _ (-4) (by norm_num) (Or.inl (by norm_num)) ⟨by norm_num, by norm_num⟩)
    (roundToEven_of_bounds _ (7205759403792793) ⟨by norm_num, by norm_num⟩)]
  norm_num

/-- Half of 0.19999999999999998 is a double. -/
theorem round_0_2y_half : round (7205759403792793 / 72057594037927936) = finite (7205759403792793 / 72057594037927936) :=
  round_of_fl _ _ fl_0_2y_half ⟨by norm_num, by norm_num⟩

/-- The sum 0.1 + 0.09999999999999999 is rounded to 0.2. -/
theorem fl_0_1_add_0_1y : fl (14411518807585587 / 72057594037927936) = 3602879701896397 / 18014398509481984 := by
  rw [fl_eq (14411518807585587 / 72057594037927936) (-3) (7205759403792794)
    (exponent_of_bounds _ (-3) (by norm_num) (Or.inl (by norm_num)) ⟨by norm_num, by norm_num⟩)
    (roundToEven_tie _ (7205759403792794) (Or.inr (by norm_num)) (by norm_num))]
  norm_num

/-- The sum 0.1 + 0.09999999999999999 is rounded to 0.2. -/
theorem round_0_1_add_0_1y : round (14411518807585587 / 72057594037927936) = finite (3602879701896397 / 18014398509481984) :=
  round_of_fl _ _ fl_0_1_add_0_1y ⟨by norm_num, by norm_num⟩

/-- Half of 0.2 is the double 0.1. -/
theorem fl_0_2_half : fl (3602879701896397 / 36028797018963968) = 3602879701896397 / 36028797018963968 := by
  rw [fl_eq (3602879701896397 / 36028797018963968) (-4) (7205759403792794)
    (exponent_of_bounds _ (-4) (by norm_num) (Or.inl (by norm_num)) ⟨by norm_num, by norm_num⟩)
    (roundToEven_of_bounds _ (7205759403792794) ⟨by norm_num, by norm_num⟩)]
  norm_num

/-- Half of 0.2 is the double 0.1. -/
theorem round_0_2_half : round (3602879701896397 / 36028797018963968) = finite (3602879701896397 / 36028797018963968) :=
  round_of_fl _ _ fl_0_2_half ⟨by norm_num, by norm_num⟩

/-- The difference 0.4 - 0.1 is rounded to 0.30000000000000004. -/
theorem fl_0_4_sub_0_1 : fl (10808639105689191 / 36028797018963968) = 1351079888211149 / 4503599627370496 := by
  rw [fl_eq (10808639105689191 / 36028797018963968) (-2) (5404319552844596)
    (exponent_of_bounds _ (-2) (by norm_num) (Or.inl (by norm_num)) ⟨by norm_num, by norm_num⟩)
    (roundToEven_tie _ (5404319552844596) (Or.inr (by norm_num)) (by norm_num))]
  norm_num

/-- The difference 0.4 - 0.1 is rounded to 0.30000000000000004. -/
theorem round_0_4_sub_0_1 : round (10808639105689191 / 36028797018963968) = finite (1351079888211149 / 4503599627370496) :=
  round_of_fl _ _ fl_0_4_sub_0_1 ⟨by norm_num, by norm_num⟩

/-- The number 3 is a double. -/
theorem fl_3 : fl (3) = 3 := by
  rw [fl_eq (3) (1) (6755399441055744)
    (exponent_of_bounds _ (1) (by norm_num) (Or.inl (by norm_num)) ⟨by norm_num, by norm_num⟩)
    (roundToEven_of_bounds _ (6755399441055744) ⟨by norm_num, by norm_num⟩)]
  norm_num

/-- The number 3 is a double. -/
theorem round_3 : round (3) = finite (3) :=
  round_of_fl _ _ fl_3 ⟨by norm_num, by norm_num⟩

/-- The product 0.30000000000000004 * 3 is the double 0.9000000000000001. -/
theorem fl_0_3x_mul_3 : fl (4053239664633447 / 4503599627370496) = 4053239664633447 / 4503599627370496 := by
  rw [fl_eq (4053239664633447 / 4503599627370496) (-1) (8106479329266894)
    (exponent_of_bounds _ (-1) (by norm_num) (Or.inl (by norm_num)) ⟨by norm_num, by norm_num⟩)
    (roundToEven_of_bounds _ (8106479329266894) ⟨by norm_num, by norm_num⟩)]
  norm_num

/-- The product 0.30000000000000004 * 3 is the double 0.9000000000000001. -/
theorem round_0_3x_mul_3 : round (4053239664633447 / 4503599627370496) = finite (4053239664633447 / 4503599627370496) :=
  round_of_fl _ _ fl_0_3x_mul_3 ⟨by norm_num, by norm_num⟩

/-- The sum 0.1 + 0.9000000000000001 is rounded to 1.0000000000000002. -/
theorem fl_0_1_add_0_9x : fl (36028797018963973 / 36028797018963968) = 4503599627370497 / 4503599627370496 := by
  rw [fl_eq (36028797018963973 / 36028797018963968) (0) (4503599627370497)
    (exponent_of_bounds _ (0) (by norm_num) (Or.inl (by norm_num)) ⟨by norm_num, by norm_num⟩)
    (roundToEven_of_bounds _ (4503599627370497) ⟨by norm_num, by norm_num⟩)]
  norm_num

/-- The sum 0.1 + 0.9000000000000001 is rounded to 1.0000000000000002. -/
theorem round_0_1_add_0_9x : round (36028797018963973 / 36028797018963968) = finite (4503599627370497 / 4503599627370496) :=
  round_of_fl _ _ fl_0_1_add_0_9x ⟨by norm_num, by norm_num⟩

/-- The difference 1.0000000000000002 - 0.1 is rounded to 0.9000000000000002. -/
theorem fl_1x_sub_0_1 : fl (32425917317067579 / 36028797018963968) = 8106479329266895 / 9007199254740992 := by
  rw [fl_eq (32425917317067579 / 36028797018963968) (-1) (8106479329266895)
    (exponent_of_bounds _ (-1) (by norm_num) (Or.inl (by norm_num)) ⟨by norm_num, by norm_num⟩)
    (roundToEven_of_bounds _ (8106479329266895) ⟨by norm_num, by norm_num⟩)]
  norm_num

/-- The difference 1.0000000000000002 - 0.1 is rounded to 0.9000000000000002. -/
theorem round_1x_sub_0_1 : round (32425917317067579 / 36028797018963968) = finite (8106479329266895 / 9007199254740992) :=
  round_of_fl _ _ fl_1x_sub_0_1 ⟨by norm_num, by norm_num⟩

/-- The number 10 is a double. -/
theorem fl_10 : fl (10) = 10 := by
  rw [fl_eq (10) (3) (5629499534213120)
    (exponent_of_bounds _ (3) (by norm_num) (Or.inl (by norm_num)) ⟨by norm_num, by norm_num⟩)
    (roundToEven_of_bounds _ (5629499534213120) ⟨by norm_num, by norm_num⟩)]
  norm_num

/-- The number 10 is a double. -/
theorem round_10 : round (10) = finite (10) :=
  round_of_fl _ _ fl_10 ⟨by norm_num, by norm_num⟩

/-- The quotient 10 / 100 is rounded to the double 0.1. -/
theorem fl_1_div_10 : fl (1 / 10) = 3602879701896397 / 36028797018963968 := by
  rw [fl_eq (1 / 10) (-4) (7205759403792794)
    (exponent_of_bounds _ (-4) (by norm_num) (Or.inl (by norm_num)) ⟨by norm_num, by norm_num⟩)
    (roundToEven_of_bounds _ (7205759403792794) ⟨by norm_num, by norm_num⟩)]
  norm_num

/-- The quotient 10 / 100 is rounded to the double 0.1. -/
theorem round_1_div_10 : round (1 / 10) = finite (3602879701896397 / 36028797018963968) :=
  round_of_fl _ _ fl_1_div_10 ⟨by norm_num, by norm_num⟩

/-- The product 0.1 * 100 is rounded to 10. -/
theorem fl_0_1_mul_100 : fl (90071992547409925 / 9007199254740992) = 10 := by
  rw [fl_eq (90071992547409925 / 9007199254740992) (3) (5629499534213120)
    (exponent_of_bounds _ (3) (by norm_num) (Or.inl (by norm_num)) ⟨by norm_num, by norm_num⟩)
    (roundToEven_of_bounds _ (5629499534213120) ⟨by norm_num, by norm_num⟩)]
  norm_num

/-- The product 0.1 * 100 is rounded to 10. -/
theorem round_0_1_mul_100 : round (90071992547409925 / 9007199254740992) = finite (10) :=
  round_of_fl _ _ fl_0_1_mul_100 ⟨by norm_num, by norm_num⟩

/-- The number 5 is a double. -/
theorem fl_5 : fl (5) = 5 := by
  rw [fl_eq (5) (2) (5629499534213120)
    (exponent_of_bounds _ (2) (by norm_num) (Or.inl (by norm_num)) ⟨by norm_num, by norm_num⟩)
    (roundToEven_of_bounds _ (5629499534213120) ⟨by norm_num, by norm_num⟩)]
  norm_num

/-- The number 5 is a double. -/
theorem round_5 : round (5) = finite (5) :=
  round_of_fl _ _ fl_5 ⟨by norm_num, by norm_num⟩

/-- The quotient 1 / 49 is rounded to 0.02040816326530612. -/
theorem fl_1_div_49 : fl (1 / 49) = 5882252574524729 / 288230376151711744 := by
  rw [fl_eq (1 / 49) (-6) (5882252574524729)
    (exponent_of_bounds _ (-6) (by norm_num) (Or.inl (by norm_num)) ⟨by norm_num, by norm_num⟩)
    (roundToEven_of_bounds _ (5882252574524729) ⟨by norm_num, by norm_num⟩)]
  norm_num

/-- The quotient 1 / 49 is rounded to 0.02040816326530612. -/
theorem round_1_div_49 : round (1 / 49) = finite (5882252574524729 / 288230376151711744) :=
  round_of_fl _ _ fl_1_div_49 ⟨by norm_num, by norm_num⟩

/-- The product 0.02040816326530612 * 49 is rounded to 0.9999999999999999. -/
theorem fl_49ths_mul_49 : fl (288230376151711721 / 288230376151711744) = 9007199254740991 / 9007199254740992 := by
  rw [fl_eq (288230376151711721 / 288230376151711744) (-1) (9007199254740991)
    (exponent_of_bounds _ (-1) (by norm_num) (Or.inl (by norm_num)) ⟨by norm_num, by norm_num⟩)
    (roundToEven_of_bounds _ (9007199254740991) ⟨by norm_num, by norm_num⟩)]
  norm_num

/-- The product 0.02040816326530612 * 49 is rounded to 0.9999999999999999. -/
theorem round_49ths_mul_49 : round (288230376151711721 / 288230376151711744) = finite (9007199254740991 / 9007199254740992) :=
  round_of_fl _ _ fl_49ths_mul_49 ⟨by norm_num, by norm_num⟩

/-- The number 0.9999999999999999 is a double. -/
theorem fl_0_9y : fl (9007199254740991 / 9007199254740992) = 9007199254740991 / 9007199254740992 := by
  rw [fl_eq (9007199254740991 / 9007199254740992) (-1) (9007199254740991)
    (exponent_of_bounds _ (-1) (by norm_num) (Or.inl (by norm_num)) ⟨by norm_num, by norm_num⟩)
    (roundToEven_of_bounds _ (9007199254740991) ⟨by norm_num, by norm_num⟩)]
  norm_num

/-- The number 0.9999999999999999 is a double. -/
theorem round_0_9y : round (9007199254740991 / 9007199254740992) = finite (9007199254740991 / 9007199254740992) :=
  round_of_fl _ _ fl_0_9y ⟨by norm_num, by norm_num⟩

/-- The number 25 is a double. -/
theorem fl_25 : fl (25) = 25 := by
  rw [fl_eq (25) (4) (7036874417766400)
    (exponent_of_bounds _ (4) (by norm_num) (Or.inl (by norm_num)) ⟨by norm_num, by norm_num⟩)
    (roundToEven_of_bounds _ (7036874417766400) ⟨by norm_num, by norm_num⟩)]
  norm_num

/-- The difference 2 ^ -60 - 5 is rounded to -5. -/
theorem fl_tiny_sub_5 : fl (-(5764607523034234879 / 1152921504606846976)) = -5 := by
  rw [fl_eq (-(5764607523034234879 / 1152921504606846976)) (2) (-5629499534213120)
    (exponent_of_bounds _ (2) (by norm_num) (Or.inr (by norm_num)) ⟨by norm_num, by norm_num⟩)
    (roundToEven_of_bounds _ (-5629499534213120) ⟨by norm_num, by norm_num⟩)]
  norm_num

/-! ### Chains of roundings -/


/-- The unit roundoff of `double`, as a fraction. -/
theorem two_pow_neg_53 : (2 : ℚ) ^ (-53 : Int) = 1 / 9007199254740992 := by
  norm_num

/-- The rounding error of `fl` with the unit roundoff as a fraction. -/
theorem fl_bounds (x X η : ℚ) (hη : η = (2 : ℚ) ^ (-1075 : Int)) (hX : |x| ≤ X) :
    x - (X / 9007199254740992 + η) ≤ fl x ∧ fl x ≤ x + (X / 9007199254740992 + η) := by
  have h := fl_within x X hX
  rw [two_pow_neg_53, ← hη] at h
  constructor <;> linarith [h.1, h.2]

/-- The midpoint of the interval that `ExpandBoth` computes, against the
midpoint of the interval expanded. -/
theorem expandBoth_midpoint (a b w : ℚ) (hab : a ≤ b) :
    |(fl (fl (a + fl (fl (b - a) / 2)) - fl (w / 2)) +
          fl (fl (fl (a + fl (fl (b - a) / 2)) - fl (w / 2)) + w)) / 2 - (a + b) / 2| ≤
      (|a| + |b| + |w|) * (2 : ℚ) ^ (-50 : Int) + (2 : ℚ) ^ (-1072 : Int) := by
  obtain ⟨η, hη⟩ : ∃ η : ℚ, η = (2 : ℚ) ^ (-1075 : Int) := ⟨_, rfl⟩
  have hη0 : 0 < η := by rw [hη]; positivity
  have e50 : (2 : ℚ) ^ (-50 : Int) = 8 / 9007199254740992 := by norm_num
  have e1072 : (2 : ℚ) ^ (-1072 : Int) = 8 * η := by
    rw [hη, show (-1072 : Int) = 3 + (-1075) by norm_num, zpow_add₀ (by norm_num)]
    norm_num
  rw [e50, e1072]
  obtain ⟨A, hA⟩ : ∃ A : ℚ, A = |a| := ⟨_, rfl⟩
  obtain ⟨B, hB⟩ : ∃ B : ℚ, B = |b| := ⟨_, rfl⟩
  obtain ⟨D, hD⟩ : ∃ D : ℚ, D = |w| := ⟨_, rfl⟩
  rw [← hA, ← hB, ← hD]
  have hA1 : a ≤ A := hA ▸ le_abs_self a
  have hA2 : -a ≤ A := hA ▸ neg_le_abs a
  have hB1 : b ≤ B := hB ▸ le_abs_self b
  have hB2 : -b ≤ B := hB ▸ neg_le_abs b
  have hD1 : w ≤ D := hD ▸ le_abs_self w
  have hD2 : -w ≤ D := hD ▸ neg_le_abs w
  obtain ⟨W, hW⟩ : ∃ W : ℚ, W = fl (b - a) := ⟨_, rfl⟩
  have bW := fl_bounds (b - a) (A + B) η hη (by rw [abs_le]; constructor <;> linarith)
  rw [← hW] at bW ⊢
  obtain ⟨h1, hh1⟩ : ∃ h1 : ℚ, h1 = fl (W / 2) := ⟨_, rfl⟩
  have bh1 := fl_bounds (W / 2) ((A + B) * (9 / 16) + η) η hη
    (by rw [abs_le]; constructor <;> linarith [bW.1, bW.2])
  rw [← hh1] at bh1 ⊢
  obtain ⟨h2, hh2⟩ : ∃ h2 : ℚ, h2 = fl (w / 2) := ⟨_, rfl⟩
  have bh2 := fl_bounds (w / 2) (D / 2) η hη (by rw [abs_le]; constructor <;> linarith)
  rw [← hh2] at bh2 ⊢
  obtain ⟨s, hs⟩ : ∃ s : ℚ, s = fl (a + h1) := ⟨_, rfl⟩
  have bs := fl_bounds (a + h1) (A + (A + B) * (5 / 8) + 3 * η) η hη
    (by rw [abs_le]; constructor <;> linarith [bW.1, bW.2, bh1.1, bh1.2])
  rw [← hs] at bs ⊢
  obtain ⟨lo, hlo⟩ : ∃ lo : ℚ, lo = fl (s - h2) := ⟨_, rfl⟩
  have blo := fl_bounds (s - h2) (A + (A + B) * (11 / 16) + D * (9 / 16) + 6 * η) η hη
    (by rw [abs_le]; constructor <;> linarith [bW.1, bW.2, bh1.1, bh1.2, bh2.1, bh2.2, bs.1, bs.2])
  rw [← hlo] at blo ⊢
  obtain ⟨hi, hhi⟩ : ∃ hi : ℚ, hi = fl (lo + w) := ⟨_, rfl⟩
  have bhi := fl_bounds (lo + w) (A + (A + B) * (3 / 4) + D * (13 / 8) + 8 * η) η hη
    (by rw [abs_le]; constructor <;>
      linarith [bW.1, bW.2, bh1.1, bh1.2, bh2.1, bh2.2, bs.1, bs.2, blo.1, blo.2])
  rw [← hhi] at bhi ⊢
  rw [abs_le]
  constructor <;>
    linarith [bW.1, bW.2, bh1.1, bh1.2, bh2.1, bh2.2, bs.1, bs.2, blo.1, blo.2, bhi.1, bhi.2]



/-- The rounded product of a value and a rounded quotient, against the exact
product: two roundings. -/
theorem mul_div_rounded (W n o : ℚ) :
    |fl (W * fl (n / o)) - W * (n / o)| ≤
      |W * (n / o)| * (2 : ℚ) ^ (-51 : Int) + (|W| + 1) * (2 : ℚ) ^ (-1074 : Int) := by
  obtain ⟨η, hη⟩ : ∃ η : ℚ, η = (2 : ℚ) ^ (-1075 : Int) := ⟨_, rfl⟩
  have hη0 : 0 < η := by rw [hη]; positivity
  have e51 : (2 : ℚ) ^ (-51 : Int) = 4 / 9007199254740992 := by norm_num
  have e1074 : (2 : ℚ) ^ (-1074 : Int) = 2 * η := by
    rw [hη, show (-1074 : Int) = 1 + (-1075) by norm_num, zpow_add₀ (by norm_num)]
    norm_num
  rw [e51, e1074]
  obtain ⟨q, hq⟩ : ∃ q : ℚ, q = n / o := ⟨_, rfl⟩
  rw [← hq]
  obtain ⟨r, hr⟩ : ∃ r : ℚ, r = fl q := ⟨_, rfl⟩
  have br := fl_bounds q |q| η hη (le_refl _)
  rw [← hr] at br ⊢
  have hrq : |r - q| ≤ |q| / 9007199254740992 + η := by
    rw [abs_le]; constructor <;> linarith [br.1, br.2]
  have h1 : |W * r - W * q| ≤ |W * q| / 9007199254740992 + |W| * η := by
    rw [← mul_sub, abs_mul, abs_mul]
    calc |W| * |r - q| ≤ |W| * (|q| / 9007199254740992 + η) :=
          mul_le_mul_of_nonneg_left hrq (abs_nonneg W)
      _ = |W| * |q| / 9007199254740992 + |W| * η := by ring
  obtain ⟨T, hT⟩ : ∃ T : ℚ, T = |W * q| := ⟨_, rfl⟩
  obtain ⟨Z, hZ⟩ : ∃ Z : ℚ, Z = |W| * η := ⟨_, rfl⟩
  obtain ⟨Y, hY⟩ : ∃ Y : ℚ, Y = |W| := ⟨_, rfl⟩
  have hZ' : (Y + 1) * (2 * η) = 2 * Z + 2 * η := by rw [hZ, hY]; ring
  rw [← hY, hZ', ← hT]
  rw [← hT, ← hZ] at h1
  have hT0 : 0 ≤ T := hT ▸ abs_nonneg _
  have hZ0 : 0 ≤ Z := hZ ▸ mul_nonneg (abs_nonneg _) hη0.le
  have hT1 : W * q ≤ T := hT ▸ le_abs_self _
  have hT2 : -(W * q) ≤ T := hT ▸ neg_le_abs _
  rw [abs_le] at h1
  have bp := fl_bounds (W * r) (T + T / 9007199254740992 + Z) η hη
    (by rw [abs_le]; constructor <;> linarith [h1.1, h1.2])
  rw [abs_le]
  constructor <;> linarith [h1.1, h1.2, bp.1, bp.2]

/-- The rounded quotient of a rounded product of a rounded quotient, against
the exact value: three roundings. -/
theorem div_mul_div_rounded (W r a q : ℚ) (hr : 0 < r) (ha : 0 ≤ a) (hq : 0 < q) :
    |fl (fl (fl (W / r) * a) / q) - W * (a / r) / q| ≤
      |W * (a / r) / q| * (2 : ℚ) ^ (-51 : Int) +
        (a / q + 1 / q + 1) * (2 : ℚ) ^ (-1074 : Int) := by
  obtain ⟨η, hη⟩ : ∃ η : ℚ, η = (2 : ℚ) ^ (-1075 : Int) := ⟨_, rfl⟩
  have hη0 : 0 < η := by rw [hη]; positivity
  have e51 : (2 : ℚ) ^ (-51 : Int) = 4 / 9007199254740992 := by norm_num
  have e1074 : (2 : ℚ) ^ (-1074 : Int) = 2 * η := by
    rw [hη, show (-1074 : Int) = 1 + (-1075) by norm_num, zpow_add₀ (by norm_num)]
    norm_num
  rw [e51, e1074]
  obtain ⟨y1, hy1⟩ : ∃ y1 : ℚ, y1 = W / r := ⟨_, rfl⟩
  have htarget : W * (a / r) / q = y1 * a / q := by rw [hy1]; field_simp
  rw [htarget, ← hy1]
  obtain ⟨x1, hx1⟩ : ∃ x1 : ℚ, x1 = fl y1 := ⟨_, rfl⟩
  have b1 := fl_bounds y1 |y1| η hη (le_refl _)
  rw [← hx1] at b1 ⊢
  have h1 : |x1 - y1| ≤ |y1| / 9007199254740992 + η := by
    rw [abs_le]; constructor <;> linarith [b1.1, b1.2]
  have h2 : |x1 * a - y1 * a| ≤ |y1 * a| / 9007199254740992 + a * η := by
    rw [← sub_mul, abs_mul, abs_mul, abs_of_nonneg ha]
    calc |x1 - y1| * a ≤ (|y1| / 9007199254740992 + η) * a :=
          mul_le_mul_of_nonneg_right h1 ha
      _ = |y1| * a / 9007199254740992 + a * η := by ring
  obtain ⟨T2, hT2⟩ : ∃ T2 : ℚ, T2 = |y1 * a| := ⟨_, rfl⟩
  obtain ⟨Z, hZ⟩ : ∃ Z : ℚ, Z = a * η := ⟨_, rfl⟩
  rw [← hT2, ← hZ] at h2
  have hT20 : 0 ≤ T2 := hT2 ▸ abs_nonneg _
  have hZ0 : 0 ≤ Z := hZ ▸ mul_nonneg ha hη0.le
  have hTa : y1 * a ≤ T2 := hT2 ▸ le_abs_self _
  have hTb : -(y1 * a) ≤ T2 := hT2 ▸ neg_le_abs _
  rw [abs_le] at h2
  obtain ⟨x2, hx2⟩ : ∃ x2 : ℚ, x2 = fl (x1 * a) := ⟨_, rfl⟩
  have b2 := fl_bounds (x1 * a) (T2 + T2 / 9007199254740992 + Z) η hη
    (by rw [abs_le]; constructor <;> linarith [h2.1, h2.2])
  rw [← hx2] at b2 ⊢
  obtain ⟨E2, hE2⟩ : ∃ E2 : ℚ,
      E2 = T2 / 9007199254740992 + Z + ((T2 + T2 / 9007199254740992 + Z) / 9007199254740992 + η) :=
    ⟨_, rfl⟩
  have h3 : |x2 - y1 * a| ≤ E2 := by
    rw [abs_le, hE2]; constructor <;> linarith [h2.1, h2.2, b2.1, b2.2]
  have hqi : 0 ≤ q⁻¹ := inv_nonneg.mpr hq.le
  have h4 : |x2 / q - y1 * a / q| ≤ E2 * q⁻¹ := by
    rw [div_eq_mul_inv, div_eq_mul_inv, ← sub_mul, abs_mul, abs_of_nonneg hqi]
    exact mul_le_mul_of_nonneg_right h3 hqi
  obtain ⟨T, hT⟩ : ∃ T : ℚ, T = T2 * q⁻¹ := ⟨_, rfl⟩
  obtain ⟨Zq, hZq⟩ : ∃ Zq : ℚ, Zq = Z * q⁻¹ := ⟨_, rfl⟩
  obtain ⟨Eq, hEq⟩ : ∃ Eq : ℚ, Eq = η * q⁻¹ := ⟨_, rfl⟩
  have hE2q : E2 * q⁻¹ =
      T / 9007199254740992 + Zq + ((T + T / 9007199254740992 + Zq) / 9007199254740992 + Eq) := by
    rw [hE2, hT, hZq, hEq]; ring
  rw [hE2q] at h4
  have hT0 : 0 ≤ T := hT ▸ mul_nonneg hT20 hqi
  have hZq0 : 0 ≤ Zq := hZq ▸ mul_nonneg hZ0 hqi
  have hEq0 : 0 ≤ Eq := hEq ▸ mul_nonneg hη0.le hqi
  have habsT : |y1 * a / q| = T := by
    rw [hT, hT2, div_eq_mul_inv, abs_mul, abs_of_nonneg hqi]
  have hcoef : (a / q + 1 / q + 1) * (2 * η) = 2 * Zq + 2 * Eq + 2 * η := by
    rw [hZq, hEq, hZ]; field_simp; ring
  rw [habsT, hcoef]
  have hTc : y1 * a / q ≤ T := habsT ▸ le_abs_self _
  have hTd : -(y1 * a / q) ≤ T := habsT ▸ neg_le_abs _
  rw [abs_le] at h4
  have b3 := fl_bounds (x2 / q)
    (T + (T / 9007199254740992 + Zq +
      ((T + T / 9007199254740992 + Zq) / 9007199254740992 + Eq))) η hη
    (by rw [abs_le]; constructor <;> linarith [h4.1, h4.2])
  rw [abs_le]
  constructor <;> linarith [h4.1, h4.2, b3.1, b3.2]



end Double

/-! ## `zoom(rect)` -/

theorem toUInt_count_pred (n : Nat) (h0 : 0 < n) (h : n < 2147483648) :
    toUInt ((n : Int) - 1) = n - 1 := by
  have e : (n : Int) - 1 = ((n - 1 : Nat) : Int) := by omega
  rw [e, toUInt_of_nat _ (by omega)]

/-- The depth guard of `zoom(rect)` returns at once. -/
theorem zoom_blocked (d : PrivateData) (rect : QwtDoubleRect) (hv : d.valid)
    (h0 : 0 ≤ d.maxStackDepth) (h1 : d.maxStackDepth ≤ (d.zoomRectIndex : Int)) :
    zoom d rect = some ⟨d, []⟩ := by
  obtain ⟨hi, hl, _, _⟩ := hv
  unfold zoom
  rw [toInt_of_lt _ (by omega), if_pos ⟨h0, h1⟩]

/-- Past the depth guard, an intersection equal to the current rectangle
changes nothing. -/
theorem zoom_same (d : PrivateData) (rect base : QwtDoubleRect)
    (hb : d.zoomBase = some base)
    (hc : d.zoomRect = some (base.intersected rect.normalized)) :
    zoom d rect = some ⟨d, []⟩ := by
  unfold PrivateData.zoomBase at hb
  unfold PrivateData.zoomRect at hc
  unfold zoom
  split
  · rfl
  · simp [hb, hc]

/-- Past the depth guard, an intersection that differs from the current
rectangle is pushed on the entries up to the current position. -/
theorem zoom_pushed (d : PrivateData) (rect base cur : QwtDoubleRect) (hv : d.valid)
    (hdepth : d.maxStackDepth < 0 ∨ (d.zoomRectIndex : Int) < d.maxStackDepth)
    (hb : d.zoomBase = some base) (hc : d.zoomRect = some cur)
    (hne : base.intersected rect.normalized ≠ cur) :
    zoom d rect = some
      ⟨{ zoomRectIndex := d.zoomRectIndex + 1,
         zoomStack := d.zoomStack.take (d.zoomRectIndex + 1) ++
           [base.intersected rect.normalized],
         maxStackDepth := d.maxStackDepth },
       [base.intersected rect.normalized]⟩ := by
  obtain ⟨hi, hl, _, _⟩ := hv
  unfold PrivateData.zoomBase at hb
  unfold PrivateData.zoomRect at hc
  unfold zoom
  rw [toInt_of_lt _ (by omega), if_neg (by omega), hb, hc]
  simp only [ne_eq, hne, not_false_eq_true, if_true]
  rw [toUInt_count_pred _ (by omega) hl, popTrailing_eq_take _ _ _ (by omega) (by omega)]
  simp only
  rw [Nat.mod_eq_of_lt (by omega)]

/-- The rectangle at the current position of a valid zoomer exists. -/
theorem valid_zoomRect (d : PrivateData) (hv : d.valid) : ∃ cur, d.zoomRect = some cur := by
  obtain ⟨hi, _⟩ := hv
  exact ⟨d.zoomStack[d.zoomRectIndex], by unfold PrivateData.zoomRect; simp [hi]⟩

/-- The zoom base of a valid zoomer exists. -/
theorem valid_zoomBase (d : PrivateData) (hv : d.valid) : ∃ base, d.zoomBase = some base := by
  obtain ⟨hi, _⟩ := hv
  have h0 : 0 < d.zoomStack.length := by omega
  exact ⟨d.zoomStack[0], by unfold PrivateData.zoomBase; simp [h0]⟩

/-- C1: `zoom(rect)`, when the depth limit does not block it and the
intersection `z` of the zoom base with the normalized `rect` differs from the
current rectangle, leaves the old stack truncated to the entries
`0..zoomRectIndex` followed by `z`, advances `zoomRectIndex` by one, and
`zoomRect()` is `z`. -/
theorem C1_zoom_rect_pushes (d : PrivateData) (rect base cur : QwtDoubleRect) (hv : d.valid)
    (hdepth : d.maxStackDepth < 0 ∨ (d.zoomRectIndex : Int) < d.maxStackDepth)
    (hb : d.zoomBase = some base) (hc : d.zoomRect = some cur)
    (hne : base.intersected rect.normalized ≠ cur) :
    ∃ o, zoom d rect = some o ∧
      o.data.zoomStack =
        d.zoomStack.take (d.zoomRectIndex + 1) ++ [base.intersected rect.normalized] ∧
      o.data.zoomRectIndex = d.zoomRectIndex + 1 ∧
      o.data.zoomRect = some (base.intersected rect.normalized) := by
  refine ⟨_, zoom_pushed d rect base cur hv hdepth hb hc hne, rfl, rfl, ?_⟩
  obtain ⟨hi, _⟩ := hv
  simp only [PrivateData.zoomRect]
  rw [List.getElem?_append_right (by simp)]
  have hm : min (d.zoomRectIndex + 1) d.zoomStack.length = d.zoomRectIndex + 1 := by omega
  simp [List.length_take, hm]

theorem C1_zoom_rect_pushes_witness :
    ∃ o, zoom sampleData (square 50 70) = some o ∧
      o.data.zoomStack =
        sampleData.zoomStack.take (sampleData.zoomRectIndex + 1) ++
          [(square 0 100).intersected (square 50 70).normalized] ∧
      o.data.zoomRectIndex = sampleData.zoomRectIndex + 1 ∧
      o.data.zoomRect = some ((square 0 100).intersected (square 50 70).normalized) :=
  C1_zoom_rect_pushes sampleData (square 50 70) (square 0 100) (square 20 80)
    (by decide) (by decide) rfl rfl
    (by norm_num [QwtDoubleRect.intersected, QwtDoubleRect.normalized, QwtDoubleRect.xMin,
      QwtDoubleRect.xMax, QwtDoubleRect.yMin, QwtDoubleRect.yMax, QwtDoubleRect.null, square])

/-! ## `zoom(offset)` -/

theorem toInt_toUInt (n : Int) (h1 : -2147483648 ≤ n) (h2 : n < 2147483648) :
    toInt (toUInt n) = n := by
  unfold toInt toUInt
  split_ifs with h <;> omega

/-- A non-negative integer below 2^32 keeps its value as a `uint`. -/
theorem toUInt_of_nonneg (n : Int) (h1 : 0 ≤ n) (h2 : n < 4294967296) :
    toUInt n = n.toNat := by
  unfold toUInt
  rw [Int.emod_eq_of_lt h1 h2]

/-- The position `zoom(offset)` moves to, as the source computes it. -/
theorem zoomOffset_eq (d : PrivateData) (offset : Int) (k : Nat) (r : QwtDoubleRect)
    (hk : (if offset = 0 then 0
      else toUInt (min ((d.zoomStack.length : Int) - 1)
        (max 0 (toInt (toUInt ((d.zoomRectIndex : Int) + offset)))))) = k)
    (hr : d.zoomStack[k]? = some r) :
    zoomOffset d offset = some ⟨{ d with zoomRectIndex := k }, [r]⟩ := by
  unfold zoomOffset
  simp only [PrivateData.zoomRect]
  rw [hk, hr]

/-- Offset 0 moves to the zoom base. -/
theorem zoomOffset_zero (d : PrivateData) (base : QwtDoubleRect) (hb : d.zoomBase = some base) :
    zoomOffset d 0 = some ⟨{ d with zoomRectIndex := 0 }, [base]⟩ :=
  zoomOffset_eq d 0 0 base rfl hb

/-- An offset other than 0 whose sum with the position fits an `int` moves to
the sum clamped into the stack. -/
theorem zoomOffset_clamped (d : PrivateData) (offset : Int) (hv : d.valid) (h0 : offset ≠ 0)
    (hlo : -2147483648 ≤ offset) (hhi : (d.zoomRectIndex : Int) + offset < 2147483648) :
    ∃ r, d.zoomStack[(min ((d.zoomStack.length : Int) - 1)
          (max 0 ((d.zoomRectIndex : Int) + offset))).toNat]? = some r ∧
      zoomOffset d offset = some
        ⟨{ d with zoomRectIndex := (min ((d.zoomStack.length : Int) - 1)
            (max 0 ((d.zoomRectIndex : Int) + offset))).toNat }, [r]⟩ := by
  obtain ⟨hi, hl, _, _⟩ := hv
  have hk : (min ((d.zoomStack.length : Int) - 1)
      (max 0 ((d.zoomRectIndex : Int) + offset))).toNat < d.zoomStack.length := by omega
  refine ⟨d.zoomStack[(min ((d.zoomStack.length : Int) - 1)
      (max 0 ((d.zoomRectIndex : Int) + offset))).toNat], by simp [hk], ?_⟩
  apply zoomOffset_eq
  · rw [if_neg h0, toInt_toUInt _ (by omega) hhi, toUInt_of_nonneg _ (by omega) (by omega)]
  · simp [hk]

/-- Whatever the offset, `zoom(offset)` on a valid zoomer returns, keeps the
stack and the depth, lands on an entry of the stack and emits that entry. -/
theorem zoomOffset_total (d : PrivateData) (offset : Int) (hv : d.valid) :
    ∃ k r, k < d.zoomStack.length ∧ d.zoomStack[k]? = some r ∧
      zoomOffset d offset = some ⟨{ d with zoomRectIndex := k }, [r]⟩ := by
  obtain ⟨hi, hl, _, _⟩ := hv
  by_cases h0 : offset = 0
  · subst h0
    have hpos : 0 < d.zoomStack.length := by omega
    exact ⟨0, d.zoomStack[0], hpos, by simp [hpos], zoomOffset_zero d _ (by
      unfold PrivateData.zoomBase; simp [hpos])⟩
  · have hb : toUInt (min ((d.zoomStack.length : Int) - 1)
        (max 0 (toInt (toUInt ((d.zoomRectIndex : Int) + offset))))) < d.zoomStack.length := by
      rw [toUInt_of_nonneg _ (by omega) (by omega)]
      omega
    refine ⟨_, d.zoomStack[toUInt (min ((d.zoomStack.length : Int) - 1)
        (max 0 (toInt (toUInt ((d.zoomRectIndex : Int) + offset)))))], hb, by simp [hb], ?_⟩
    apply zoomOffset_eq
    · rw [if_neg h0]
    · simp [hb]

/-- On a valid zoomer `zoom(rect)` returns; it keeps the zoom base, and either
changes nothing and emits nothing, or pushes the intersection, which differs
from the rectangle that was current, and emits it. -/
theorem zoom_total (d : PrivateData) (rect base cur : QwtDoubleRect) (hv : d.valid)
    (hb : d.zoomBase = some base) (hc : d.zoomRect = some cur) :
    zoom d rect = some ⟨d, []⟩ ∨
      (base.intersected rect.normalized ≠ cur ∧
        (d.maxStackDepth < 0 ∨ (d.zoomRectIndex : Int) < d.maxStackDepth) ∧
        zoom d rect = some
          ⟨{ zoomRectIndex := d.zoomRectIndex + 1,
             zoomStack := d.zoomStack.take (d.zoomRectIndex + 1) ++
               [base.intersected rect.normalized],
             maxStackDepth := d.maxStackDepth },
           [base.intersected rect.normalized]⟩) := by
  by_cases hg : 0 ≤ d.maxStackDepth ∧ d.maxStackDepth ≤ (d.zoomRectIndex : Int)
  · exact Or.inl (zoom_blocked d rect hv hg.1 hg.2)
  · by_cases he : base.intersected rect.normalized = cur
    · exact Or.inl (zoom_same d rect base hb (he ▸ hc))
    · have hdepth : d.maxStackDepth < 0 ∨ (d.zoomRectIndex : Int) < d.maxStackDepth := by omega
      exact Or.inr ⟨he, hdepth, zoom_pushed d rect base cur hv hdepth hb hc he⟩

/-- Truncating a stack above a position of it keeps the zoom base. -/
theorem take_append_head (st : List QwtDoubleRect) (i : Nat) (z : QwtDoubleRect)
    (hi : i < st.length) : (st.take (i + 1) ++ [z])[0]? = st[0]? := by
  cases st with
  | nil => simp at hi
  | cons a t => simp

/-- The entry at position `i` survives the truncation above `i`. -/
theorem take_append_at (st : List QwtDoubleRect) (i : Nat) (z : QwtDoubleRect)
    (hi : i < st.length) : (st.take (i + 1) ++ [z])[i]? = st[i]? := by
  rw [List.getElem?_append_left (by simp; omega), List.getElem?_take_of_lt (by omega)]

/-- The pushed rectangle sits right above position `i`. -/
theorem take_append_top (st : List QwtDoubleRect) (i : Nat) (z : QwtDoubleRect)
    (hi : i < st.length) : (st.take (i + 1) ++ [z])[i + 1]? = some z := by
  rw [List.getElem?_append_right (by simp)]
  have hm : min (i + 1) st.length = i + 1 := by omega
  simp [List.length_take, hm]

/-- C2: `zoom(offset)` at the offset 2147483647 on a zoomer standing on
position 1 of three rectangles: the sum `zoomRectIndex + offset`, formed in
`uint` and stored in an `int`, is negative, so the zoomer lands on position 0,
while the sum clamped into the stack is position 2. -/
theorem C2_zoom_offset_wraps :
    zoomOffset sampleData 2147483647 =
        some ⟨{ sampleData with zoomRectIndex := 0 }, [square 0 100]⟩ ∧
      (min ((sampleData.zoomStack.length : Int) - 1)
        (max 0 ((sampleData.zoomRectIndex : Int) + 2147483647))).toNat = 2 :=
  ⟨zoomOffset_eq sampleData 2147483647 0 (square 0 100) (by decide) rfl, by decide⟩

/-- C3: on every valid zoomer and for every rectangle `r`, `zoom(r)` followed by
`zoom(0)` returns and leaves `zoomRect()` equal to the zoom base as it was
before `zoom(r)`. -/
theorem C3_zoom_then_home (d : PrivateData) (r base : QwtDoubleRect) (hv : d.valid)
    (hb : d.zoomBase = some base) :
    ∃ o1 o2, zoom d r = some o1 ∧ zoomOffset o1.data 0 = some o2 ∧
      o2.data.zoomRect = some base ∧ o2.data.zoomBase = some base := by
  obtain ⟨cur, hc⟩ := valid_zoomRect d hv
  have hi : d.zoomRectIndex < d.zoomStack.length := hv.1
  rcases zoom_total d r base cur hv hb hc with h | ⟨_, _, h⟩
  · exact ⟨_, _, h, zoomOffset_zero d base hb, hb, hb⟩
  · have hb1 : PrivateData.zoomBase
        { zoomRectIndex := d.zoomRectIndex + 1,
          zoomStack := d.zoomStack.take (d.zoomRectIndex + 1) ++ [base.intersected r.normalized],
          maxStackDepth := d.maxStackDepth } = some base := by
      unfold PrivateData.zoomBase at hb ⊢
      simp only
      rw [take_append_head _ _ _ hi, hb]
    exact ⟨_, _, h, zoomOffset_zero _ base hb1, hb1, hb1⟩

theorem C3_zoom_then_home_witness :
    ∃ o1 o2, zoom sampleData (square 50 70) = some o1 ∧ zoomOffset o1.data 0 = some o2 ∧
      o2.data.zoomRect = some (square 0 100) ∧ o2.data.zoomBase = some (square 0 100) :=
  C3_zoom_then_home sampleData (square 50 70) (square 0 100) (by decide) rfl

/-- C5: `zoom(rect)` whose intersection of the zoom base with the normalized
`rect` equals the current rectangle changes neither the stack nor
`zoomRectIndex` and emits no `zoomed` signal. -/
theorem C5_zoom_same_rect_noop (d : PrivateData) (rect base cur : QwtDoubleRect)
    (hb : d.zoomBase = some base) (hc : d.zoomRect = some cur)
    (heq : base.intersected rect.normalized = cur) :
    zoom d rect = some ⟨d, []⟩ :=
  zoom_same d rect base hb (heq ▸ hc)

theorem C5_zoom_same_rect_noop_witness :
    sampleData.zoomBase = some (square 0 100) ∧ sampleData.zoomRect = some (square 20 80) ∧
      (square 0 100).intersected (square 20 80).normalized = square 20 80 ∧
      zoom sampleData (square 20 80) = some ⟨sampleData, []⟩ :=
  have heq : (square 0 100).intersected (square 20 80).normalized = square 20 80 := by
    norm_num [QwtDoubleRect.intersected, QwtDoubleRect.normalized, QwtDoubleRect.xMin,
      QwtDoubleRect.xMax, QwtDoubleRect.yMin, QwtDoubleRect.yMax, QwtDoubleRect.null, square]
  ⟨rfl, rfl, heq,
    C5_zoom_same_rect_noop sampleData (square 20 80) (square 0 100) (square 20 80) rfl rfl heq⟩

/-- C6: with `maxStackDepth >= 0` and `zoomRectIndex >= maxStackDepth`, and so
at every position when `maxStackDepth == 0`, `zoom(rect)` changes neither the
stack nor `zoomRectIndex` and emits no `zoomed` signal, for every `rect`: no
rectangle is pushed. -/
theorem C6_zoom_past_depth_noop (d : PrivateData) (hv : d.valid)
    (h : (0 ≤ d.maxStackDepth ∧ d.maxStackDepth ≤ (d.zoomRectIndex : Int)) ∨
      d.maxStackDepth = 0) :
    ∀ rect, zoom d rect = some ⟨d, []⟩ := by
  intro rect
  rcases h with h | h
  · exact zoom_blocked d rect hv h.1 h.2
  · exact zoom_blocked d rect hv (by omega) (by omega)

theorem C6_zoom_past_depth_noop_witness :
    (∀ rect, zoom { sampleData with maxStackDepth := 1 } rect =
        some ⟨{ sampleData with maxStackDepth := 1 }, []⟩) ∧
      (∀ rect, zoom { freshData with maxStackDepth := 0 } rect =
        some ⟨{ freshData with maxStackDepth := 0 }, []⟩) :=
  ⟨C6_zoom_past_depth_noop { sampleData with maxStackDepth := 1 } (by decide)
      (Or.inl (by decide)),
    C6_zoom_past_depth_noop { freshData with maxStackDepth := 0 } (by decide) (Or.inr rfl)⟩

/-- C4: with unlimited depth, when `zoom(r1)` and then `zoom(r2)` each push a
rectangle (and the stack count stays within `int`), a following `zoom(-1)` makes
`zoomRect()` the rectangle that `zoom(r1)` pushed. -/
theorem C4_zoom_back_one (d : PrivateData) (r1 r2 base cur : QwtDoubleRect) (hv : d.valid)
    (hun : d.maxStackDepth < 0) (hroom : d.zoomRectIndex + 3 < 2147483648)
    (hb : d.zoomBase = some base) (hc : d.zoomRect = some cur)
    (h1 : base.intersected r1.normalized ≠ cur)
    (h2 : base.intersected r2.normalized ≠ base.intersected r1.normalized) :
    ∃ o1 o2 o3, zoom d r1 = some o1 ∧ o1.zoomed = [base.intersected r1.normalized] ∧
      zoom o1.data r2 = some o2 ∧ o2.zoomed = [base.intersected r2.normalized] ∧
      zoomOffset o2.data (-1) = some o3 ∧
      o3.data.zoomRect = some (base.intersected r1.normalized) := by
  obtain ⟨hi, hl, hm1, hm2⟩ := hv
  have hmin : min (d.zoomRectIndex + 1) d.zoomStack.length = d.zoomRectIndex + 1 := by omega
  have e1 := zoom_pushed d r1 base cur ⟨hi, hl, hm1, hm2⟩ (Or.inl hun) hb hc h1
  have hv1 : PrivateData.valid
      { zoomRectIndex := d.zoomRectIndex + 1,
        zoomStack := d.zoomStack.take (d.zoomRectIndex + 1) ++ [base.intersected r1.normalized],
        maxStackDepth := d.maxStackDepth } := by
    refine ⟨?_, ?_, hm1, hm2⟩
    · simp [List.length_take, hmin]
    · simp only [List.length_append, List.length_take, List.length_singleton]
      omega
  have hb1 : PrivateData.zoomBase
      { zoomRectIndex := d.zoomRectIndex + 1,
        zoomStack := d.zoomStack.take (d.zoomRectIndex + 1) ++ [base.intersected r1.normalized],
        maxStackDepth := d.maxStackDepth } = some base := by
    unfold PrivateData.zoomBase at hb ⊢
    simp only
    rw [take_append_head _ _ _ hi, hb]
  have hc1 : PrivateData.zoomRect
      { zoomRectIndex := d.zoomRectIndex + 1,
        zoomStack := d.zoomStack.take (d.zoomRectIndex + 1) ++ [base.intersected r1.normalized],
        maxStackDepth := d.maxStackDepth } = some (base.intersected r1.normalized) := by
    unfold PrivateData.zoomRect
    simp only
    exact take_append_top _ _ _ hi
  have e2 := zoom_pushed _ r2 base _ hv1 (Or.inl hun) hb1 hc1 h2
  have hlen1 : (d.zoomStack.take (d.zoomRectIndex + 1) ++
      [base.intersected r1.normalized]).length = d.zoomRectIndex + 2 := by
    simp [List.length_take, hmin]
  have hv2 : PrivateData.valid
      { zoomRectIndex := d.zoomRectIndex + 1 + 1,
        zoomStack := (d.zoomStack.take (d.zoomRectIndex + 1) ++
          [base.intersected r1.normalized]).take (d.zoomRectIndex + 1 + 1) ++
          [base.intersected r2.normalized],
        maxStackDepth := d.maxStackDepth } := by
    refine ⟨?_, ?_, hm1, hm2⟩
    · simp [List.length_take, hmin]
    · simp only [List.length_append, List.length_take, List.length_singleton]
      omega
  obtain ⟨r, hr, e3⟩ := zoomOffset_clamped _ (-1) hv2 (by decide) (by decide)
    (by simp only; omega)
  refine ⟨_, _, _, e1, rfl, e2, rfl, e3, ?_⟩
  simp only [PrivateData.zoomRect]
  have hk : (min ((((d.zoomStack.take (d.zoomRectIndex + 1) ++
      [base.intersected r1.normalized]).take (d.zoomRectIndex + 1 + 1) ++
      [base.intersected r2.normalized]).length : Int) - 1)
      (max 0 (((d.zoomRectIndex + 1 + 1 : Nat) : Int) + -1))).toNat = d.zoomRectIndex + 1 := by
    simp [List.length_take, hmin]
    omega
  simp only at hr
  rw [hk] at hr ⊢
  rw [take_append_at _ _ _ (by rw [hlen1]; omega)]
  exact take_append_top _ _ _ hi

theorem C4_zoom_back_one_witness :
    (∃ o1 o2 o3, zoom freshData (square 20 80) = some o1 ∧
      o1.zoomed = [(square 0 100).intersected (square 20 80).normalized] ∧
      zoom o1.data (square 30 40) = some o2 ∧
      o2.zoomed = [(square 0 100).intersected (square 30 40).normalized] ∧
      zoomOffset o2.data (-1) = some o3 ∧
      o3.data.zoomRect = some ((square 0 100).intersected (square 20 80).normalized)) ∧
    (square 0 100).intersected (square 20 80).normalized = square 20 80 :=
  ⟨C4_zoom_back_one freshData (square 20 80) (square 30 40) (square 0 100) (square 0 100)
      (by decide) (by decide) (by decide) rfl rfl
      (by norm_num [QwtDoubleRect.intersected, QwtDoubleRect.normalized, QwtDoubleRect.xMin,
        QwtDoubleRect.xMax, QwtDoubleRect.yMin, QwtDoubleRect.yMax, QwtDoubleRect.null, square])
      (by norm_num [QwtDoubleRect.intersected, QwtDoubleRect.normalized, QwtDoubleRect.xMin,
        QwtDoubleRect.xMax, QwtDoubleRect.yMin, QwtDoubleRect.yMax, QwtDoubleRect.null, square]),
    by norm_num [QwtDoubleRect.intersected, QwtDoubleRect.normalized, QwtDoubleRect.xMin,
      QwtDoubleRect.xMax, QwtDoubleRect.yMin, QwtDoubleRect.yMax, QwtDoubleRect.null, square]⟩

/-! ## `setMaxStackDepth` -/

/-- A negative depth, or a depth the stack is already within, only stores the
depth. -/
theorem setMaxStackDepth_keep (d : PrivateData) (depth : Int)
    (h : depth < 0 ∨ (d.zoomStack.length : Int) - 1 ≤ depth) :
    setMaxStackDepth d depth = some ⟨{ d with maxStackDepth := depth }, []⟩ := by
  unfold setMaxStackDepth
  simp only
  by_cases h0 : 0 ≤ depth
  · rw [if_pos h0, if_neg (by omega)]
  · rw [if_neg h0]

/-- A depth the stack exceeds by `zoomOut` moves the position down by
`zoomOut`, not below the base, and drops every entry above the new position. -/
theorem setMaxStackDepth_unzoom (d : PrivateData) (depth : Int) (hv : d.valid)
    (h0 : 0 ≤ depth) (hz : depth < (d.zoomStack.length : Int) - 1) :
    ∃ r, d.zoomStack[((d.zoomRectIndex : Int) -
          ((d.zoomStack.length : Int) - 1 - depth)).toNat]? = some r ∧
      setMaxStackDepth d depth = some
        ⟨{ zoomRectIndex :=
             ((d.zoomRectIndex : Int) - ((d.zoomStack.length : Int) - 1 - depth)).toNat,
           zoomStack := d.zoomStack.take
             (((d.zoomRectIndex : Int) - ((d.zoomStack.length : Int) - 1 - depth)).toNat + 1),
           maxStackDepth := depth }, [r]⟩ := by
  obtain ⟨hi, hl, hm1, hm2⟩ := hv
  have hv1 : PrivateData.valid { d with maxStackDepth := depth } :=
    ⟨hi, hl, by simp only; omega, by simp only; omega⟩
  obtain ⟨r, hr, e⟩ := zoomOffset_clamped { d with maxStackDepth := depth }
    (-((d.zoomStack.length : Int) - 1 - depth)) hv1 (by omega) (by omega)
    (by simp only; omega)
  simp only at hr e
  have hk : (min ((d.zoomStack.length : Int) - 1)
      (max 0 ((d.zoomRectIndex : Int) + -((d.zoomStack.length : Int) - 1 - depth)))).toNat =
      ((d.zoomRectIndex : Int) - ((d.zoomStack.length : Int) - 1 - depth)).toNat := by omega
  rw [hk] at hr e
  refine ⟨r, hr, ?_⟩
  unfold setMaxStackDepth
  simp only
  rw [if_pos h0, if_pos (by omega), e]
  simp only
  rw [popTrailing_eq_take _ _ _ (by omega) (by omega)]

/-- C7: `setMaxStackDepth(d)` returns and stores the depth.  With `d >= 0` the
stack afterwards is a leading part of the stack before, holds at most `d`
rectangles above the base, `zoomRectIndex` is a valid index of it, and when
anything was removed no entry remains above `zoomRectIndex`.  With `d == -1`,
or with `count - 1 <= d` before the call, the stack and `zoomRectIndex` are
unchanged. -/
theorem C7_setMaxStackDepth_bounds (d : PrivateData) (depth : Int) (hv : d.valid) :
    ∃ o, setMaxStackDepth d depth = some o ∧ o.data.maxStackDepth = depth ∧
      (0 ≤ depth →
        (∃ n, o.data.zoomStack = d.zoomStack.take n) ∧
        (o.data.zoomStack.length : Int) - 1 ≤ depth ∧
        o.data.zoomRectIndex < o.data.zoomStack.length ∧
        (o.data.zoomStack ≠ d.zoomStack →
          o.data.zoomStack.length = o.data.zoomRectIndex + 1)) ∧
      (depth = -1 ∨ (d.zoomStack.length : Int) - 1 ≤ depth →
        o.data.zoomStack = d.zoomStack ∧ o.data.zoomRectIndex = d.zoomRectIndex) := by
  by_cases hk : depth < 0 ∨ (d.zoomStack.length : Int) - 1 ≤ depth
  · refine ⟨_, setMaxStackDepth_keep d depth hk, rfl, fun h0 => ?_, fun _ => ⟨rfl, rfl⟩⟩
    refine ⟨⟨d.zoomStack.length, by simp⟩, by simp only; omega, hv.1, fun h => ?_⟩
    exact absurd rfl h
  · have h0 : 0 ≤ depth := by omega
    have hz : depth < (d.zoomStack.length : Int) - 1 := by omega
    obtain ⟨r, hr, e⟩ := setMaxStackDepth_unzoom d depth hv h0 hz
    obtain ⟨hi, hl, _, _⟩ := hv
    refine ⟨_, e, rfl, fun _ => ⟨⟨_, rfl⟩, ?_, ?_, fun _ => ?_⟩, fun h => ?_⟩
    · simp only [List.length_take]
      omega
    · simp only [List.length_take]
      omega
    · simp only [List.length_take]
      omega
    · omega

theorem C7_setMaxStackDepth_bounds_witness :
    ∃ o, setMaxStackDepth sampleData 1 = some o ∧ o.data.maxStackDepth = 1 ∧
      (0 ≤ (1 : Int) →
        (∃ n, o.data.zoomStack = sampleData.zoomStack.take n) ∧
        (o.data.zoomStack.length : Int) - 1 ≤ 1 ∧
        o.data.zoomRectIndex < o.data.zoomStack.length ∧
        (o.data.zoomStack ≠ sampleData.zoomStack →
          o.data.zoomStack.length = o.data.zoomRectIndex + 1)) ∧
      ((1 : Int) = -1 ∨ (sampleData.zoomStack.length : Int) - 1 ≤ 1 →
        o.data.zoomStack = sampleData.zoomStack ∧
          o.data.zoomRectIndex = sampleData.zoomRectIndex) :=
  C7_setMaxStackDepth_bounds sampleData 1 (by decide)

/-! ## The `zoomed` signal -/

/-- A `zoom(rect)` that changes the current rectangle emits it. -/
theorem zoom_emits (d : PrivateData) (rect : QwtDoubleRect) (o : Outcome) (hv : d.valid)
    (h : zoom d rect = some o) (hch : o.data.zoomRect ≠ d.zoomRect) :
    ∃ r, o.zoomed = [r] ∧ o.data.zoomRect = some r := by
  obtain ⟨base, hb⟩ := valid_zoomBase d hv
  obtain ⟨cur, hc⟩ := valid_zoomRect d hv
  rcases zoom_total d rect base cur hv hb hc with e | ⟨_, _, e⟩
  · rw [e] at h
    cases h
    exact absurd rfl hch
  · rw [e] at h
    cases h
    exact ⟨_, rfl, take_append_top _ _ _ hv.1⟩

/-- Every `zoom(offset)` that returns emits the rectangle it lands on. -/
theorem zoomOffset_emits (d : PrivateData) (offset : Int) (o : Outcome)
    (h : zoomOffset d offset = some o) :
    ∃ r, o.zoomed = [r] ∧ o.data.zoomRect = some r := by
  unfold zoomOffset at h
  simp only at h
  split at h
  · next r hr =>
    cases h
    exact ⟨r, rfl, hr⟩
  · cases h

/-- A `setMaxStackDepth` that changes the current rectangle emits it. -/
theorem setMaxStackDepth_emits (d : PrivateData) (depth : Int) (o : Outcome) (hv : d.valid)
    (h : setMaxStackDepth d depth = some o) (hch : o.data.zoomRect ≠ d.zoomRect) :
    ∃ r, o.zoomed = [r] ∧ o.data.zoomRect = some r := by
  by_cases hk : depth < 0 ∨ (d.zoomStack.length : Int) - 1 ≤ depth
  · rw [setMaxStackDepth_keep d depth hk] at h
    cases h
    exact absurd rfl hch
  · obtain ⟨r, hr, e⟩ := setMaxStackDepth_unzoom d depth hv (by omega) (by omega)
    rw [e] at h
    cases h
    refine ⟨r, rfl, ?_⟩
    simp only [PrivateData.zoomRect]
    rw [List.getElem?_take_of_lt (by omega), hr]

/-- The position `setZoomStack` stores: the index asked for, or the top when
the index is negative or beyond the count. -/
theorem setZoomStack_index (st : List QwtDoubleRect) (i : Int) (hst : st.length < 2147483648)
    (hpos : 0 < st.length) :
    toUInt (if i < 0 ∨ (st.length : Int) < i then (st.length : Int) - 1 else i) =
      (if i < 0 ∨ (st.length : Int) < i then (st.length : Int) - 1 else i).toNat := by
  apply toUInt_of_nonneg <;> split_ifs <;> omega

/-- A `setZoomStack` that changes the current rectangle emits it. -/
theorem setZoomStack_emits (d : PrivateData) (st : List QwtDoubleRect) (i : Int) (o : Outcome)
    (hst : st.length < 2147483648) (h : setZoomStack d st i = some o)
    (hch : o.data.zoomRect ≠ d.zoomRect) :
    ∃ r, o.zoomed = [r] ∧ o.data.zoomRect = some r := by
  unfold setZoomStack at h
  by_cases h1 : st.isEmpty
  · rw [if_pos h1] at h
    cases h
    exact absurd rfl hch
  rw [if_neg h1] at h
  by_cases h2 : 0 ≤ d.maxStackDepth ∧ d.maxStackDepth < (st.length : Int)
  · rw [if_pos h2] at h
    cases h
    exact absurd rfl hch
  rw [if_neg h2] at h
  have hpos : 0 < st.length := by
    cases st with
    | nil => simp at h1
    | cons a t => simp
  have hu := setZoomStack_index st i hst hpos
  simp only at h
  rw [hu] at h
  generalize (if i < 0 ∨ (st.length : Int) < i then (st.length : Int) - 1 else i).toNat = k at h
  cases hr : st[k]? with
  | none => rw [hr] at h; cases h
  | some r =>
    cases hcur : d.zoomRect with
    | none => rw [hr, hcur] at h; cases h
    | some cur =>
      rw [hr, hcur] at h
      simp only [PrivateData.zoomRect] at h
      rw [hr] at h
      by_cases hne : r = cur
      · simp only [hne, ne_eq, not_true_eq_false, decide_False, Bool.false_eq_true,
          if_false] at h
        cases h
        exfalso
        apply hch
        simp only [PrivateData.zoomRect] at hcur ⊢
        rw [hr, hcur, hne]
      · simp only [ne_eq, hne, not_false_eq_true, decide_True, if_true] at h
        cases h
        exact ⟨r, rfl, hr⟩

/-- The method `move` emits no signal. -/
theorem move_silent (d : PrivateData) (x y : ℚ) (o : Outcome) (h : move d x y = some o) :
    o.zoomed = [] := by
  unfold move at h
  cases hb : d.zoomBase with
  | none => rw [hb] at h; cases h
  | some base =>
    cases hc : d.zoomRect with
    | none => rw [hb, hc] at h; cases h
    | some cur =>
      rw [hb, hc] at h
      simp only at h
      split at h <;> cases h <;> rfl

/-- The method `moveBy` emits no signal. -/
theorem moveBy_silent (d : PrivateData) (dx dy : ℚ) (o : Outcome)
    (h : moveBy d dx dy = some o) : o.zoomed = [] := by
  unfold moveBy at h
  split at h
  · exact move_silent d _ _ o h
  · cases h

/-- Neither `setZoomBase` emits a signal. -/
theorem setZoomBase_silent (d : PrivateData) (s : Option QwtDoubleRect) (base : QwtDoubleRect)
    (o : Outcome) (h : setZoomBase d s base = some o ∨ setZoomBaseScale d s = some o) :
    o.zoomed = [] := by
  rcases h with h | h
  · unfold setZoomBase at h
    split at h <;> cases h <;> rfl
  · unfold setZoomBaseScale at h
    split at h <;> cases h <;> rfl

/-- C8, as stated, fails: `move(30, 30)` on a zoomer standing on
`[20, 80] x [20, 80]` inside the base `[0, 100] x [0, 100]` changes `zoomRect()`
and emits no `zoomed` signal. -/
theorem C8_move_changes_without_signal :
    ∃ o, move sampleData 30 30 = some o ∧ o.data.zoomRect = some ⟨30, 30, 60, 60⟩ ∧
      o.data.zoomRect ≠ sampleData.zoomRect ∧ o.zoomed = [] := by
  refine ⟨⟨{ sampleData with
      zoomStack := [square 0 100, ⟨30, 30, 60, 60⟩, square 30 40] }, []⟩, ?_, rfl, ?_, rfl⟩
  · norm_num [move, limitTo, sampleData, square, PrivateData.zoomBase, PrivateData.zoomRect,
      QwtDoubleRect.left, QwtDoubleRect.right, QwtDoubleRect.top, QwtDoubleRect.bottom,
      QwtDoubleRect.width, QwtDoubleRect.height, QwtDoubleRect.moveTo, Double.fl_100,
      Double.fl_40]
  · norm_num [sampleData, square, PrivateData.zoomRect]

/-- C8, amended: `zoom(rect)`, `zoom(offset)`, `setMaxStackDepth` and
`setZoomStack`, whenever they change `zoomRect()`, emit the `zoomed` signal
once, and the rectangle it carries is the new `zoomRect()`; `move`, `moveBy`
and both `setZoomBase` never emit it. -/
theorem C8_zoomed_signal (d : PrivateData) (o : Outcome) (hv : d.valid) :
    (((∃ rect, zoom d rect = some o) ∨ (∃ offset, zoomOffset d offset = some o) ∨
        (∃ depth, setMaxStackDepth d depth = some o) ∨
        (∃ st i, st.length < 2147483648 ∧ setZoomStack d st i = some o)) →
      o.data.zoomRect ≠ d.zoomRect → ∃ r, o.zoomed = [r] ∧ o.data.zoomRect = some r) ∧
    (((∃ x y, move d x y = some o) ∨ (∃ dx dy, moveBy d dx dy = some o) ∨
        (∃ s base, setZoomBase d s base = some o) ∨ (∃ s, setZoomBaseScale d s = some o)) →
      o.zoomed = []) := by
  constructor
  · rintro (⟨rect, h⟩ | ⟨offset, h⟩ | ⟨depth, h⟩ | ⟨st, i, hst, h⟩) hch
    · exact zoom_emits d rect o hv h hch
    · exact zoomOffset_emits d offset o h
    · exact setMaxStackDepth_emits d depth o hv h hch
    · exact setZoomStack_emits d st i o hst h hch
  · rintro (⟨x, y, h⟩ | ⟨dx, dy, h⟩ | ⟨s, base, h⟩ | ⟨s, h⟩)
    · exact move_silent d x y o h
    · exact moveBy_silent d dx dy o h
    · exact setZoomBase_silent d s base o (Or.inl h)
    · exact setZoomBase_silent d s QwtDoubleRect.null o (Or.inr h)

theorem C8_zoomed_signal_witness :
    ∃ r, (⟨{ sampleData with zoomRectIndex := 0 }, [square 0 100]⟩ : Outcome).zoomed = [r] ∧
      (⟨{ sampleData with zoomRectIndex := 0 }, [square 0 100]⟩ : Outcome).data.zoomRect =
        some r :=
  (C8_zoomed_signal sampleData ⟨{ sampleData with zoomRectIndex := 0 }, [square 0 100]⟩
    (by decide)).1
    (Or.inr (Or.inl ⟨0, zoomOffset_zero sampleData (square 0 100) rfl⟩))
    (by norm_num [sampleData, square, PrivateData.zoomRect])

/-! ## Rectangles -/

namespace QwtDoubleRect

/-- The vertical edges are in order. -/
theorem xMin_le_xMax (r : QwtDoubleRect) : r.xMin ≤ r.xMax := by
  unfold xMin xMax
  split_ifs <;> linarith

/-- The horizontal edges are in order. -/
theorem yMin_le_yMax (r : QwtDoubleRect) : r.yMin ≤ r.yMax := by
  unfold yMin yMax
  split_ifs <;> linarith

/-- With no negative width the left edge is the corner. -/
theorem xMin_of_nonneg (r : QwtDoubleRect) (h : 0 ≤ r.w) : r.xMin = r.xp := by
  unfold xMin
  rw [if_neg (not_lt.mpr h)]

/-- With no negative width the right edge is corner plus width. -/
theorem xMax_of_nonneg (r : QwtDoubleRect) (h : 0 ≤ r.w) : r.xMax = r.xp + r.w := by
  unfold xMax
  rw [if_neg (not_lt.mpr h)]

/-- With no negative height the top edge is the corner. -/
theorem yMin_of_nonneg (r : QwtDoubleRect) (h : 0 ≤ r.h) : r.yMin = r.yp := by
  unfold yMin
  rw [if_neg (not_lt.mpr h)]

/-- With no negative height the bottom edge is corner plus height. -/
theorem yMax_of_nonneg (r : QwtDoubleRect) (h : 0 ≤ r.h) : r.yMax = r.yp + r.h := by
  unfold yMax
  rw [if_neg (not_lt.mpr h)]

/-- Normalizing keeps the edges. -/
theorem normalized_edges (r : QwtDoubleRect) :
    r.normalized.xMin = r.xMin ∧ r.normalized.xMax = r.xMax ∧
      r.normalized.yMin = r.yMin ∧ r.normalized.yMax = r.yMax := by
  unfold normalized xMin xMax yMin yMax
  by_cases hw : r.w < 0 <;> by_cases hh : r.h < 0
  · have hw1 : ¬ (-r.w < 0) := by linarith
    have hh1 : ¬ (-r.h < 0) := by linarith
    simp only [hw, hh, hw1, hh1, if_true, if_false]
    refine ⟨?_, ?_, ?_, ?_⟩ <;> first | trivial | ring
  · have hw1 : ¬ (-r.w < 0) := by linarith
    simp only [hw, hh, hw1, if_true, if_false]
    refine ⟨?_, ?_, ?_, ?_⟩ <;> first | trivial | ring
  · have hh1 : ¬ (-r.h < 0) := by linarith
    simp only [hw, hh, hh1, if_true, if_false]
    refine ⟨?_, ?_, ?_, ?_⟩ <;> first | trivial | ring
  · simp only [hw, hh, if_false]
    refine ⟨?_, ?_, ?_, ?_⟩ <;> trivial

/-- Every rectangle lies in itself. -/
theorem subsetOf_refl (r : QwtDoubleRect) : r.subsetOf r := fun _ _ h => h

/-- A rectangle without width has no point, so it lies in every rectangle. -/
theorem subsetOf_of_width_zero (r b : QwtDoubleRect) (h : r.w = 0) : r.subsetOf b := by
  intro px py hp
  exact absurd (by unfold xMin xMax; simp [h]) hp.1

/-- A rectangle without height has no point, so it lies in every rectangle. -/
theorem subsetOf_of_height_zero (r b : QwtDoubleRect) (h : r.h = 0) : r.subsetOf b := by
  intro px py hp
  exact absurd (by unfold yMin yMax; simp [h]) hp.2.2.2.1

/-- The null rectangle lies in every rectangle. -/
theorem null_subsetOf (b : QwtDoubleRect) : null.subsetOf b :=
  subsetOf_of_width_zero null b rfl

/-- The two results of `intersected`: the null rectangle, or the rectangle
between the inner edges, which then has an extent on both axes. -/
theorem intersected_cases (a b : QwtDoubleRect) :
    a.intersected b = null ∨
      (a.xMin ≠ a.xMax ∧ a.yMin ≠ a.yMax ∧
        max a.xMin b.xMin < min a.xMax b.xMax ∧ max a.yMin b.yMin < min a.yMax b.yMax ∧
        a.intersected b =
          ⟨max a.xMin b.xMin, max a.yMin b.yMin,
            min a.xMax b.xMax - max a.xMin b.xMin, min a.yMax b.yMax - max a.yMin b.yMin⟩) := by
  have ha := a.xMin_le_xMax
  have hb := b.xMin_le_xMax
  have hc := a.yMin_le_yMax
  have hd := b.yMin_le_yMax
  by_cases h1 : a.xMin = a.xMax
  · left; unfold intersected; simp only [h1, if_true]
  by_cases h2 : b.xMin = b.xMax
  · left; unfold intersected; simp only [h1, h2, if_true, if_false]
  by_cases h3 : a.xMin ≥ b.xMax ∨ b.xMin ≥ a.xMax
  · left; unfold intersected; simp only [h1, h2, h3, if_true, if_false]
  by_cases h4 : a.yMin = a.yMax
  · left; unfold intersected; simp only [h1, h2, h3, h4, if_true, if_false]
  by_cases h5 : b.yMin = b.yMax
  · left; unfold intersected; simp only [h1, h2, h3, h4, h5, if_true, if_false]
  by_cases h6 : a.yMin ≥ b.yMax ∨ b.yMin ≥ a.yMax
  · left; unfold intersected; simp only [h1, h2, h3, h4, h5, h6, if_true, if_false]
  right
  push_neg at h3 h6
  refine ⟨h1, h4, ?_, ?_, ?_⟩
  · exact max_lt (lt_min (lt_of_le_of_ne ha h1) h3.1) (lt_min h3.2 (lt_of_le_of_ne hb h2))
  · exact max_lt (lt_min (lt_of_le_of_ne hc h4) h6.1) (lt_min h6.2 (lt_of_le_of_ne hd h5))
  · have h3n : ¬ (a.xMin ≥ b.xMax ∨ b.xMin ≥ a.xMax) := by push_neg; exact h3
    have h6n : ¬ (a.yMin ≥ b.yMax ∨ b.yMin ≥ a.yMax) := by push_neg; exact h6
    unfold intersected
    simp only [h1, h2, h3n, h4, h5, h6n, if_false]

/-- The intersection has no negative extent. -/
theorem intersected_nonneg (a b : QwtDoubleRect) :
    0 ≤ (a.intersected b).w ∧ 0 ≤ (a.intersected b).h := by
  rcases intersected_cases a b with h | ⟨_, _, hx, hy, h⟩
  · rw [h]; exact ⟨le_refl _, le_refl _⟩
  · rw [h]
    exact ⟨sub_nonneg.mpr hx.le, sub_nonneg.mpr hy.le⟩

/-- The intersection lies in its first operand. -/
theorem intersected_subsetOf_left (a b : QwtDoubleRect) : (a.intersected b).subsetOf a := by
  rcases intersected_cases a b with h | ⟨h1, h4, hx, hy, h⟩
  · rw [h]; exact null_subsetOf a
  · rw [h]
    intro px py hp
    obtain ⟨_, p2, p3, _, p5, p6⟩ := hp
    rw [xMin_of_nonneg _ (sub_nonneg.mpr hx.le)] at p2
    rw [xMax_of_nonneg _ (sub_nonneg.mpr hx.le)] at p3
    rw [yMin_of_nonneg _ (sub_nonneg.mpr hy.le)] at p5
    rw [yMax_of_nonneg _ (sub_nonneg.mpr hy.le)] at p6
    simp only [add_sub_cancel] at p3 p6
    exact ⟨h1, le_trans (le_max_left _ _) p2, le_trans p3 (min_le_left _ _),
      h4, le_trans (le_max_left _ _) p5, le_trans p6 (min_le_left _ _)⟩

/-- A rectangle with positive width and height contains its two corners. -/
theorem containsPoint_corners (b : QwtDoubleRect) (hw : 0 < b.w) (hh : 0 < b.h) :
    b.containsPoint b.xp b.yp ∧ b.containsPoint (b.xp + b.w) (b.yp + b.h) := by
  unfold containsPoint
  rw [xMin_of_nonneg _ hw.le, xMax_of_nonneg _ hw.le, yMin_of_nonneg _ hh.le,
    yMax_of_nonneg _ hh.le]
  refine ⟨⟨?_, ?_, ?_, ?_, ?_, ?_⟩, ⟨?_, ?_, ?_, ?_, ?_, ?_⟩⟩ <;> linarith

/-- Intersecting a non-empty rectangle with a rectangle around it, normalized
first, gives the non-empty rectangle back. -/
theorem intersected_of_subsetOf (base r : QwtDoubleRect) (hne : base.isEmpty = false)
    (hs : base.subsetOf r) : base.intersected r.normalized = base := by
  have hwh : 0 < base.w ∧ 0 < base.h := by
    simpa [isEmpty] using hne
  obtain ⟨hw, hh⟩ := hwh
  obtain ⟨c1, c2⟩ := containsPoint_corners base hw hh
  obtain ⟨q1, q2, _, q4, q5, _⟩ := hs _ _ c1
  obtain ⟨_, _, q3, _, _, q6⟩ := hs _ _ c2
  obtain ⟨e1, e2, e3, e4⟩ := normalized_edges r
  have a1 := xMin_of_nonneg base hw.le
  have a2 := xMax_of_nonneg base hw.le
  have a3 := yMin_of_nonneg base hh.le
  have a4 := yMax_of_nonneg base hh.le
  have g1 : ¬ (base.xp = base.xp + base.w) := by intro h; linarith
  have g3 : ¬ (base.xp ≥ r.xMax ∨ r.xMin ≥ base.xp + base.w) := by
    push_neg; constructor <;> linarith
  have g4 : ¬ (base.yp = base.yp + base.h) := by intro h; linarith
  have g6 : ¬ (base.yp ≥ r.yMax ∨ r.yMin ≥ base.yp + base.h) := by
    push_neg; constructor <;> linarith
  unfold intersected
  simp only [e1, e2, e3, e4, a1, a2, a3, a4, g1, q1, g3, g4, q4, g6, if_false,
    max_eq_left q2, max_eq_left q5, min_eq_left q3, min_eq_left q6, add_sub_cancel_left]

end QwtDoubleRect

/-! ## Zooming to a rectangle around the base -/

/-- C10: for a non-empty zoom base and a rectangle `r` that contains it, the
rectangle `zoom(r)` computes, the base intersected with the normalized `r`, is
the base itself; so on a zoomer whose current rectangle is the base, `zoom(r)`
leaves the stack and the index unchanged (and emits nothing). -/
theorem C10_zoom_around_base (base r : QwtDoubleRect) (hne : base.isEmpty = false)
    (hs : base.subsetOf r) :
    base.intersected r.normalized = base ∧
      ∀ d : PrivateData, d.zoomBase = some base → d.zoomRect = some base →
        zoom d r = some ⟨d, []⟩ := by
  have he := QwtDoubleRect.intersected_of_subsetOf base r hne hs
  exact ⟨he, fun d hb hc => zoom_same d r base hb (he.symm ▸ hc)⟩

theorem C10_zoom_around_base_witness :
    (square 0 100).intersected (QwtDoubleRect.normalized ⟨150, -20, -200, 300⟩) = square 0 100 ∧
      ∀ d : PrivateData, d.zoomBase = some (square 0 100) → d.zoomRect = some (square 0 100) →
        zoom d ⟨150, -20, -200, 300⟩ = some ⟨d, []⟩ :=
  C10_zoom_around_base (square 0 100) ⟨150, -20, -200, 300⟩
    (by norm_num [QwtDoubleRect.isEmpty, square])
    (by
      intro px py hp
      norm_num [QwtDoubleRect.containsPoint, QwtDoubleRect.xMin, QwtDoubleRect.xMax,
        QwtDoubleRect.yMin, QwtDoubleRect.yMax, square] at hp ⊢
      obtain ⟨p1, p2, p3, p4⟩ := hp
      refine ⟨?_, ?_, ?_, ?_⟩ <;> linarith)

/-! ## The stack stays inside the zoom base -/

namespace QwtDoubleRect

/-- The edges of a rectangle lie between its own edges. -/
theorem withinEdges_refl (r : QwtDoubleRect) : r.withinEdges r :=
  ⟨le_refl _, le_refl _, le_refl _, le_refl _⟩

/-- The intersection is the null rectangle, or its edges lie between the edges
of its first operand. -/
theorem intersected_within (a b : QwtDoubleRect) :
    (a.intersected b).isNull = true ∨ (a.intersected b).withinEdges a := by
  rcases intersected_cases a b with h | ⟨_, _, hx, hy, h⟩
  · left
    rw [h]
    simp [isNull, null]
  · right
    rw [h]
    have key : ∀ u : QwtDoubleRect,
        u = ⟨max a.xMin b.xMin, max a.yMin b.yMin, min a.xMax b.xMax - max a.xMin b.xMin,
          min a.yMax b.yMax - max a.yMin b.yMin⟩ → u.withinEdges a := by
      intro u hu
      have uw : 0 ≤ u.w := by rw [hu]; exact sub_nonneg.mpr hx.le
      have uh : 0 ≤ u.h := by rw [hu]; exact sub_nonneg.mpr hy.le
      unfold withinEdges
      rw [xMin_of_nonneg u uw, xMax_of_nonneg u uw, yMin_of_nonneg u uh, yMax_of_nonneg u uh, hu]
      simp only [add_sub_cancel]
      exact ⟨le_max_left _ _, min_le_left _ _, le_max_left _ _, min_le_left _ _⟩
    exact key _ rfl

/-- The second operand of a union is null, or its edges lie between the edges
of the union. -/
theorem united_within (a b : QwtDoubleRect) :
    b.isNull = true ∨ b.withinEdges (a.united b) := by
  unfold united
  by_cases h1 : a.isNull = true
  · rw [if_pos h1]
    exact Or.inr (withinEdges_refl b)
  · rw [if_neg h1]
    by_cases h2 : b.isNull = true
    · exact Or.inl h2
    · rw [if_neg h2]
      right
      have hx := b.xMin_le_xMax
      have hy := b.yMin_le_yMax
      have wx : min a.xMin b.xMin ≤ max a.xMax b.xMax :=
        le_trans (min_le_right _ _) (le_trans hx (le_max_right _ _))
      have wy : min a.yMin b.yMin ≤ max a.yMax b.yMax :=
        le_trans (min_le_right _ _) (le_trans hy (le_max_right _ _))
      have key : ∀ u : QwtDoubleRect,
          u = ⟨min a.xMin b.xMin, min a.yMin b.yMin, max a.xMax b.xMax - min a.xMin b.xMin,
            max a.yMax b.yMax - min a.yMin b.yMin⟩ → b.withinEdges u := by
        intro u hu
        have uw : 0 ≤ u.w := by rw [hu]; exact sub_nonneg.mpr wx
        have uh : 0 ≤ u.h := by rw [hu]; exact sub_nonneg.mpr wy
        unfold withinEdges
        rw [xMin_of_nonneg u uw, xMax_of_nonneg u uw, yMin_of_nonneg u uh, yMax_of_nonneg u uh,
          hu]
        simp only [add_sub_cancel]
        exact ⟨min_le_right _ _, le_max_right _ _, min_le_right _ _, le_max_right _ _⟩
      exact key _ rfl

end QwtDoubleRect

/-- The zoomer `init` leaves satisfies the invariant. -/
theorem stackInv_init (s : QwtDoubleRect) : StackInv (init s) := by
  refine ⟨⟨by simp [init], by simp [init], by simp [init], by simp [init]⟩,
    s.united s, rfl, ?_⟩
  intro r hr
  simp only [init, List.mem_singleton] at hr
  rw [hr]
  exact Or.inr (QwtDoubleRect.withinEdges_refl _)

/-- The method `zoom(rect)` keeps the invariant. -/
theorem stackInv_zoom (d : PrivateData) (rect : QwtDoubleRect) (o : Outcome) (hi : StackInv d)
    (h : zoom d rect = some o) (hl : o.data.zoomStack.length < 2147483648) :
    StackInv o.data := by
  obtain ⟨hv, base, hb, hall⟩ := hi
  obtain ⟨cur, hc⟩ := valid_zoomRect d hv
  rcases zoom_total d rect base cur hv hb hc with e | ⟨_, _, e⟩
  · rw [e] at h
    cases h
    exact ⟨hv, base, hb, hall⟩
  · rw [e] at h
    cases h
    simp only at hl
    obtain ⟨hidx, _, hm1, hm2⟩ := hv
    refine ⟨⟨?_, hl, hm1, hm2⟩, base, ?_, ?_⟩
    · have hm : min (d.zoomRectIndex + 1) d.zoomStack.length = d.zoomRectIndex + 1 := by omega
      simp [List.length_take, hm]
    · unfold PrivateData.zoomBase at hb ⊢
      simp only
      rw [take_append_head _ _ _ hidx, hb]
    · intro r hr
      simp only [List.mem_append, List.mem_singleton] at hr
      rcases hr with hr | hr
      · exact hall r (List.mem_of_mem_take hr)
      · rw [hr]
        exact QwtDoubleRect.intersected_within _ _

/-- The method `zoom(offset)` keeps the invariant. -/
theorem stackInv_zoomOffset (d : PrivateData) (offset : Int) (o : Outcome) (hi : StackInv d)
    (h : zoomOffset d offset = some o) : StackInv o.data := by
  obtain ⟨hv, base, hb, hall⟩ := hi
  obtain ⟨k, r, hk, _, e⟩ := zoomOffset_total d offset hv
  rw [e] at h
  cases h
  exact ⟨⟨hk, hv.2⟩, base, hb, hall⟩

/-- The method `setMaxStackDepth` keeps the invariant. -/
theorem stackInv_setMaxStackDepth (d : PrivateData) (depth : Int) (o : Outcome)
    (hi : StackInv d) (hd : -2147483648 ≤ depth ∧ depth < 2147483648)
    (h : setMaxStackDepth d depth = some o) : StackInv o.data := by
  obtain ⟨hv, base, hb, hall⟩ := hi
  by_cases hk : depth < 0 ∨ (d.zoomStack.length : Int) - 1 ≤ depth
  · rw [setMaxStackDepth_keep d depth hk] at h
    cases h
    exact ⟨⟨hv.1, hv.2.1, hd.1, hd.2⟩, base, hb, hall⟩
  · obtain ⟨r, hr, e⟩ := setMaxStackDepth_unzoom d depth hv (by omega) (by omega)
    rw [e] at h
    cases h
    obtain ⟨hidx, hlen, _, _⟩ := hv
    refine ⟨⟨?_, ?_, hd.1, hd.2⟩, base, ?_, ?_⟩
    · simp only [List.length_take]
      omega
    · simp only [List.length_take]
      omega
    · unfold PrivateData.zoomBase at hb ⊢
      simp only
      rw [List.getElem?_take_of_lt (by omega), hb]
    · intro r hr
      exact hall r (List.mem_of_mem_take hr)

/-- The method `setZoomBase(bool)` sets up the invariant. -/
theorem stackInv_setZoomBaseScale (d : PrivateData) (s : Option QwtDoubleRect) (o : Outcome)
    (hi : StackInv d) (h : setZoomBaseScale d s = some o) : StackInv o.data := by
  cases s with
  | none =>
    simp only [setZoomBaseScale] at h
    cases h
    exact hi
  | some sRect =>
    simp only [setZoomBaseScale] at h
    cases h
    obtain ⟨hv, _⟩ := hi
    refine ⟨⟨by simp, by simp, hv.2.2.1, hv.2.2.2⟩, sRect, rfl, ?_⟩
    intro r hr
    simp only [List.mem_singleton] at hr
    rw [hr]
    exact Or.inr (QwtDoubleRect.withinEdges_refl _)

/-- The method `setZoomBase(base)` sets up the invariant: the scale rectangle
it puts above the new base is null or lies in the union of both. -/
theorem stackInv_setZoomBase (d : PrivateData) (s : Option QwtDoubleRect)
    (base : QwtDoubleRect) (o : Outcome) (hi : StackInv d)
    (h : setZoomBase d s base = some o) : StackInv o.data := by
  cases s with
  | none =>
    simp only [setZoomBase] at h
    cases h
    exact hi
  | some sRect =>
    have hsub := QwtDoubleRect.united_within base sRect
    obtain ⟨hv, _⟩ := hi
    simp only [setZoomBase] at h
    by_cases hne : base = sRect
    · simp only [hne, ne_eq, not_true_eq_false, if_false] at h
      cases h
      refine ⟨⟨by simp, by simp, hv.2.2.1, hv.2.2.2⟩, _, rfl, ?_⟩
      intro r hr
      simp only [List.mem_singleton] at hr
      rw [hr]
      exact Or.inr (QwtDoubleRect.withinEdges_refl _)
    · simp only [ne_eq, hne, not_false_eq_true, if_true] at h
      cases h
      refine ⟨⟨by simp, by simp, hv.2.2.1, hv.2.2.2⟩, _, rfl, ?_⟩
      intro r hr
      simp only [List.singleton_append, List.mem_cons, List.mem_singleton,
        List.not_mem_nil, or_false] at hr
      rcases hr with hr | hr
      · rw [hr]; exact Or.inr (QwtDoubleRect.withinEdges_refl _)
      · rw [hr]; exact hsub

/-- Every zoomer reached without `setZoomStack`, `move` and `moveBy` satisfies
the invariant. -/
theorem reachable_stackInv (d : PrivateData)
    (hr : Reachable (fun op => op.wellFormed ∧ op.keepsBase) d) : StackInv d := by
  induction hr with
  | init s => exact stackInv_init s
  | step d op o _ hop hrun hlen ih =>
    obtain ⟨hwf, hkb⟩ := hop
    cases op with
    | zoom rect => exact stackInv_zoom d rect o ih hrun hlen
    | zoomOffset offset => exact stackInv_zoomOffset d offset o ih hrun
    | setMaxStackDepth depth => exact stackInv_setMaxStackDepth d depth o ih hwf hrun
    | setZoomStack st i => exact absurd hkb (by simp [Op.keepsBase])
    | setZoomBaseScale s => exact stackInv_setZoomBaseScale d s o ih hrun
    | setZoomBase s base => exact stackInv_setZoomBase d s base o ih hrun
    | move x y => exact absurd hkb (by simp [Op.keepsBase])
    | moveBy dx dy => exact absurd hkb (by simp [Op.keepsBase])

/-- C9, as stated, fails, in three ways.  `setZoomStack` installs the stack it
is given: over the base `[0, 100] x [0, 100]` it puts `[200, 300] x [200, 300]`
on the stack.  `zoom(rect)` with a rectangle that misses the base pushes the
null rectangle `QRectF()` at the origin, which the base `[10, 100] x [10, 100]`
does not hold.  And `move` rounds: over the base `QRectF(0.1, 0.1, 1, 1)`, after
`zoom(QRectF(0.1, 0.1, 0.5, 0.5))` and `zoom(0)`, `move(5, 5)` limits `x` to
`(0.1 + 1.0) - 1.0`, which is 0.10000000000000009 in `double`, and so moves the
base itself to the right of the left edge 0.1 of the rectangle above it. -/
theorem C9_stack_leaves_base :
    (∃ d, Reachable Op.wellFormed d ∧ d.zoomBase = some (square 0 100) ∧
      square 200 300 ∈ d.zoomStack ∧ (square 200 300).isNull = false ∧
      ¬ (square 200 300).withinEdges (square 0 100)) ∧
    (∃ d, Reachable (fun op => op.wellFormed ∧ op.keepsBase) d ∧
      d.zoomBase = some (square 10 100) ∧ QwtDoubleRect.null ∈ d.zoomStack ∧
      ¬ QwtDoubleRect.null.withinEdges (square 10 100) ∧
      ¬ (square 10 100).containsRect QwtDoubleRect.null) ∧
    (∃ d, Reachable
        (fun op => op.wellFormed ∧ ∀ st i, op ≠ Op.setZoomStack st i) d ∧
      d.zoomBase = some ⟨225179981368525 / 2251799813685248,
        225179981368525 / 2251799813685248, 1, 1⟩ ∧
      (⟨Double.lit_0_1, Double.lit_0_1, Double.lit_0_5, Double.lit_0_5⟩ : QwtDoubleRect) ∈
        d.zoomStack ∧
      QwtDoubleRect.isNull ⟨Double.lit_0_1, Double.lit_0_1, Double.lit_0_5, Double.lit_0_5⟩ =
        false ∧
      ¬ QwtDoubleRect.withinEdges ⟨Double.lit_0_1, Double.lit_0_1, Double.lit_0_5, Double.lit_0_5⟩
        ⟨225179981368525 / 2251799813685248, 225179981368525 / 2251799813685248, 1, 1⟩) := by
  refine ⟨?_, ?_, ?_⟩
  · have hrun : (Op.setZoomStack [square 0 100, square 200 300] (-1)).run
        (init (square 0 100)) =
        some ⟨⟨1, [square 0 100, square 200 300], -1⟩, [square 200 300]⟩ := by
      norm_num [Op.run, setZoomStack, init, square, QwtDoubleRect.united,
        QwtDoubleRect.isNull, QwtDoubleRect.xMin, QwtDoubleRect.xMax, QwtDoubleRect.yMin,
        QwtDoubleRect.yMax, PrivateData.zoomRect, toUInt]
    refine ⟨⟨1, [square 0 100, square 200 300], -1⟩, ?_, rfl, by simp, ?_, ?_⟩
    · exact Reachable.step (init (square 0 100)) _ _ (Reachable.init _)
        (by norm_num [Op.wellFormed]) hrun (by simp)
    · norm_num [QwtDoubleRect.isNull, square]
    · norm_num [QwtDoubleRect.withinEdges, QwtDoubleRect.xMin, QwtDoubleRect.xMax,
        QwtDoubleRect.yMin, QwtDoubleRect.yMax, square]
  · have hrun : (Op.zoom (square 200 300)).run (init (square 10 100)) =
        some ⟨⟨1, [square 10 100, QwtDoubleRect.null], -1⟩, [QwtDoubleRect.null]⟩ := by
      norm_num [Op.run, zoom, init, square, QwtDoubleRect.united, QwtDoubleRect.isNull,
        QwtDoubleRect.xMin, QwtDoubleRect.xMax, QwtDoubleRect.yMin, QwtDoubleRect.yMax,
        QwtDoubleRect.intersected, QwtDoubleRect.normalized, QwtDoubleRect.null,
        toUInt, toInt, popTrailing]
    refine ⟨⟨1, [square 10 100, QwtDoubleRect.null], -1⟩, ?_, rfl, by simp, ?_, ?_⟩
    · exact Reachable.step (init (square 10 100)) _ _ (Reachable.init _)
        ⟨trivial, trivial⟩ hrun (by simp)
    · norm_num [QwtDoubleRect.withinEdges, QwtDoubleRect.xMin, QwtDoubleRect.xMax,
        QwtDoubleRect.yMin, QwtDoubleRect.yMax, square, QwtDoubleRect.null]
    · norm_num [QwtDoubleRect.containsRect, QwtDoubleRect.xMin, QwtDoubleRect.xMax,
        QwtDoubleRect.yMin, QwtDoubleRect.yMax, square, QwtDoubleRect.null]
  · have h0 : init ⟨Double.lit_0_1, Double.lit_0_1, 1, 1⟩ =
        ⟨0, [⟨Double.lit_0_1, Double.lit_0_1, 1, 1⟩], -1⟩ := by
      norm_num [init, QwtDoubleRect.united, QwtDoubleRect.isNull, QwtDoubleRect.xMin,
        QwtDoubleRect.xMax, QwtDoubleRect.yMin, QwtDoubleRect.yMax, Double.lit_0_1]
    have h1 : (Op.zoom ⟨Double.lit_0_1, Double.lit_0_1, Double.lit_0_5, Double.lit_0_5⟩).run
        ⟨0, [⟨Double.lit_0_1, Double.lit_0_1, 1, 1⟩], -1⟩ =
        some ⟨⟨1, [⟨Double.lit_0_1, Double.lit_0_1, 1, 1⟩,
            ⟨Double.lit_0_1, Double.lit_0_1, Double.lit_0_5, Double.lit_0_5⟩], -1⟩,
          [⟨Double.lit_0_1, Double.lit_0_1, Double.lit_0_5, Double.lit_0_5⟩]⟩ := by
      norm_num [Op.run, zoom, QwtDoubleRect.xMin, QwtDoubleRect.xMax, QwtDoubleRect.yMin,
        QwtDoubleRect.yMax, QwtDoubleRect.intersected, QwtDoubleRect.normalized,
        QwtDoubleRect.null, toUInt, toInt, popTrailing, Double.lit_0_1, Double.lit_0_5]
    have h2 : (Op.zoomOffset 0).run
        ⟨1, [⟨Double.lit_0_1, Double.lit_0_1, 1, 1⟩,
          ⟨Double.lit_0_1, Double.lit_0_1, Double.lit_0_5, Double.lit_0_5⟩], -1⟩ =
        some ⟨⟨0, [⟨Double.lit_0_1, Double.lit_0_1, 1, 1⟩,
            ⟨Double.lit_0_1, Double.lit_0_1, Double.lit_0_5, Double.lit_0_5⟩], -1⟩,
          [⟨Double.lit_0_1, Double.lit_0_1, 1, 1⟩]⟩ :=
      zoomOffset_zero
        ⟨1, [⟨Double.lit_0_1, Double.lit_0_1, 1, 1⟩,
          ⟨Double.lit_0_1, Double.lit_0_1, Double.lit_0_5, Double.lit_0_5⟩], -1⟩
        ⟨Double.lit_0_1, Double.lit_0_1, 1, 1⟩ rfl
    have h3 : (Op.move 5 5).run
        ⟨0, [⟨Double.lit_0_1, Double.lit_0_1, 1, 1⟩,
          ⟨Double.lit_0_1, Double.lit_0_1, Double.lit_0_5, Double.lit_0_5⟩], -1⟩ =
        some ⟨⟨0, [⟨225179981368525 / 2251799813685248, 225179981368525 / 2251799813685248,
              1, 1⟩,
            ⟨Double.lit_0_1, Double.lit_0_1, Double.lit_0_5, Double.lit_0_5⟩], -1⟩, []⟩ := by
      norm_num [Op.run, move, limitTo, PrivateData.zoomBase, PrivateData.zoomRect,
        QwtDoubleRect.left, QwtDoubleRect.right, QwtDoubleRect.top, QwtDoubleRect.bottom,
        QwtDoubleRect.width, QwtDoubleRect.height, QwtDoubleRect.moveTo, Double.lit_0_1,
        Double.lit_0_5, Double.fl_0_1_add_1, Double.fl_1_1_sub_1]
    refine ⟨⟨0, [⟨225179981368525 / 2251799813685248, 225179981368525 / 2251799813685248,
        1, 1⟩, ⟨Double.lit_0_1, Double.lit_0_1, Double.lit_0_5, Double.lit_0_5⟩], -1⟩,
      ?_, rfl, by simp, ?_, ?_⟩
    · refine Reachable.step _ (Op.move 5 5) _ ?_ ⟨trivial, fun st i hh => Op.noConfusion hh⟩
        h3 (by simp)
      refine Reachable.step _ (Op.zoomOffset 0) _ ?_
        ⟨by norm_num [Op.wellFormed], fun st i hh => Op.noConfusion hh⟩ h2 (by simp)
      refine Reachable.step _ (Op.zoom _) _ ?_ ⟨trivial, fun st i hh => Op.noConfusion hh⟩
        h1 (by simp)
      rw [← h0]
      exact Reachable.init _
    · norm_num [QwtDoubleRect.isNull, Double.lit_0_5]
    · norm_num [QwtDoubleRect.withinEdges, QwtDoubleRect.xMin, QwtDoubleRect.xMax,
        QwtDoubleRect.yMin, QwtDoubleRect.yMax, Double.lit_0_1, Double.lit_0_5]

/-- C9, amended: in every state reached from the zoomer `init` leaves through
`setZoomBase`, `zoom(rect)`, `zoom(offset)` and `setMaxStackDepth` (not through
`setZoomStack`, `move` and `moveBy`), every rectangle on the zoom stack is a
null rectangle or has its edges between the edges of the zoom base
`zoomStack[0]`. -/
theorem C9_stack_within_base (d : PrivateData)
    (hr : Reachable (fun op => op.wellFormed ∧ op.keepsBase) d) :
    ∃ base, d.zoomBase = some base ∧
      ∀ r ∈ d.zoomStack, r.isNull = true ∨ r.withinEdges base := by
  obtain ⟨_, base, hb, hall⟩ := reachable_stackInv d hr
  exact ⟨base, hb, hall⟩

theorem C9_stack_within_base_witness :
    ∃ base, PrivateData.zoomBase ⟨1, [square 0 100, square 20 80], -1⟩ = some base ∧
      ∀ r ∈ PrivateData.zoomStack ⟨1, [square 0 100, square 20 80], -1⟩,
        r.isNull = true ∨ r.withinEdges base :=
  C9_stack_within_base ⟨1, [square 0 100, square 20 80], -1⟩
    (Reachable.step (init (square 0 100)) (Op.zoom (square 20 80))
      ⟨⟨1, [square 0 100, square 20 80], -1⟩, [square 20 80]⟩ (Reachable.init _)
      ⟨trivial, trivial⟩
      (by
        norm_num [Op.run, zoom, init, square, QwtDoubleRect.united, QwtDoubleRect.isNull,
          QwtDoubleRect.xMin, QwtDoubleRect.xMax, QwtDoubleRect.yMin, QwtDoubleRect.yMax,
          QwtDoubleRect.intersected, QwtDoubleRect.normalized, QwtDoubleRect.null,
          toUInt, toInt, popTrailing])
      (by simp))

/-! ## What `zoom(rect)` intersects with -/

/-- C11: on a zoomer standing on `[20, 80] x [20, 80]` over the base
`[0, 100] x [0, 100]`, `zoom([10, 30] x [10, 30])` pushes `[10, 30] x [10, 30]`,
the intersection with the zoom base, while the intersection of the current
rectangle `zoomRect()` with the normalized argument is `[20, 30] x [20, 30]`. -/
theorem C11_zoom_intersects_base :
    sampleData.zoomRect = some (square 20 80) ∧
      (∃ o, zoom sampleData (square 10 30) = some o ∧
        o.data.zoomRect = some ⟨10, 10, 20, 20⟩) ∧
      (square 20 80).intersected (square 10 30).normalized = ⟨20, 20, 10, 10⟩ := by
  have hz : (square 0 100).intersected (square 10 30).normalized = ⟨10, 10, 20, 20⟩ := by
    norm_num [QwtDoubleRect.intersected, QwtDoubleRect.normalized, QwtDoubleRect.xMin,
      QwtDoubleRect.xMax, QwtDoubleRect.yMin, QwtDoubleRect.yMax, QwtDoubleRect.null, square]
  have hne : (square 0 100).intersected (square 10 30).normalized ≠ square 20 80 := by
    rw [hz]
    norm_num [square]
  refine ⟨rfl, ⟨_, zoom_pushed sampleData (square 10 30) (square 0 100) (square 20 80)
    (by decide) (by decide) rfl rfl hne, ?_⟩, ?_⟩
  · rw [hz]
    rfl
  · norm_num [QwtDoubleRect.intersected, QwtDoubleRect.normalized, QwtDoubleRect.xMin,
      QwtDoubleRect.xMax, QwtDoubleRect.yMin, QwtDoubleRect.yMax, QwtDoubleRect.null, square]

/-! ## `minZoomSize` -/

/-- C12, as stated, fails: over a base of width and height 100000 the minimum
zoom size is 1 by 1, and not the 10 by 10 that a division by 10000 gives. -/
theorem C12_minZoomSize_not_ten_thousandth :
    minZoomSize ⟨0, [⟨0, 0, 100000, 100000⟩], -1⟩ = some ⟨1, 1⟩ ∧
      (⟨1, 1⟩ : QwtDoubleSize) ≠ ⟨(100000 : ℚ) / 10000, (100000 : ℚ) / 10000⟩ := by
  constructor
  · norm_num [minZoomSize, QwtDoubleRect.width, QwtDoubleRect.height]
  · norm_num

/-- C12, amended: `minZoomSize()` is the size of the zoom base divided by
100000 (the literal `10e4`) on each axis. -/
theorem C12_minZoomSize (d : PrivateData) (base : QwtDoubleRect)
    (hb : d.zoomBase = some base) :
    minZoomSize d = some ⟨base.width / 100000, base.height / 100000⟩ := by
  unfold PrivateData.zoomBase at hb
  unfold minZoomSize
  rw [hb]

theorem C12_minZoomSize_witness :
    minZoomSize sampleData =
      some ⟨(square 0 100).width / 100000, (square 0 100).height / 100000⟩ :=
  C12_minZoomSize sampleData (square 0 100) rfl

/-! ## `accept` -/

/-- A selection is accepted exactly when it has two points or more and the
normalized rectangle from its first to its last point is not below 2 in both
width and height. -/
theorem accept_true_iff (pa : List QPoint) (first last : QPoint) (hf : pa[0]? = some first)
    (hl : pa[pa.length - 1]? = some last) :
    (accept pa).1 = true ↔
      2 ≤ pa.length ∧
        ¬ ((QRect.ofPoints first last).normalized.width < 2 ∧
          (QRect.ofPoints first last).normalized.height < 2) := by
  unfold accept
  by_cases h2 : pa.length < 2
  · rw [if_pos h2]
    simp only [Bool.false_eq_true, false_iff, not_and]
    intro h
    omega
  · rw [if_neg h2, hf, hl]
    simp only
    by_cases hs : (QRect.ofPoints first last).normalized.width < 2 ∧
        (QRect.ofPoints first last).normalized.height < 2
    · rw [if_pos hs]
      simp only [Bool.false_eq_true, false_iff]
      exact fun h => h.2 hs
    · rw [if_neg hs]
      simp only [true_iff]
      exact ⟨by omega, hs⟩

/-- C14: the selection from `(0, 0)` to `(0, 10)` spans a rectangle of width 1,
below 2, and of height 11; `accept` returns true for it and leaves the polygon
`(-5, 0)`, `(5, 10)`. -/
theorem C14_accept_narrow_selection :
    (QRect.ofPoints ⟨0, 0⟩ ⟨0, 10⟩).normalized.width = 1 ∧
      (QRect.ofPoints ⟨0, 0⟩ ⟨0, 10⟩).normalized.height = 11 ∧
      accept [⟨0, 0⟩, ⟨0, 10⟩] = (true, [⟨-5, 0⟩, ⟨5, 10⟩]) := by
  refine ⟨by decide, by decide, by decide⟩

/-! ## `move` and `moveBy` -/

/-- C13: `move` does not keep the current rectangle inside the zoom base.
`setZoomStack` can put `QRectF(80, 80, -60, -60)`, which covers
`[20, 80] x [20, 80]` inside the base `[0, 100] x [0, 100]`, at the current
position; `move(30, 30)` then leaves `QRectF(30, 30, -60, -60)`, which covers
`[-30, 30] x [-30, 30]` and holds the point `(-10, -10)` outside the base.
And with rectangles of positive size: on `QRectF(0.1, 0.1, 0.3, 0.3)` inside
the base `QRectF(0, 0, 0.9, 0.9)`, `move(5, 0.1)` limits `x` to `0.9 - 0.3`,
which is 0.6000000000000001 in `double`, and the right edge of the moved
rectangle is then 0.9000000000000001, beyond the right edge 0.9 of the
base. -/
theorem C13_move_leaves_base :
    (Reachable Op.wellFormed ⟨1, [square 0 100, ⟨80, 80, -60, -60⟩], -1⟩ ∧
      QwtDoubleRect.subsetOf ⟨80, 80, -60, -60⟩ (square 0 100) ∧
      (∃ o, move ⟨1, [square 0 100, ⟨80, 80, -60, -60⟩], -1⟩ 30 30 = some o ∧
        o.data.zoomBase = some (square 0 100) ∧
        o.data.zoomRect = some ⟨30, 30, -60, -60⟩) ∧
      ¬ QwtDoubleRect.subsetOf ⟨30, 30, -60, -60⟩ (square 0 100)) ∧
    (QwtDoubleRect.withinEdges ⟨Double.lit_0_1, Double.lit_0_1, Double.lit_0_3, Double.lit_0_3⟩
        ⟨0, 0, Double.lit_0_9, Double.lit_0_9⟩ ∧
      QwtDoubleRect.right ⟨Double.lit_0_1, Double.lit_0_1, Double.lit_0_3, Double.lit_0_3⟩ ≤
        QwtDoubleRect.right ⟨0, 0, Double.lit_0_9, Double.lit_0_9⟩ ∧
      (∃ o, move ⟨1, [⟨0, 0, Double.lit_0_9, Double.lit_0_9⟩,
            ⟨Double.lit_0_1, Double.lit_0_1, Double.lit_0_3, Double.lit_0_3⟩], -1⟩
          5 Double.lit_0_1 = some o ∧
        o.data.zoomBase = some ⟨0, 0, Double.lit_0_9, Double.lit_0_9⟩ ∧
        o.data.zoomRect = some ⟨1351079888211149 / 2251799813685248, Double.lit_0_1,
          Double.lit_0_3, Double.lit_0_3⟩) ∧
      QwtDoubleRect.right ⟨0, 0, Double.lit_0_9, Double.lit_0_9⟩ = Double.lit_0_9 ∧
      QwtDoubleRect.right ⟨1351079888211149 / 2251799813685248, Double.lit_0_1,
          Double.lit_0_3, Double.lit_0_3⟩ = 4053239664633447 / 4503599627370496 ∧
      Double.lit_0_9 < 4053239664633447 / 4503599627370496 ∧
      ¬ QwtDoubleRect.withinEdges ⟨1351079888211149 / 2251799813685248, Double.lit_0_1,
          Double.lit_0_3, Double.lit_0_3⟩ ⟨0, 0, Double.lit_0_9, Double.lit_0_9⟩) := by
  have hrun : (Op.setZoomStack [square 0 100, ⟨80, 80, -60, -60⟩] (-1)).run
      (init (square 0 100)) =
      some ⟨⟨1, [square 0 100, ⟨80, 80, -60, -60⟩], -1⟩, [⟨80, 80, -60, -60⟩]⟩ := by
    norm_num [Op.run, setZoomStack, init, square, QwtDoubleRect.united, QwtDoubleRect.isNull,
      QwtDoubleRect.xMin, QwtDoubleRect.xMax, QwtDoubleRect.yMin, QwtDoubleRect.yMax,
      PrivateData.zoomRect, toUInt]
  refine ⟨⟨?_, ?_, ⟨⟨⟨1, [square 0 100, ⟨30, 30, -60, -60⟩], -1⟩, []⟩, ?_, rfl, rfl⟩, ?_⟩,
    ?_, ?_, ⟨⟨⟨1, [⟨0, 0, Double.lit_0_9, Double.lit_0_9⟩,
      ⟨1351079888211149 / 2251799813685248, Double.lit_0_1, Double.lit_0_3,
        Double.lit_0_3⟩], -1⟩, []⟩, ?_, rfl, rfl⟩, ?_, ?_, ?_, ?_⟩
  · exact Reachable.step (init (square 0 100)) _ _ (Reachable.init _)
      (by norm_num [Op.wellFormed]) hrun (by simp)
  · intro px py hp
    norm_num [QwtDoubleRect.containsPoint, QwtDoubleRect.xMin, QwtDoubleRect.xMax,
      QwtDoubleRect.yMin, QwtDoubleRect.yMax, square] at hp ⊢
    obtain ⟨p1, p2, p3, p4⟩ := hp
    refine ⟨?_, ?_, ?_, ?_⟩ <;> linarith
  · norm_num [move, limitTo, square, PrivateData.zoomBase, PrivateData.zoomRect,
      QwtDoubleRect.left, QwtDoubleRect.right, QwtDoubleRect.top, QwtDoubleRect.bottom,
      QwtDoubleRect.width, QwtDoubleRect.height, QwtDoubleRect.moveTo, Double.fl_100,
      Double.fl_160]
  · intro hs
    have hp : QwtDoubleRect.containsPoint ⟨30, 30, -60, -60⟩ (-10) (-10) := by
      norm_num [QwtDoubleRect.containsPoint, QwtDoubleRect.xMin, QwtDoubleRect.xMax,
        QwtDoubleRect.yMin, QwtDoubleRect.yMax]
    have hq := hs (-10) (-10) hp
    norm_num [QwtDoubleRect.containsPoint, QwtDoubleRect.xMin, QwtDoubleRect.xMax,
      QwtDoubleRect.yMin, QwtDoubleRect.yMax, square] at hq
  · norm_num [QwtDoubleRect.withinEdges, QwtDoubleRect.xMin, QwtDoubleRect.xMax,
      QwtDoubleRect.yMin, QwtDoubleRect.yMax, Double.lit_0_1, Double.lit_0_3, Double.lit_0_9]
  · norm_num [QwtDoubleRect.right, Double.lit_0_1, Double.lit_0_3, Double.lit_0_9,
      Double.fl_0_1_add_0_3, Double.fl_lit_0_9]
  · norm_num [move, limitTo, PrivateData.zoomBase, PrivateData.zoomRect,
      QwtDoubleRect.left, QwtDoubleRect.right, QwtDoubleRect.top, QwtDoubleRect.bottom,
      QwtDoubleRect.width, QwtDoubleRect.height, QwtDoubleRect.moveTo, Double.lit_0_1,
      Double.lit_0_3, Double.lit_0_9, Double.fl_lit_0_9, Double.fl_0_9_sub_0_3]
  · norm_num [QwtDoubleRect.right, Double.lit_0_9, Double.fl_lit_0_9]
  · norm_num [QwtDoubleRect.right, Double.lit_0_1, Double.lit_0_3, Double.fl_0_6_add_0_3]
  · norm_num [Double.lit_0_9]
  · norm_num [QwtDoubleRect.withinEdges, QwtDoubleRect.xMin, QwtDoubleRect.xMax,
      QwtDoubleRect.yMin, QwtDoubleRect.yMax, Double.lit_0_1, Double.lit_0_3, Double.lit_0_9]

/-! ## The rescaler: `rescale` and `updateScales` -/

namespace Rescaler

/-- C18, as stated, fails: with the empty old size 0 by 0 and the new size 100
by 100, `rescale` on a freshly constructed rescaler sets the scale of every
axis (`yLeft`, from 0 to 50 in the plot, is set from 0 to 100) and replots. -/
theorem C18_rescale_empty_oldSize_updates :
    QSize.isEmpty ⟨0, 0⟩ = true ∧
      (rescale ⟨sampleRescaler, []⟩ samplePlot ⟨0, 0⟩ ⟨100, 100⟩ Replot.done.run).map
          (fun r => r.calls) =
        some [PlotCall.setAxisScale 0 0 100, PlotCall.setAxisScale 1 0 100,
          PlotCall.setAxisScale 2 0 100, PlotCall.setAxisScale 3 0 100, PlotCall.replot 1] := by
  refine ⟨by decide, ?_⟩
  simp [rescale, updateScales, updateAxis, Replot.run, expandScale, syncScale,
    aspectRatio, sampleRescaler, construct, setEnabled,
    PrivateData.init, AxisData.init, QwtPlot.yLeft, QwtPlot.yRight, QwtPlot.xBottom,
    QwtPlot.axisCnt, orientation, QwtDoubleInterval.width, QwtDoubleInterval.isValid,
    interval, samplePlot, QwtDoubleInterval.normalized, expandInterval, expandingDirection,
    QwtDoubleInterval.setMinValue, QwtDoubleInterval.setMaxValue, QSize.isEmpty,
    Function.update_apply, Double.ofNat_eq, Double.zero_eq, Double.one_eq, Double.ofInt,
    Double.add_def, Double.sub_def, Double.mul_def, Double.div_def, Double.lt_finite,
    Double.le_finite, Double.round_1, Double.round_100,
    (by decide : ¬ RescalePolicy.Expanding = RescalePolicy.Fitting)]
  norm_num [Double.add_def, Double.sub_def, Double.mul_def, Double.div_def, Double.lt_finite,
    Double.le_finite, Double.round_1, Double.round_100]

/-- C18, amended: `rescale(oldSize, newSize)` is a no-op, making no call on the
plot and leaving the rescaler as it is, whenever `newSize` is empty (a width or
a height below 1); an empty `oldSize` only makes the Expanding policy keep the
interval of the axis. -/
theorem C18_rescale_empty_newSize (r : Run) (plot : Plot) (oldSize newSize : QSize)
    (replot : Run → Option Run) (hn : newSize.isEmpty = true) :
    rescale r plot oldSize newSize replot = some r ∧
      (oldSize.isEmpty = true → r.data.rescalePolicy = RescalePolicy.Expanding →
        ∀ axis size, expandScale r.data plot axis oldSize size = interval plot axis) := by
  constructor
  · unfold rescale
    rw [if_pos hn]
  · intro ho hp axis size
    unfold expandScale
    simp only [hp, ho, not_true_eq_false, if_false]

theorem C18_rescale_empty_newSize_witness :
    rescale ⟨sampleRescaler, []⟩ samplePlot ⟨100, 100⟩ ⟨0, 100⟩ Replot.done.run =
        some ⟨sampleRescaler, []⟩ ∧
      (QSize.isEmpty ⟨100, 100⟩ = true →
        sampleRescaler.rescalePolicy = RescalePolicy.Expanding →
        ∀ axis size, expandScale sampleRescaler samplePlot axis ⟨100, 100⟩ size =
          interval samplePlot axis) :=
  C18_rescale_empty_newSize ⟨sampleRescaler, []⟩ samplePlot ⟨100, 100⟩ ⟨0, 100⟩
    Replot.done.run (by decide)

/-- A run keeps everything when nothing happens. -/
theorem keeps_refl (r : Run) : r.keeps r := ⟨rfl, rfl, fun _ => rfl, fun h => h⟩

/-- What two runs keep, their sequence keeps. -/
theorem keeps_trans (r r1 r2 : Run) (h1 : r.keeps r1) (h2 : r1.keeps r2) : r.keeps r2 :=
  ⟨h2.1.trans h1.1, h2.2.1.trans h1.2.1, fun a => (h2.2.2.1 a).trans (h1.2.2.1 a),
    fun h => h2.2.2.2 (h1.2.2.2 h)⟩

/-- The reference axis stays an axis of the plot. -/
theorem validRef_of_keeps (r r1 : Run) (h : r.keeps r1) (hv : r.validRef) : r1.validRef := by
  unfold Run.validRef at hv ⊢
  rw [h.2.1]
  exact hv

/-- Appending a call of depth 5 or below keeps the bound. -/
theorem bounded_append (calls : List PlotCall) (e : PlotCall) (he : e.depth ≤ 5)
    (h : ∀ x ∈ calls, x.depth ≤ 5) : ∀ x ∈ calls ++ [e], x.depth ≤ 5 := by
  intro x hx
  simp only [List.mem_append, List.mem_singleton] at hx
  rcases hx with hx | hx
  · exact h x hx
  · rw [hx]; exact he

/-- One pass of the loop body of `updateScales` keeps the counter, the
reference axis and the aspect ratios, and records no replot. -/
theorem keeps_updateAxis (plot : Plot) (intervals : Int → QwtDoubleInterval) (r : Run)
    (axis : Int) : r.keeps (updateAxis plot intervals r axis) := by
  unfold updateAxis
  by_cases hc : axis = r.data.referenceAxis ∨ aspectRatio r.data axis > 0
  · rw [if_pos hc]
    simp only
    have hratio : ∀ a, ((if r.data.inReplot ≥ 1 then
          ({ r.data with
            axisData := Function.update r.data.axisData axis
              ({ r.data.axisData axis with
                scaleDiv := (plot.lowerBound axis, plot.upperBound axis) }) } : PrivateData)
        else r.data).axisData a).aspectRatio = (r.data.axisData a).aspectRatio := by
      intro a
      split_ifs
      · simp only [Function.update_apply]
        split_ifs with ha
        · rw [ha]
        · rfl
      · rfl
    have hin : (if r.data.inReplot ≥ 1 then
          ({ r.data with
            axisData := Function.update r.data.axisData axis
              ({ r.data.axisData axis with
                scaleDiv := (plot.lowerBound axis, plot.upperBound axis) }) } : PrivateData)
        else r.data).inReplot = r.data.inReplot := by
      split_ifs <;> rfl
    have href : (if r.data.inReplot ≥ 1 then
          ({ r.data with
            axisData := Function.update r.data.axisData axis
              ({ r.data.axisData axis with
                scaleDiv := (plot.lowerBound axis, plot.upperBound axis) }) } : PrivateData)
        else r.data).referenceAxis = r.data.referenceAxis := by
      split_ifs <;> rfl
    by_cases h2 : r.data.inReplot ≥ 2
    · rw [if_pos h2]
      exact ⟨hin, href, hratio,
        fun hb => bounded_append _ _ (by simp only [PlotCall.depth]; omega) hb⟩
    · rw [if_neg h2]
      exact ⟨hin, href, hratio,
        fun hb => bounded_append _ _ (by simp only [PlotCall.depth]; omega) hb⟩
  · rw [if_neg hc]
    exact keeps_refl r

/-- The loop of `updateScales` over the four axes keeps the same. -/
theorem keeps_updateAxes (plot : Plot) (intervals : Int → QwtDoubleInterval) (r : Run) :
    r.keeps ([0, 1, 2, 3].foldl (updateAxis plot intervals) r) := by
  simp only [List.foldl]
  exact keeps_trans _ _ _ (keeps_trans _ _ _ (keeps_trans _ _ _
    (keeps_updateAxis plot intervals r 0) (keeps_updateAxis plot intervals _ 1))
    (keeps_updateAxis plot intervals _ 2)) (keeps_updateAxis plot intervals _ 3)

/-- Entered with `inReplot >= 5`, `updateScales` returns at once, whatever the
replot would do. -/
theorem updateScales_capped (r : Run) (plot : Plot) (intervals : Int → QwtDoubleInterval)
    (replot : Run → Option Run) (h : 5 ≤ r.data.inReplot) :
    updateScales r plot intervals replot = some r := by
  unfold updateScales
  rw [if_pos h]

/-- With a replot that returns and keeps the counter, `updateScales` returns
and keeps the counter; the replot it records is at depth 5 or below. -/
theorem updateScales_keeps (r : Run) (plot : Plot) (intervals : Int → QwtDoubleInterval)
    (replot : Run → Option Run) (hg : goodReplot replot) (hv : r.validRef) :
    ∃ r1, updateScales r plot intervals replot = some r1 ∧ r.keeps r1 := by
  by_cases h5 : 5 ≤ r.data.inReplot
  · exact ⟨r, updateScales_capped r plot intervals replot h5, keeps_refl r⟩
  · have hk := keeps_updateAxes plot intervals r
    obtain ⟨k1, k2, k3, k4⟩ := hk
    have hv2 : Run.validRef
        { data := { ([0, 1, 2, 3].foldl (updateAxis plot intervals) r).data with
            inReplot := ([0, 1, 2, 3].foldl (updateAxis plot intervals) r).data.inReplot + 1 },
          calls := ([0, 1, 2, 3].foldl (updateAxis plot intervals) r).calls ++
            [PlotCall.replot
              (([0, 1, 2, 3].foldl (updateAxis plot intervals) r).data.inReplot + 1)] } := by
      unfold Run.validRef at hv ⊢
      simp only
      rw [k2]
      exact hv
    obtain ⟨r3, e3, g1, g2, g3, g4⟩ := hg _ hv2
    refine ⟨{ r3 with data := { r3.data with inReplot := r3.data.inReplot - 1 } }, ?_, ?_⟩
    · unfold updateScales
      rw [if_neg h5]
      simp only
      rw [e3]
    · refine ⟨?_, ?_, ?_, ?_⟩
      · simp only at g1 ⊢
        rw [g1, k1]
        ring
      · simp only at g2 ⊢
        rw [g2, k2]
      · intro a
        simp only at g3 ⊢
        rw [g3 a, k3 a]
      · intro hb
        apply g4
        apply bounded_append _ _ _ (k4 hb)
        simp only [PlotCall.depth]
        rw [k1]
        omega

/-- With such a replot, `rescale` returns as well and keeps the same. -/
theorem rescale_keeps (r : Run) (plot : Plot) (oldSize newSize : QSize)
    (replot : Run → Option Run) (hg : goodReplot replot) (hv : r.validRef) :
    ∃ r1, rescale r plot oldSize newSize replot = some r1 ∧ r.keeps r1 := by
  unfold rescale
  by_cases hn : newSize.isEmpty = true
  · rw [if_pos hn]
    exact ⟨r, rfl, keeps_refl r⟩
  · rw [if_neg hn]
    simp only
    rw [if_neg (by unfold Run.validRef at hv; omega)]
    exact updateScales_keeps r plot _ replot hg hv

/-- Every replot, however it re-enters `rescale`, returns and keeps the
counter. -/
theorem replot_good (script : Replot) : goodReplot script.run := by
  induction script with
  | done =>
    intro r _
    exact ⟨r, rfl, keeps_refl r⟩
  | reenter plot oldSize newSize inner rest ih1 ih2 =>
    intro r hv
    obtain ⟨r1, e1, k1⟩ := rescale_keeps r plot oldSize newSize inner.run ih1 hv
    obtain ⟨r2, e2, k2⟩ := ih2 r1 (validRef_of_keeps r r1 k1 hv)
    refine ⟨r2, ?_, keeps_trans r r1 r2 k1 k2⟩
    simp only [Replot.run]
    rw [e1]
    exact e2

/-- C19: `updateScales` entered with `inReplot >= 5` returns at once: it sets
no axis scale and triggers no replot, whatever the replot would do.  With the
reference axis an axis of the plot, every call of `updateScales` returns and
leaves `inReplot` equal to its value on entry, however the replot re-enters
`rescale`; and when every replot recorded before was called with `inReplot` at
5 or below, so is every replot recorded afterwards. -/
theorem C19_updateScales_reentrancy (r : Run) (plot : Plot)
    (intervals : Int → QwtDoubleInterval) (script : Replot) (hv : r.validRef) :
    (5 ≤ r.data.inReplot → ∀ replot, updateScales r plot intervals replot = some r) ∧
      ∃ r1, updateScales r plot intervals script.run = some r1 ∧
        r1.data.inReplot = r.data.inReplot ∧
        ((∀ e ∈ r.calls, e.depth ≤ 5) → ∀ e ∈ r1.calls, e.depth ≤ 5) := by
  refine ⟨fun h replot => updateScales_capped r plot intervals replot h, ?_⟩
  obtain ⟨r1, e, k1, _, _, k4⟩ := updateScales_keeps r plot intervals script.run
    (replot_good script) hv
  exact ⟨r1, e, k1, k4⟩

theorem C19_updateScales_reentrancy_witness :
    (5 ≤ (Run.mk sampleRescaler []).data.inReplot →
        ∀ replot, updateScales ⟨sampleRescaler, []⟩ samplePlot (interval samplePlot) replot =
          some ⟨sampleRescaler, []⟩) ∧
      ∃ r1, updateScales ⟨sampleRescaler, []⟩ samplePlot (interval samplePlot)
          (Replot.reenter samplePlot ⟨100, 100⟩ ⟨200, 100⟩ Replot.done Replot.done).run =
            some r1 ∧
        r1.data.inReplot = (Run.mk sampleRescaler []).data.inReplot ∧
        ((∀ e ∈ (Run.mk sampleRescaler []).calls, e.depth ≤ 5) →
          ∀ e ∈ r1.calls, e.depth ≤ 5) :=
  C19_updateScales_reentrancy ⟨sampleRescaler, []⟩ samplePlot (interval samplePlot)
    (Replot.reenter samplePlot ⟨100, 100⟩ ⟨200, 100⟩ Replot.done Replot.done)
    ⟨by decide, by decide⟩

end Rescaler

/-! ## The rescaler: aspect ratios -/

namespace Rescaler

/-- A freshly constructed rescaler has aspect ratio 1 for every axis. -/
theorem aspectRatio_construct (referenceAxis : Int) (policy : RescalePolicy) (axis : Int)
    (ha : 0 ≤ axis ∧ axis < QwtPlot.axisCnt) :
    aspectRatio (construct referenceAxis policy) axis = 1 := by
  unfold aspectRatio
  rw [if_pos ha]
  simp [construct, setEnabled, PrivateData.init, AxisData.init]

/-- For an axis of the plot `setAspectRatio` stores the ratio, or 0 for a
ratio below 0, and leaves the other axes alone. -/
theorem aspectRatio_setAspectRatio (d : PrivateData) (axis : Int) (ratio : Double)
    (ha : 0 ≤ axis ∧ axis < QwtPlot.axisCnt) :
    aspectRatio (setAspectRatio d axis ratio) axis = (if ratio < 0 then 0 else ratio) ∧
      ∀ other, other ≠ axis →
        aspectRatio (setAspectRatio d axis ratio) other = aspectRatio d other := by
  unfold setAspectRatio aspectRatio
  simp only [if_pos ha]
  constructor
  · simp only [Function.update_same]
  · intro other ho
    simp only [Function.update_noteq ho]

/-- For an index that is no axis of the plot `setAspectRatio` changes
nothing. -/
theorem setAspectRatio_outside (d : PrivateData) (axis : Int) (ratio : Double)
    (ha : ¬ (0 ≤ axis ∧ axis < QwtPlot.axisCnt)) : setAspectRatio d axis ratio = d := by
  unfold setAspectRatio
  simp only [if_neg ha]

/-- What `setAspectRatio` stores for a ratio that is a number is the larger of
the ratio and 0. -/
theorem stored_ratio_max (ratio : Double) (hn : ratio ≠ Double.nan) :
    (0 : Double) ≤ (if ratio < 0 then 0 else ratio) ∧ ratio ≤ (if ratio < 0 then 0 else ratio) ∧
      ((if ratio < 0 then (0 : Double) else ratio) = ratio ∨
        (if ratio < 0 then (0 : Double) else ratio) = 0) := by
  rw [Double.zero_eq]
  by_cases h : ratio < Double.finite 0
  · rw [if_pos h]
    exact ⟨(Double.le_finite 0 0).mpr (le_refl 0), Double.le_of_lt_double _ _ h, Or.inr rfl⟩
  · rw [if_neg h]
    exact ⟨Double.nonneg_of_not_lt_zero ratio hn h, Double.le_refl_of_ne_nan ratio hn,
      Or.inl rfl⟩

/-- A property of the stored ratios that 0 has and every ratio passed has
that is not below 0 holds on under `setAspectRatio`. -/
theorem ratios_setAspectRatio (P : Double → Prop) (h0 : P 0) (d : PrivateData) (axis : Int)
    (ratio : Double) (hr : ¬ ratio < 0 → P ratio)
    (h : ∀ a, P (d.axisData a).aspectRatio) :
    ∀ a, P ((setAspectRatio d axis ratio).axisData a).aspectRatio := by
  intro a
  unfold setAspectRatio
  simp only
  by_cases ha : 0 ≤ axis ∧ axis < QwtPlot.axisCnt
  · rw [if_pos ha]
    simp only [Function.update_apply]
    by_cases he : a = axis
    · rw [if_pos he]
      simp only
      by_cases hlt : ratio < 0
      · rw [if_pos hlt]
        exact h0
      · rw [if_neg hlt]
        exact hr hlt
    · rw [if_neg he]
      exact h a
  · rw [if_neg ha]
    exact h a

/-- The stored ratios are untouched by `setExpandingDirection`. -/
theorem ratios_setExpandingDirection (d : PrivateData) (axis : Int)
    (direction : ExpandingDirection) (a : Int) :
    ((setExpandingDirection d axis direction).axisData a).aspectRatio =
      (d.axisData a).aspectRatio := by
  unfold setExpandingDirection
  split_ifs
  · simp only [Function.update_apply]
    split_ifs with h
    · rw [h]
    · rfl
  · rfl

/-- The stored ratios are untouched by `setIntervalHint`. -/
theorem ratios_setIntervalHint (d : PrivateData) (axis : Int) (interval : QwtDoubleInterval)
    (a : Int) :
    ((setIntervalHint d axis interval).axisData a).aspectRatio =
      (d.axisData a).aspectRatio := by
  unfold setIntervalHint
  split_ifs
  · simp only [Function.update_apply]
    split_ifs with h
    · rw [h]
    · rfl
  · rfl

/-- A `rescale` that returns keeps the stored ratios. -/
theorem ratios_rescale (d : PrivateData) (plot : Plot) (oldSize newSize : QSize)
    (script : Replot) (r : Run)
    (h : rescale ⟨d, []⟩ plot oldSize newSize script.run = some r) (a : Int) :
    (r.data.axisData a).aspectRatio = (d.axisData a).aspectRatio := by
  by_cases hv : Run.validRef ⟨d, []⟩
  · obtain ⟨r1, e, k⟩ := rescale_keeps ⟨d, []⟩ plot oldSize newSize script.run
      (replot_good script) hv
    rw [e] at h
    cases h
    exact k.2.2.1 a
  · unfold rescale at h
    by_cases hn : newSize.isEmpty = true
    · rw [if_pos hn] at h
      cases h
      rfl
    · rw [if_neg hn] at h
      simp only at h
      rw [if_pos (by unfold Run.validRef at hv; simp only at hv; omega)] at h
      cases h

/-- A property of ratios that 0 and 1 have, and every ratio not below 0 that
an allowed operation passes, holds of the ratio stored for every axis in every
rescaler reached through the allowed operations. -/
theorem reachable_ratios (P : Double → Prop) (h0 : P 0) (h1 : P 1) (allowed : Op → Prop)
    (hs : ∀ axis ratio, allowed (Op.setAspectRatio axis ratio) → ¬ ratio < 0 → P ratio)
    (hsa : ∀ ratio, allowed (Op.setAspectRatioAll ratio) → ¬ ratio < 0 → P ratio)
    (d : PrivateData) (hr : Reachable allowed d) :
    ∀ a, P (d.axisData a).aspectRatio := by
  induction hr with
  | construct referenceAxis policy =>
    intro a
    simp only [construct, setEnabled, PrivateData.init, AxisData.init]
    split_ifs <;> exact h1
  | step d op d1 _ hall hrun ih =>
    cases op with
    | setEnabled enable =>
      simp only [Op.run, Option.some.injEq] at hrun
      rw [← hrun]
      unfold setEnabled
      split_ifs <;> exact ih
    | setRescalePolicy policy =>
      simp only [Op.run, Option.some.injEq] at hrun
      rw [← hrun]
      exact ih
    | setReferenceAxis axis =>
      simp only [Op.run, Option.some.injEq] at hrun
      rw [← hrun]
      exact ih
    | setExpandingDirection axis direction =>
      simp only [Op.run, Option.some.injEq] at hrun
      rw [← hrun]
      intro a
      rw [ratios_setExpandingDirection]
      exact ih a
    | setExpandingDirectionAll direction =>
      simp only [Op.run, Option.some.injEq] at hrun
      rw [← hrun]
      intro a
      simp only [setExpandingDirectionAll, List.foldl, ratios_setExpandingDirection]
      exact ih a
    | setAspectRatio axis ratio =>
      simp only [Op.run, Option.some.injEq] at hrun
      rw [← hrun]
      exact ratios_setAspectRatio P h0 d axis ratio (hs axis ratio hall) ih
    | setAspectRatioAll ratio =>
      simp only [Op.run, Option.some.injEq] at hrun
      rw [← hrun]
      simp only [setAspectRatioAll, List.foldl]
      have hp := hsa ratio hall
      exact ratios_setAspectRatio P h0 _ _ _ hp (ratios_setAspectRatio P h0 _ _ _ hp
        (ratios_setAspectRatio P h0 _ _ _ hp (ratios_setAspectRatio P h0 _ _ _ hp ih)))
    | setIntervalHint axis interval =>
      simp only [Op.run, Option.some.injEq] at hrun
      rw [← hrun]
      intro a
      rw [ratios_setIntervalHint]
      exact ih a
    | rescale plot oldSize newSize script =>
      simp only [Op.run] at hrun
      split at hrun
      · next r hres =>
        cases hrun
        intro a
        rw [ratios_rescale d plot oldSize newSize script r hres a]
        exact ih a
      · cases hrun

/-- C20, as stated, fails: `setAspectRatio(yLeft, NaN)` on a freshly constructed
rescaler stores NaN, since `NaN < 0.0` is false; the ratio `aspectRatio(yLeft)`
returns afterwards is NaN, which is neither `>= 0` nor the larger of NaN
and 0. -/
theorem C20_nan_ratio_stored :
    Reachable (fun _ => True) (setAspectRatio sampleRescaler QwtPlot.yLeft Double.nan) ∧
      aspectRatio (setAspectRatio sampleRescaler QwtPlot.yLeft Double.nan) QwtPlot.yLeft =
        Double.nan ∧
      ¬ ((0 : Double) ≤
        aspectRatio (setAspectRatio sampleRescaler QwtPlot.yLeft Double.nan) QwtPlot.yLeft) := by
  have h : aspectRatio (setAspectRatio sampleRescaler QwtPlot.yLeft Double.nan) QwtPlot.yLeft =
      Double.nan := by
    rw [(aspectRatio_setAspectRatio sampleRescaler QwtPlot.yLeft Double.nan
      ⟨by decide, by decide⟩).1, if_neg (Double.not_nan_lt 0)]
  refine ⟨?_, h, ?_⟩
  · exact Reachable.step sampleRescaler (Op.setAspectRatio QwtPlot.yLeft Double.nan) _
      (Reachable.construct _ _) trivial rfl
  · rw [h]
    exact Double.not_le_nan 0

/-- C20, amended: the aspect ratio is 1 for every axis of a freshly constructed
rescaler; `setAspectRatio(axis, r)` stores 0 for `r < 0` and `r` otherwise for
an axis of the plot, which for every `r` other than NaN is the larger of `r`
and 0, and changes nothing for an index outside `[0, axisCnt)`;
`aspectRatio(axis)` returns 0 for an index outside that range.  In every
rescaler reached through the public operations the ratio stored for an axis is
NaN or at least 0, and never below 0; it is at least 0 in every rescaler reached
without passing NaN to `setAspectRatio`. -/
theorem C20_aspectRatio_nonneg_or_nan :
    (∀ referenceAxis policy axis, 0 ≤ axis ∧ axis < QwtPlot.axisCnt →
        aspectRatio (construct referenceAxis policy) axis = 1) ∧
      (∀ d axis ratio, 0 ≤ axis ∧ axis < QwtPlot.axisCnt →
        aspectRatio (setAspectRatio d axis ratio) axis = (if ratio < 0 then 0 else ratio)) ∧
      (∀ ratio : Double, ratio ≠ Double.nan →
        (0 : Double) ≤ (if ratio < 0 then 0 else ratio) ∧
          ratio ≤ (if ratio < 0 then 0 else ratio) ∧
          ((if ratio < 0 then (0 : Double) else ratio) = ratio ∨
            (if ratio < 0 then (0 : Double) else ratio) = 0)) ∧
      (∀ d axis ratio, ¬ (0 ≤ axis ∧ axis < QwtPlot.axisCnt) →
        setAspectRatio d axis ratio = d) ∧
      (∀ d axis, ¬ (0 ≤ axis ∧ axis < QwtPlot.axisCnt) → aspectRatio d axis = 0) ∧
      (∀ d, Reachable (fun _ => True) d → ∀ axis,
        ((d.axisData axis).aspectRatio = Double.nan ∨ 0 ≤ (d.axisData axis).aspectRatio) ∧
          ¬ (d.axisData axis).aspectRatio < 0 ∧ ¬ aspectRatio d axis < 0) ∧
      (∀ d, Reachable Op.ratioIsNumber d → ∀ axis,
        0 ≤ (d.axisData axis).aspectRatio ∧ 0 ≤ aspectRatio d axis) := by
  have hz : (0 : Double) ≤ 0 := by
    rw [Double.zero_eq]
    exact (Double.le_finite 0 0).mpr (le_refl 0)
  have hnz : ¬ (0 : Double) < 0 := by
    rw [Double.zero_eq, Double.lt_finite]
    exact lt_irrefl 0
  have h01 : (0 : Double) ≤ 1 := by
    rw [Double.zero_eq, Double.one_eq]
    exact (Double.le_finite 0 1).mpr (by norm_num)
  have hn1 : ¬ (1 : Double) < 0 := by
    rw [Double.zero_eq, Double.one_eq, Double.lt_finite]
    norm_num
  refine ⟨aspectRatio_construct, fun d axis ratio ha =>
    (aspectRatio_setAspectRatio d axis ratio ha).1, stored_ratio_max, setAspectRatio_outside,
    ?_, ?_, ?_⟩
  · intro d axis ha
    unfold aspectRatio
    rw [if_neg ha]
  · intro d hr axis
    have h := reachable_ratios (fun r => (r = Double.nan ∨ 0 ≤ r) ∧ ¬ r < 0)
      ⟨Or.inr hz, hnz⟩ ⟨Or.inr h01, hn1⟩ (fun _ => True)
      (fun _ ratio _ hlt => ⟨by
        by_cases hn : ratio = Double.nan
        · exact Or.inl hn
        · exact Or.inr (by
            rw [Double.zero_eq] at hlt ⊢
            exact Double.nonneg_of_not_lt_zero ratio hn hlt), hlt⟩)
      (fun ratio _ hlt => ⟨by
        by_cases hn : ratio = Double.nan
        · exact Or.inl hn
        · exact Or.inr (by
            rw [Double.zero_eq] at hlt ⊢
            exact Double.nonneg_of_not_lt_zero ratio hn hlt), hlt⟩) d hr axis
    refine ⟨h.1, h.2, ?_⟩
    unfold aspectRatio
    split_ifs
    · exact h.2
    · exact hnz
  · intro d hr axis
    have h := reachable_ratios (fun r => 0 ≤ r) hz h01 Op.ratioIsNumber
      (fun _ ratio hn hlt => by
        rw [Double.zero_eq] at hlt ⊢
        exact Double.nonneg_of_not_lt_zero ratio hn hlt)
      (fun ratio hn hlt => by
        rw [Double.zero_eq] at hlt ⊢
        exact Double.nonneg_of_not_lt_zero ratio hn hlt) d hr axis
    refine ⟨h, ?_⟩
    unfold aspectRatio
    split_ifs
    · exact h
    · exact hz

end Rescaler

/-! ## The rescaler: `expandInterval` -/

namespace Rescaler

/-- The three cases of `expandInterval`, for every interval and width. -/
theorem expandInterval_cases (i : QwtDoubleInterval) (width : Double) :
    expandInterval i width ExpandingDirection.ExpandUp = ⟨i.minValue, i.minValue + width⟩ ∧
      expandInterval i width ExpandingDirection.ExpandDown =
        ⟨i.maxValue - width, i.maxValue⟩ ∧
      expandInterval i width ExpandingDirection.ExpandBoth =
        ⟨i.minValue + i.width / 2 - width / 2, i.minValue + i.width / 2 - width / 2 + width⟩ :=
  ⟨rfl, rfl, rfl⟩

/-- The bounds of the expanded interval, when they are finite, are the
requested width apart up to the rounding of one sum or difference. -/
theorem expandInterval_extent (i : QwtDoubleInterval) (w : ℚ) (dir : ExpandingDirection)
    (lo hi : ℚ) (h : expandInterval i (Double.finite w) dir = ⟨Double.finite lo, Double.finite hi⟩) :
    |hi - lo - w| ≤
      (if dir = ExpandingDirection.ExpandDown then |hi - w| else |lo + w|) *
        (2 : ℚ) ^ (-53 : Int) + (2 : ℚ) ^ (-1075 : Int) := by
  cases dir with
  | ExpandUp =>
    rw [(expandInterval_cases i _).1] at h
    injection h with h1 h2
    rw [h1] at h2
    obtain ⟨a, b, ha, hb, hc⟩ := Double.add_eq_finite _ _ _ h2
    cases ha
    cases hb
    rw [if_neg (by decide), hc]
    have e := Double.fl_error (lo + w)
    rw [show Double.fl (lo + w) - lo - w = Double.fl (lo + w) - (lo + w) by ring]
    exact e
  | ExpandDown =>
    rw [(expandInterval_cases i _).2.1] at h
    injection h with h1 h2
    rw [h2] at h1
    obtain ⟨a, b, ha, hb, hc⟩ := Double.sub_eq_finite _ _ _ h1
    cases ha
    cases hb
    rw [if_pos rfl, hc]
    have e := Double.fl_error (hi - w)
    rw [show hi - Double.fl (hi - w) - w = -(Double.fl (hi - w) - (hi - w)) by ring, abs_neg]
    exact e
  | ExpandBoth =>
    rw [(expandInterval_cases i _).2.2] at h
    injection h with h1 h2
    rw [h1] at h2
    obtain ⟨a, b, ha, hb, hc⟩ := Double.add_eq_finite _ _ _ h2
    cases ha
    cases hb
    rw [if_neg (by decide), hc]
    have e := Double.fl_error (lo + w)
    rw [show Double.fl (lo + w) - lo - w = Double.fl (lo + w) - (lo + w) by ring]
    exact e

/-- The bounds `ExpandBoth` computes from finite bounds in order and a finite
width, when they are finite themselves. -/
theorem expandBoth_finite (a b w lo hi : ℚ) (hab : a ≤ b)
    (h : expandInterval ⟨Double.finite a, Double.finite b⟩ (Double.finite w)
      ExpandingDirection.ExpandBoth = ⟨Double.finite lo, Double.finite hi⟩) :
    lo = Double.fl (Double.fl (a + Double.fl (Double.fl (b - a) / 2)) - Double.fl (w / 2)) ∧
      hi = Double.fl (lo + w) := by
  rw [(expandInterval_cases _ _).2.2] at h
  injection h with h1 h2
  rw [h1] at h2
  obtain ⟨lo1, w1, e1, e2, e3⟩ := Double.add_eq_finite _ _ _ h2
  cases e1
  cases e2
  refine ⟨?_, e3⟩
  obtain ⟨s, h2q, e4, e5, e6⟩ := Double.sub_eq_finite _ _ _ h1
  rw [Double.ofNat_eq] at e4 e5
  obtain ⟨w2, e7, e8⟩ := Double.div_eq_finite _ 2 _ (by norm_num) e5
  cases e7
  obtain ⟨a1, g1, e9, e10, e11⟩ := Double.add_eq_finite _ _ _ e4
  cases e9
  obtain ⟨W, e12, e13⟩ := Double.div_eq_finite _ 2 _ (by norm_num) e10
  have hv : QwtDoubleInterval.isValid ⟨Double.finite a, Double.finite b⟩ = true := by
    simp only [QwtDoubleInterval.isValid, decide_eq_true_eq]
    exact (Double.le_finite a b).mpr hab
  simp only [QwtDoubleInterval.width, hv, if_true] at e12
  obtain ⟨b1, a2, e14, e15, e16⟩ := Double.sub_eq_finite _ _ _ e12
  cases e14
  cases e15
  rw [e6, e11, e13, e16, e8]

/-- C16, as stated, fails: `expandInterval` on the valid interval from 0.1 to 0.3
with the width 0.2 and `ExpandUp` returns the interval from 0.1 to
0.30000000000000004, whose bounds are not 0.2 apart and whose `width()` is
0.20000000000000004; with `ExpandBoth` it returns the same interval, whose
midpoint is not the midpoint of 0.1 and 0.3. -/
theorem C16_expandInterval_rounds :
    QwtDoubleInterval.isValid ⟨Double.finite Double.lit_0_1, Double.finite Double.lit_0_3⟩ =
        true ∧
      expandInterval ⟨Double.finite Double.lit_0_1, Double.finite Double.lit_0_3⟩
          (Double.finite Double.lit_0_2) ExpandingDirection.ExpandUp =
        ⟨Double.finite Double.lit_0_1, Double.finite (1351079888211149 / 4503599627370496)⟩ ∧
      (1351079888211149 / 4503599627370496 : ℚ) - Double.lit_0_1 ≠ Double.lit_0_2 ∧
      QwtDoubleInterval.width
          ⟨Double.finite Double.lit_0_1, Double.finite (1351079888211149 / 4503599627370496)⟩ =
        Double.finite (7205759403792795 / 36028797018963968) ∧
      (7205759403792795 / 36028797018963968 : ℚ) ≠ Double.lit_0_2 ∧
      expandInterval ⟨Double.finite Double.lit_0_1, Double.finite Double.lit_0_3⟩
          (Double.finite Double.lit_0_2) ExpandingDirection.ExpandBoth =
        ⟨Double.finite Double.lit_0_1, Double.finite (1351079888211149 / 4503599627370496)⟩ ∧
      (Double.lit_0_1 + 1351079888211149 / 4503599627370496) / 2 ≠
        (Double.lit_0_1 + Double.lit_0_3) / 2 := by
  refine ⟨?_, ?_, ?_, ?_, ?_, ?_, ?_⟩
  · simp [QwtDoubleInterval.isValid, Double.le_finite, Double.lit_0_1, Double.lit_0_3]
    norm_num
  · simp [expandInterval, QwtDoubleInterval.setMinValue, QwtDoubleInterval.setMaxValue,
      Double.add_def, Double.lit_0_1, Double.lit_0_2]
    norm_num [Double.round_0_1_add_0_2]
  · norm_num [Double.lit_0_1, Double.lit_0_2]
  · simp [QwtDoubleInterval.width, QwtDoubleInterval.isValid, Double.le_finite, Double.sub_def,
      Double.lit_0_1]
    norm_num [Double.round_0_3x_sub_0_1]
  · norm_num [Double.lit_0_2]
  · simp [expandInterval, QwtDoubleInterval.setMinValue, QwtDoubleInterval.setMaxValue,
      QwtDoubleInterval.width, QwtDoubleInterval.isValid, Double.le_finite,
      Double.add_def, Double.sub_def, Double.div_def, Double.ofNat_eq,
      Double.lit_0_1, Double.lit_0_2, Double.lit_0_3]
    norm_num [Double.add_def, Double.sub_def, Double.div_def, Double.round_0_3_sub_0_1,
      Double.round_0_2y_half, Double.round_0_1_add_0_1y, Double.round_0_2_half,
      Double.round_0_1_add_0_2]
  · norm_num [Double.lit_0_1, Double.lit_0_3]

/-- C16, amended: `expandInterval(interval, width, direction)` on a valid
interval returns, for `ExpandUp`, the interval from the lower bound to the sum
of the lower bound and the width, for `ExpandDown` the interval from the
difference of the upper bound and the width to the upper bound, and for
`ExpandBoth` the interval that starts at
`minValue() + width() / 2 - width / 2` and ends at that bound plus the width,
each sum, difference and quotient rounded to a double.  So `ExpandUp` keeps the
lower and `ExpandDown` the upper bound exactly; finite bounds of the result are
the requested width apart up to the rounding of one sum or difference (a
relative error of 2 ^ -53 of the exact sum or difference, and 2 ^ -1075); and
for `ExpandBoth` the midpoint of finite bounds is the midpoint of the interval
up to 2 ^ -50 times the sum of the magnitudes of the two bounds and the width,
and 2 ^ -1072. -/
theorem C16_expandInterval_rounded (i : QwtDoubleInterval) (width : Double)
    (hv : i.isValid = true) :
    expandInterval i width ExpandingDirection.ExpandUp = ⟨i.minValue, i.minValue + width⟩ ∧
      expandInterval i width ExpandingDirection.ExpandDown =
        ⟨i.maxValue - width, i.maxValue⟩ ∧
      expandInterval i width ExpandingDirection.ExpandBoth =
        ⟨i.minValue + i.width / 2 - width / 2, i.minValue + i.width / 2 - width / 2 + width⟩ ∧
      (∀ dir w lo hi, width = Double.finite w →
        expandInterval i width dir = ⟨Double.finite lo, Double.finite hi⟩ →
        |hi - lo - w| ≤
          (if dir = ExpandingDirection.ExpandDown then |hi - w| else |lo + w|) *
            (2 : ℚ) ^ (-53 : Int) + (2 : ℚ) ^ (-1075 : Int)) ∧
      (∀ a b w lo hi, i = ⟨Double.finite a, Double.finite b⟩ → width = Double.finite w →
        expandInterval i width ExpandingDirection.ExpandBoth =
          ⟨Double.finite lo, Double.finite hi⟩ →
        |(lo + hi) / 2 - (a + b) / 2| ≤
          (|a| + |b| + |w|) * (2 : ℚ) ^ (-50 : Int) + (2 : ℚ) ^ (-1072 : Int)) := by
  refine ⟨rfl, rfl, rfl, ?_, ?_⟩
  · intro dir w lo hi hw h
    rw [hw] at h
    exact expandInterval_extent i w dir lo hi h
  · intro a b w lo hi hi' hw h
    rw [hi'] at hv
    have hab : a ≤ b := by
      simp only [QwtDoubleInterval.isValid, decide_eq_true_eq] at hv
      exact (Double.le_finite a b).mp hv
    rw [hi', hw] at h
    obtain ⟨e1, e2⟩ := expandBoth_finite a b w lo hi hab h
    rw [e2, e1]
    exact Double.expandBoth_midpoint a b w hab

theorem C16_expandInterval_rounded_witness :
    QwtDoubleInterval.isValid ⟨Double.finite Double.lit_0_1, Double.finite Double.lit_0_3⟩ =
        true ∧
      (expandInterval ⟨Double.finite Double.lit_0_1, Double.finite Double.lit_0_3⟩
          (Double.finite Double.lit_0_2) ExpandingDirection.ExpandUp =
        ⟨(QwtDoubleInterval.mk (Double.finite Double.lit_0_1)
            (Double.finite Double.lit_0_3)).minValue,
          (QwtDoubleInterval.mk (Double.finite Double.lit_0_1)
            (Double.finite Double.lit_0_3)).minValue + Double.finite Double.lit_0_2⟩ ∧
      expandInterval ⟨Double.finite Double.lit_0_1, Double.finite Double.lit_0_3⟩
          (Double.finite Double.lit_0_2) ExpandingDirection.ExpandDown =
        ⟨(QwtDoubleInterval.mk (Double.finite Double.lit_0_1)
            (Double.finite Double.lit_0_3)).maxValue - Double.finite Double.lit_0_2,
          (QwtDoubleInterval.mk (Double.finite Double.lit_0_1)
            (Double.finite Double.lit_0_3)).maxValue⟩ ∧
      expandInterval ⟨Double.finite Double.lit_0_1, Double.finite Double.lit_0_3⟩
          (Double.finite Double.lit_0_2) ExpandingDirection.ExpandBoth =
        ⟨(QwtDoubleInterval.mk (Double.finite Double.lit_0_1)
              (Double.finite Double.lit_0_3)).minValue +
            (QwtDoubleInterval.mk (Double.finite Double.lit_0_1)
              (Double.finite Double.lit_0_3)).width / 2 - Double.finite Double.lit_0_2 / 2,
          (QwtDoubleInterval.mk (Double.finite Double.lit_0_1)
              (Double.finite Double.lit_0_3)).minValue +
            (QwtDoubleInterval.mk (Double.finite Double.lit_0_1)
              (Double.finite Double.lit_0_3)).width / 2 - Double.finite Double.lit_0_2 / 2 +
            Double.finite Double.lit_0_2⟩ ∧
      (∀ dir w lo hi, Double.finite Double.lit_0_2 = Double.finite w →
        expandInterval ⟨Double.finite Double.lit_0_1, Double.finite Double.lit_0_3⟩
          (Double.finite Double.lit_0_2) dir = ⟨Double.finite lo, Double.finite hi⟩ →
        |hi - lo - w| ≤
          (if dir = ExpandingDirection.ExpandDown then |hi - w| else |lo + w|) *
            (2 : ℚ) ^ (-53 : Int) + (2 : ℚ) ^ (-1075 : Int)) ∧
      (∀ a b w lo hi,
        (QwtDoubleInterval.mk (Double.finite Double.lit_0_1) (Double.finite Double.lit_0_3)) =
          ⟨Double.finite a, Double.finite b⟩ →
        Double.finite Double.lit_0_2 = Double.finite w →
        expandInterval ⟨Double.finite Double.lit_0_1, Double.finite Double.lit_0_3⟩
            (Double.finite Double.lit_0_2) ExpandingDirection.ExpandBoth =
          ⟨Double.finite lo, Double.finite hi⟩ →
        |(lo + hi) / 2 - (a + b) / 2| ≤
          (|a| + |b| + |w|) * (2 : ℚ) ^ (-50 : Int) + (2 : ℚ) ^ (-1072 : Int))) :=
  ⟨by simp [QwtDoubleInterval.isValid, Double.le_finite, Double.lit_0_1, Double.lit_0_3]
      norm_num,
    C16_expandInterval_rounded ⟨Double.finite Double.lit_0_1, Double.finite Double.lit_0_3⟩
      (Double.finite Double.lit_0_2)
      (by simp [QwtDoubleInterval.isValid, Double.le_finite, Double.lit_0_1, Double.lit_0_3]
          norm_num)⟩

end Rescaler

/-! ## The rescaler: the Expanding policy -/

namespace Rescaler

/-- The pixel length of the axes `xBottom` and `xTop` is the width and that of
the axes `yLeft` and `yRight` the height. -/
theorem pixelLength_axes (size : QSize) (axis : Int) :
    (axis = QwtPlot.xBottom ∨ axis = QwtPlot.xTop → pixelLength size axis = size.wd) ∧
      (axis = QwtPlot.yLeft ∨ axis = QwtPlot.yRight → pixelLength size axis = size.ht) := by
  constructor
  · intro h
    rcases h with h | h <;> rw [h] <;> rfl
  · intro h
    rcases h with h | h <;> rw [h] <;> rfl

/-- Under the Expanding policy with a non-empty old size the interval of the
axis is expanded to its width times the ratio of the pixel lengths along the
axis, product and ratio being rounded. -/
theorem expandScale_expanding (d : PrivateData) (plot : Plot) (axis : Int)
    (oldSize newSize : QSize) (hp : d.rescalePolicy = RescalePolicy.Expanding)
    (ho : oldSize.isEmpty = false) :
    expandScale d plot axis oldSize newSize =
      expandInterval (interval plot axis)
        ((interval plot axis).width *
          (Double.ofInt (pixelLength newSize axis) / Double.ofInt (pixelLength oldSize axis)))
        (expandingDirection d axis) := by
  unfold expandScale pixelLength
  simp only [hp, ho, Bool.false_eq_true, not_false_eq_true, if_true]
  split_ifs <;> rfl

/-- The pixel length of an axis on a canvas that is not empty is positive. -/
theorem pixelLength_pos (size : QSize) (axis : Int) (hs : size.isEmpty = false) :
    0 < pixelLength size axis := by
  simp only [QSize.isEmpty, decide_eq_false_iff_not, not_or, not_lt] at hs
  unfold pixelLength
  split_ifs <;> omega

/-- C15, as stated, fails: under the Expanding policy the axis `xBottom` of a
plot that runs from 0.1 to 0.4, of width 0.30000000000000004, resized from 100
to 300 pixels, gets the interval from 0.1 to 1.0000000000000002, whose `width()`
is 0.9000000000000002 and whose bounds are not 0.30000000000000004 * 3 =
0.9000000000000001 apart. -/
theorem C15_expandScale_rounds :
    sampleRescaler.rescalePolicy = RescalePolicy.Expanding ∧
      QSize.isEmpty ⟨100, 100⟩ = false ∧
      (interval tenthsPlot QwtPlot.xBottom).width =
        Double.finite (1351079888211149 / 4503599627370496) ∧
      expandScale sampleRescaler tenthsPlot QwtPlot.xBottom ⟨100, 100⟩ ⟨300, 100⟩ =
        ⟨Double.finite Double.lit_0_1, Double.finite (4503599627370497 / 4503599627370496)⟩ ∧
      QwtDoubleInterval.width
          ⟨Double.finite Double.lit_0_1, Double.finite (4503599627370497 / 4503599627370496)⟩ =
        Double.finite (8106479329266895 / 9007199254740992) ∧
      (8106479329266895 / 9007199254740992 : ℚ) ≠
        1351079888211149 / 4503599627370496 * ((300 : ℚ) / 100) ∧
      (4503599627370497 / 4503599627370496 : ℚ) - Double.lit_0_1 ≠
        1351079888211149 / 4503599627370496 * ((300 : ℚ) / 100) := by
  have hw : (interval tenthsPlot QwtPlot.xBottom).width =
      Double.finite (1351079888211149 / 4503599627370496) := by
    simp [interval, tenthsPlot, QwtPlot.xBottom, QwtPlot.axisCnt, QwtDoubleInterval.normalized,
      QwtDoubleInterval.width, QwtDoubleInterval.isValid, Double.lt_finite, Double.le_finite,
      Double.sub_def, Double.lit_0_1, Double.lit_0_4]
    norm_num [Double.lt_finite, Double.le_finite, Double.sub_def, Double.round_0_4_sub_0_1]
  refine ⟨rfl, by decide, hw, ?_, ?_, ?_, ?_⟩
  · rw [expandScale_expanding _ _ _ _ _ rfl (by decide), hw]
    simp [interval, tenthsPlot, QwtPlot.xBottom, QwtPlot.axisCnt, QwtDoubleInterval.normalized,
      Double.lt_finite, pixelLength, orientation, QwtPlot.yLeft, QwtPlot.yRight,
      expandingDirection, sampleRescaler, construct, setEnabled, PrivateData.init,
      AxisData.init, expandInterval, QwtDoubleInterval.setMinValue,
      QwtDoubleInterval.setMaxValue, Double.ofInt, Double.lit_0_1, Double.lit_0_4]
    norm_num [Double.lt_finite, Double.le_finite, Double.div_def, Double.mul_def,
      Double.add_def, Double.round_3,
      Double.round_0_3x_mul_3, Double.round_0_1_add_0_9x]
  · simp [QwtDoubleInterval.width, QwtDoubleInterval.isValid, Double.le_finite, Double.sub_def,
      Double.lit_0_1]
    norm_num [Double.lt_finite, Double.le_finite, Double.sub_def, Double.round_1x_sub_0_1]
  · norm_num
  · norm_num [Double.lit_0_1]

/-- C15, amended: under the Expanding policy with a non-empty `oldSize`,
`expandScale(axis, oldSize, newSize)` returns the interval of the axis expanded
by `expandInterval` to the width `w * (double(n) / o)`, where `w` is the
`width()` of the old interval and `n` and `o` are the new and the old pixel
length of the axis: `width()` for `xBottom` and `xTop`, `height()` for `yLeft`
and `yRight`.  Quotient and product are rounded to a double, so a finite
requested width is `w * n / o` up to a relative error of 2 ^ -51 (and
`(|w| + 1) * 2 ^ -1074`), and finite bounds of the result are the requested
width apart up to the rounding of the one sum or difference that
`expandInterval` computes. -/
theorem C15_expandScale_rounded (d : PrivateData) (plot : Plot) (axis : Int)
    (oldSize newSize : QSize) (hp : d.rescalePolicy = RescalePolicy.Expanding)
    (ho : oldSize.isEmpty = false) :
    expandScale d plot axis oldSize newSize =
        expandInterval (interval plot axis)
          ((interval plot axis).width *
            (Double.ofInt (pixelLength newSize axis) / Double.ofInt (pixelLength oldSize axis)))
          (expandingDirection d axis) ∧
      (axis = QwtPlot.xBottom ∨ axis = QwtPlot.xTop →
        pixelLength newSize axis = newSize.wd ∧ pixelLength oldSize axis = oldSize.wd) ∧
      (axis = QwtPlot.yLeft ∨ axis = QwtPlot.yRight →
        pixelLength newSize axis = newSize.ht ∧ pixelLength oldSize axis = oldSize.ht) ∧
      ∀ w p lo hi : ℚ, (interval plot axis).width = Double.finite w →
        (interval plot axis).width *
            (Double.ofInt (pixelLength newSize axis) / Double.ofInt (pixelLength oldSize axis)) =
          Double.finite p →
        expandScale d plot axis oldSize newSize = ⟨Double.finite lo, Double.finite hi⟩ →
        |p - w * ((pixelLength newSize axis : ℚ) / (pixelLength oldSize axis : ℚ))| ≤
            |w * ((pixelLength newSize axis : ℚ) / (pixelLength oldSize axis : ℚ))| *
                (2 : ℚ) ^ (-51 : Int) + (|w| + 1) * (2 : ℚ) ^ (-1074 : Int) ∧
          |hi - lo - p| ≤
            (if expandingDirection d axis = ExpandingDirection.ExpandDown then |hi - p|
              else |lo + p|) * (2 : ℚ) ^ (-53 : Int) + (2 : ℚ) ^ (-1075 : Int) := by
  have hexp := expandScale_expanding d plot axis oldSize newSize hp ho
  refine ⟨hexp, fun h => ⟨(pixelLength_axes newSize axis).1 h, (pixelLength_axes oldSize axis).1 h⟩,
    fun h => ⟨(pixelLength_axes newSize axis).2 h, (pixelLength_axes oldSize axis).2 h⟩, ?_⟩
  intro w p lo hi hw hpq hres
  have hpos := pixelLength_pos oldSize axis ho
  have hne : ((pixelLength oldSize axis : Int) : ℚ) ≠ 0 := by
    exact_mod_cast (ne_of_gt hpos)
  constructor
  · rw [hw] at hpq
    obtain ⟨w1, r, e1, e2, e3⟩ := Double.mul_eq_finite _ _ _ hpq
    cases e1
    unfold Double.ofInt at e2
    rw [Double.div_def _ _ hne] at e2
    have e4 := Double.round_eq_finite _ _ e2
    rw [e3, e4]
    exact Double.mul_div_rounded w _ _
  · rw [hexp, hpq] at hres
    exact expandInterval_extent _ p _ lo hi hres

theorem C15_expandScale_rounded_witness :
    sampleRescaler.rescalePolicy = RescalePolicy.Expanding ∧ QSize.isEmpty ⟨100, 100⟩ = false ∧
      (expandScale sampleRescaler tenthsPlot QwtPlot.xBottom ⟨100, 100⟩ ⟨300, 100⟩ =
        expandInterval (interval tenthsPlot QwtPlot.xBottom)
          ((interval tenthsPlot QwtPlot.xBottom).width *
            (Double.ofInt (pixelLength ⟨300, 100⟩ QwtPlot.xBottom) /
              Double.ofInt (pixelLength ⟨100, 100⟩ QwtPlot.xBottom)))
          (expandingDirection sampleRescaler QwtPlot.xBottom) ∧
      (QwtPlot.xBottom = QwtPlot.xBottom ∨ QwtPlot.xBottom = QwtPlot.xTop →
        pixelLength ⟨300, 100⟩ QwtPlot.xBottom = (QSize.mk 300 100).wd ∧
          pixelLength ⟨100, 100⟩ QwtPlot.xBottom = (QSize.mk 100 100).wd) ∧
      (QwtPlot.xBottom = QwtPlot.yLeft ∨ QwtPlot.xBottom = QwtPlot.yRight →
        pixelLength ⟨300, 100⟩ QwtPlot.xBottom = (QSize.mk 300 100).ht ∧
          pixelLength ⟨100, 100⟩ QwtPlot.xBottom = (QSize.mk 100 100).ht) ∧
      ∀ w p lo hi : ℚ, (interval tenthsPlot QwtPlot.xBottom).width = Double.finite w →
        (interval tenthsPlot QwtPlot.xBottom).width *
            (Double.ofInt (pixelLength ⟨300, 100⟩ QwtPlot.xBottom) /
              Double.ofInt (pixelLength ⟨100, 100⟩ QwtPlot.xBottom)) =
          Double.finite p →
        expandScale sampleRescaler tenthsPlot QwtPlot.xBottom ⟨100, 100⟩ ⟨300, 100⟩ =
          ⟨Double.finite lo, Double.finite hi⟩ →
        |p - w * ((pixelLength ⟨300, 100⟩ QwtPlot.xBottom : ℚ) /
              (pixelLength ⟨100, 100⟩ QwtPlot.xBottom : ℚ))| ≤
            |w * ((pixelLength ⟨300, 100⟩ QwtPlot.xBottom : ℚ) /
                (pixelLength ⟨100, 100⟩ QwtPlot.xBottom : ℚ))| *
                (2 : ℚ) ^ (-51 : Int) + (|w| + 1) * (2 : ℚ) ^ (-1074 : Int) ∧
          |hi - lo - p| ≤
            (if expandingDirection sampleRescaler QwtPlot.xBottom =
                ExpandingDirection.ExpandDown then |hi - p|
              else |lo + p|) * (2 : ℚ) ^ (-53 : Int) + (2 : ℚ) ^ (-1075 : Int)) :=
  ⟨rfl, by decide,
    C15_expandScale_rounded sampleRescaler tenthsPlot QwtPlot.xBottom ⟨100, 100⟩ ⟨300, 100⟩
      rfl (by decide)⟩

end Rescaler

/-! ## The rescaler: `syncScale` -/

namespace Rescaler

/-- The interval `syncScale` returns: the interval hint under the Fitting
policy, and else the interval of the axis, expanded to the width of the
reference interval divided by the pixel length of the reference axis,
multiplied by the pixel length of the axis and divided by the aspect ratio. -/
theorem syncScale_eq (d : PrivateData) (plot : Plot) (axis : Int)
    (reference : QwtDoubleInterval) (size : QSize) :
    syncScale d plot axis reference size =
      expandInterval
        (if d.rescalePolicy = RescalePolicy.Fitting then intervalHint d axis
          else interval plot axis)
        (reference.width / Double.ofInt (pixelLength size d.referenceAxis) *
          Double.ofInt (pixelLength size axis) / aspectRatio d axis)
        (expandingDirection d axis) := by
  unfold syncScale pixelLength
  split_ifs <;> rfl

/-- C17, as stated, fails: with aspect ratio 2 for `yLeft`, reference axis
`xBottom`, a canvas of 100 by 100 pixels and a reference interval of width 10,
`syncScale` returns the interval from 0 to 5, of width 5 (10 divided by 2), and
not of width 20 (10 times 2); and with aspect ratio 1, a canvas of 49 by 49
pixels and the reference interval from 0 to 1 it returns the interval from 0 to
0.9999999999999999, not of width 1. -/
theorem C17_syncScale_divides :
    aspectRatio (setAspectRatio sampleRescaler QwtPlot.yLeft 2) QwtPlot.yLeft = 2 ∧
      syncScale (setAspectRatio sampleRescaler QwtPlot.yLeft 2) samplePlot QwtPlot.yLeft
        ⟨0, 10⟩ ⟨100, 100⟩ = ⟨0, 5⟩ ∧
      QwtDoubleInterval.width ⟨0, 5⟩ = 5 ∧
      (5 : ℚ) ≠ 10 * (2 * ((pixelLength ⟨100, 100⟩ QwtPlot.yLeft : ℚ) /
        (pixelLength ⟨100, 100⟩ QwtPlot.xBottom : ℚ))) ∧
      aspectRatio sampleRescaler QwtPlot.yLeft = 1 ∧ QwtDoubleInterval.width ⟨0, 1⟩ = 1 ∧
      syncScale sampleRescaler samplePlot QwtPlot.yLeft ⟨0, 1⟩ ⟨49, 49⟩ =
        ⟨0, Double.finite (9007199254740991 / 9007199254740992)⟩ ∧
      QwtDoubleInterval.width ⟨0, Double.finite (9007199254740991 / 9007199254740992)⟩ =
        Double.finite (9007199254740991 / 9007199254740992) ∧
      (9007199254740991 / 9007199254740992 : ℚ) ≠
        1 * ((pixelLength ⟨49, 49⟩ QwtPlot.yLeft : ℚ) /
          (pixelLength ⟨49, 49⟩ QwtPlot.xBottom : ℚ)) / 1 := by
  refine ⟨?_, ?_, ?_, ?_, ?_, ?_, ?_, ?_, ?_⟩
  · simp [aspectRatio, setAspectRatio, sampleRescaler, construct, setEnabled,
      PrivateData.init, AxisData.init, QwtPlot.yLeft, QwtPlot.axisCnt, Double.ofNat_eq,
      Double.zero_eq, Double.lt_finite]
  · simp [syncScale, aspectRatio, setAspectRatio, sampleRescaler, construct, setEnabled,
      PrivateData.init, AxisData.init, QwtPlot.yLeft, QwtPlot.yRight, QwtPlot.xBottom,
      QwtPlot.axisCnt, orientation, QwtDoubleInterval.width, QwtDoubleInterval.isValid,
      interval, samplePlot, QwtDoubleInterval.normalized, expandInterval, expandingDirection,
      QwtDoubleInterval.setMinValue, QwtDoubleInterval.setMaxValue, Double.ofInt,
      Double.ofNat_eq, Double.zero_eq, Double.one_eq, Double.lt_finite, Double.le_finite,
      (by decide : ¬ RescalePolicy.Expanding = RescalePolicy.Fitting)]
    norm_num [Double.lt_finite, Double.le_finite, Double.add_def, Double.sub_def,
      Double.mul_def, Double.div_def, Double.round_10, Double.round_1_div_10,
      Double.round_0_1_mul_100, Double.round_5]
  · simp [QwtDoubleInterval.width, QwtDoubleInterval.isValid, Double.ofNat_eq, Double.zero_eq,
      Double.le_finite, Double.sub_def]
    norm_num [Double.round_5]
  · norm_num [pixelLength, orientation, QwtPlot.yLeft, QwtPlot.yRight, QwtPlot.xBottom]
  · simp [aspectRatio, sampleRescaler, construct, setEnabled, PrivateData.init, AxisData.init,
      QwtPlot.yLeft, QwtPlot.axisCnt]
  · simp [QwtDoubleInterval.width, QwtDoubleInterval.isValid, Double.zero_eq, Double.one_eq,
      Double.le_finite, Double.sub_def]
    norm_num [Double.round_1]
  · simp [syncScale, aspectRatio, sampleRescaler, construct, setEnabled,
      PrivateData.init, AxisData.init, QwtPlot.yLeft, QwtPlot.yRight, QwtPlot.xBottom,
      QwtPlot.axisCnt, orientation, QwtDoubleInterval.width, QwtDoubleInterval.isValid,
      interval, samplePlot, QwtDoubleInterval.normalized, expandInterval, expandingDirection,
      QwtDoubleInterval.setMinValue, QwtDoubleInterval.setMaxValue, Double.ofInt,
      Double.ofNat_eq, Double.zero_eq, Double.one_eq, Double.lt_finite, Double.le_finite,
      (by decide : ¬ RescalePolicy.Expanding = RescalePolicy.Fitting)]
    norm_num [Double.lt_finite, Double.le_finite, Double.add_def, Double.sub_def,
      Double.mul_def, Double.div_def, Double.round_1, Double.round_1_div_49,
      Double.round_49ths_mul_49, Double.round_0_9y]
  · simp [QwtDoubleInterval.width, QwtDoubleInterval.isValid, Double.zero_eq,
      Double.le_finite, Double.sub_def]
    norm_num [Double.round_0_9y]
  · norm_num [pixelLength, orientation, QwtPlot.yLeft, QwtPlot.yRight, QwtPlot.xBottom]

/-- C17, amended: `syncScale(axis, reference, size)` returns the interval hint
of the axis under the Fitting policy, and else the interval of the axis,
expanded by `expandInterval` to the width
`reference.width() / r * a / aspectRatio(axis)`, where `r` is the pixel length
of the reference axis and `a` that of the axis.  For a canvas that is not empty
and a finite aspect ratio above 0, a finite requested width is the width of the
reference interval multiplied by `a / r` and divided by the aspect ratio, up to
the three roundings: a relative error of 2 ^ -51, and
`(a / ratio + 1 / ratio + 1) * 2 ^ -1074`; and finite bounds of the result are
the requested width apart up to the rounding of the one sum or difference that
`expandInterval` computes. -/
theorem C17_syncScale_rounded (d : PrivateData) (plot : Plot) (axis : Int)
    (reference : QwtDoubleInterval) (size : QSize) (q : ℚ)
    (hq : aspectRatio d axis = Double.finite q) (hr : 0 < q) (hs : size.isEmpty = false) :
    syncScale d plot axis reference size =
        expandInterval
          (if d.rescalePolicy = RescalePolicy.Fitting then intervalHint d axis
            else interval plot axis)
          (reference.width / Double.ofInt (pixelLength size d.referenceAxis) *
            Double.ofInt (pixelLength size axis) / aspectRatio d axis)
          (expandingDirection d axis) ∧
      ∀ w x lo hi : ℚ, reference.width = Double.finite w →
        reference.width / Double.ofInt (pixelLength size d.referenceAxis) *
            Double.ofInt (pixelLength size axis) / aspectRatio d axis = Double.finite x →
        syncScale d plot axis reference size = ⟨Double.finite lo, Double.finite hi⟩ →
        |x - w * ((pixelLength size axis : ℚ) / (pixelLength size d.referenceAxis : ℚ)) / q| ≤
            |w * ((pixelLength size axis : ℚ) / (pixelLength size d.referenceAxis : ℚ)) / q| *
                (2 : ℚ) ^ (-51 : Int) +
              ((pixelLength size axis : ℚ) / q + 1 / q + 1) * (2 : ℚ) ^ (-1074 : Int) ∧
          |hi - lo - x| ≤
            (if expandingDirection d axis = ExpandingDirection.ExpandDown then |hi - x|
              else |lo + x|) * (2 : ℚ) ^ (-53 : Int) + (2 : ℚ) ^ (-1075 : Int) := by
  have heq := syncScale_eq d plot axis reference size
  refine ⟨heq, ?_⟩
  intro w x lo hi hw hx hres
  have hla := pixelLength_pos size axis hs
  have hlr := pixelLength_pos size d.referenceAxis hs
  have hla' : (0 : ℚ) ≤ ((pixelLength size axis : Int) : ℚ) := by exact_mod_cast hla.le
  have hlr' : (0 : ℚ) < ((pixelLength size d.referenceAxis : Int) : ℚ) := by exact_mod_cast hlr
  constructor
  · rw [hw, hq] at hx
    obtain ⟨x2, e1, e2⟩ := Double.div_eq_finite _ q _ (ne_of_gt hr) hx
    obtain ⟨x1, a, e3, e4, e5⟩ := Double.mul_eq_finite _ _ _ e1
    unfold Double.ofInt at e3 e4
    cases e4
    rw [Double.div_def _ _ (ne_of_gt hlr')] at e3
    have e6 := Double.round_eq_finite _ _ e3
    rw [e2, e5, e6]
    exact Double.div_mul_div_rounded w _ _ q hlr' hla' hr
  · rw [heq, hx] at hres
    exact expandInterval_extent _ x _ lo hi hres

theorem C17_syncScale_rounded_witness :
    aspectRatio (setAspectRatio sampleRescaler QwtPlot.yLeft 2) QwtPlot.yLeft =
        Double.finite 2 ∧ (0 : ℚ) < 2 ∧ QSize.isEmpty ⟨100, 100⟩ = false ∧
      (syncScale (setAspectRatio sampleRescaler QwtPlot.yLeft 2) samplePlot QwtPlot.yLeft
          ⟨0, 10⟩ ⟨100, 100⟩ =
        expandInterval
          (if (setAspectRatio sampleRescaler QwtPlot.yLeft 2).rescalePolicy =
              RescalePolicy.Fitting then
            intervalHint (setAspectRatio sampleRescaler QwtPlot.yLeft 2) QwtPlot.yLeft
            else interval samplePlot QwtPlot.yLeft)
          (QwtDoubleInterval.width ⟨0, 10⟩ /
              Double.ofInt (pixelLength ⟨100, 100⟩
                (setAspectRatio sampleRescaler QwtPlot.yLeft 2).referenceAxis) *
            Double.ofInt (pixelLength ⟨100, 100⟩ QwtPlot.yLeft) /
            aspectRatio (setAspectRatio sampleRescaler QwtPlot.yLeft 2) QwtPlot.yLeft)
          (expandingDirection (setAspectRatio sampleRescaler QwtPlot.yLeft 2) QwtPlot.yLeft) ∧
      ∀ w x lo hi : ℚ, QwtDoubleInterval.width ⟨0, 10⟩ = Double.finite w →
        QwtDoubleInterval.width ⟨0, 10⟩ /
              Double.ofInt (pixelLength ⟨100, 100⟩
                (setAspectRatio sampleRescaler QwtPlot.yLeft 2).referenceAxis) *
            Double.ofInt (pixelLength ⟨100, 100⟩ QwtPlot.yLeft) /
            aspectRatio (setAspectRatio sampleRescaler QwtPlot.yLeft 2) QwtPlot.yLeft =
          Double.finite x →
        syncScale (setAspectRatio sampleRescaler QwtPlot.yLeft 2) samplePlot QwtPlot.yLeft
          ⟨0, 10⟩ ⟨100, 100⟩ = ⟨Double.finite lo, Double.finite hi⟩ →
        |x - w * ((pixelLength ⟨100, 100⟩ QwtPlot.yLeft : ℚ) /
              (pixelLength ⟨100, 100⟩
                (setAspectRatio sampleRescaler QwtPlot.yLeft 2).referenceAxis : ℚ)) / 2| ≤
            |w * ((pixelLength ⟨100, 100⟩ QwtPlot.yLeft : ℚ) /
                (pixelLength ⟨100, 100⟩
                  (setAspectRatio sampleRescaler QwtPlot.yLeft 2).referenceAxis : ℚ)) / 2| *
                (2 : ℚ) ^ (-51 : Int) +
              ((pixelLength ⟨100, 100⟩ QwtPlot.yLeft : ℚ) / 2 + 1 / 2 + 1) *
                (2 : ℚ) ^ (-1074 : Int) ∧
          |hi - lo - x| ≤
            (if expandingDirection (setAspectRatio sampleRescaler QwtPlot.yLeft 2)
                QwtPlot.yLeft = ExpandingDirection.ExpandDown then |hi - x|
              else |lo + x|) * (2 : ℚ) ^ (-53 : Int) + (2 : ℚ) ^ (-1075 : Int)) :=
  have hq : aspectRatio (setAspectRatio sampleRescaler QwtPlot.yLeft 2) QwtPlot.yLeft =
      Double.finite 2 := by
    simp [aspectRatio, setAspectRatio, sampleRescaler, construct, setEnabled,
      PrivateData.init, AxisData.init, QwtPlot.yLeft, QwtPlot.axisCnt, Double.ofNat_eq,
      Double.zero_eq, Double.lt_finite]
  ⟨hq, by norm_num, by decide,
    C17_syncScale_rounded (setAspectRatio sampleRescaler QwtPlot.yLeft 2) samplePlot
      QwtPlot.yLeft ⟨0, 10⟩ ⟨100, 100⟩ 2 hq (by norm_num) (by decide)⟩

end Rescaler

/-! ## The rescaler: the Fitting policy -/

namespace Rescaler

/-- Under the Fitting policy without a positive largest `pixelDist`, the axis
keeps its interval. -/
theorem expandScale_fitting_zero (d : PrivateData) (plot : Plot) (axis : Int)
    (oldSize newSize : QSize) (hp : d.rescalePolicy = RescalePolicy.Fitting)
    (hd : ¬ 0 < maxPixelDist d newSize) :
    expandScale d plot axis oldSize newSize = interval plot axis := by
  unfold expandScale
  simp only [hp]
  have hd1 : ¬ (0 : Double) < [0, 1, 2, 3].foldl
      (fun dist ax => if pixelDist d ax newSize > dist then pixelDist d ax newSize else dist)
      0 := hd
  rw [if_neg hd1]

end Rescaler

/-! ## `setZoomStack` and the depth limit -/

/-- The two results of `setZoomStack`: the zoomer stays as it is (an empty
stack, or a stack of more than `maxStackDepth` rectangles), or the stack is
installed and the position read inside it is stored. -/
theorem setZoomStack_cases (d : PrivateData) (st : List QwtDoubleRect) (i : Int) (o : Outcome)
    (hst : st.length < 2147483648) (h : setZoomStack d st i = some o) :
    o.data = d ∨
      (¬ (0 ≤ d.maxStackDepth ∧ d.maxStackDepth < (st.length : Int)) ∧
        o.data.zoomStack = st ∧ o.data.maxStackDepth = d.maxStackDepth ∧
        o.data.zoomRectIndex < st.length ∧
        o.data.zoomRectIndex =
          (if i < 0 ∨ (st.length : Int) < i then (st.length : Int) - 1 else i).toNat) := by
  unfold setZoomStack at h
  by_cases h1 : st.isEmpty
  · rw [if_pos h1] at h
    cases h
    exact Or.inl rfl
  rw [if_neg h1] at h
  by_cases h2 : 0 ≤ d.maxStackDepth ∧ d.maxStackDepth < (st.length : Int)
  · rw [if_pos h2] at h
    cases h
    exact Or.inl rfl
  rw [if_neg h2] at h
  right
  have hpos : 0 < st.length := by
    cases st with
    | nil => simp at h1
    | cons a t => simp
  have hu := setZoomStack_index st i hst hpos
  simp only at h
  rw [hu] at h
  generalize (if i < 0 ∨ (st.length : Int) < i then (st.length : Int) - 1 else i).toNat = k at h
  cases hr : st[k]? with
  | none => rw [hr] at h; cases h
  | some r =>
    have hk : k < st.length := by
      rcases List.getElem?_eq_some_iff.mp hr with ⟨hk, _⟩
      exact hk
    cases hcur : d.zoomRect with
    | none => rw [hr, hcur] at h; cases h
    | some cur =>
      rw [hr, hcur] at h
      simp only [PrivateData.zoomRect] at h
      rw [hr] at h
      by_cases hne : r = cur
      · simp only [hne, ne_eq, not_true_eq_false, decide_False, Bool.false_eq_true,
          if_false] at h
        cases h
        exact ⟨h2, rfl, rfl, hk, rfl⟩
      · simp only [ne_eq, hne, not_false_eq_true, decide_True, if_true] at h
        cases h
        exact ⟨h2, rfl, rfl, hk, rfl⟩

/-- For an index other than the count of the stack, `setZoomStack` on an
accepted stack returns and stores a valid position, the top for a negative
index. -/
theorem setZoomStack_index_valid (d : PrivateData) (st : List QwtDoubleRect) (i : Int)
    (hv : d.valid) (hst : st.length < 2147483648) (hne : st ≠ [])
    (hacc : ¬ (0 ≤ d.maxStackDepth ∧ d.maxStackDepth < (st.length : Int)))
    (hi : i ≠ (st.length : Int)) :
    ∃ o, setZoomStack d st i = some o ∧ o.data.zoomStack = st ∧
      o.data.zoomRectIndex < st.length ∧
      (i < 0 → o.data.zoomRectIndex = st.length - 1) := by
  have hpos : 0 < st.length := List.length_pos.mpr hne
  have hk : (if i < 0 ∨ (st.length : Int) < i then (st.length : Int) - 1 else i).toNat <
      st.length := by
    split_ifs with hc
    · omega
    · push_neg at hc
      omega
  have hneg : i < 0 →
      (if i < 0 ∨ (st.length : Int) < i then (st.length : Int) - 1 else i).toNat =
        st.length - 1 := by
    intro h
    rw [if_pos (Or.inl h)]
    omega
  obtain ⟨cur, hcur⟩ := valid_zoomRect d hv
  obtain ⟨r, hr⟩ : ∃ r, st[(if i < 0 ∨ (st.length : Int) < i then (st.length : Int) - 1
      else i).toNat]? = some r := ⟨_, List.getElem?_eq_getElem hk⟩
  have h1 : ¬ (st.isEmpty = true) := by
    cases st with
    | nil => exact absurd rfl hne
    | cons a t => simp
  unfold setZoomStack
  rw [if_neg h1, if_neg hacc]
  simp only
  rw [setZoomStack_index st i hst hpos, hr, hcur]
  simp only [PrivateData.zoomRect]
  rw [hr]
  by_cases he : r = cur
  · simp only [he, ne_eq, not_true_eq_false, decide_False, Bool.false_eq_true, if_false]
    exact ⟨_, rfl, rfl, hk, hneg⟩
  · simp only [ne_eq, he, not_false_eq_true, decide_True, if_true]
    exact ⟨_, rfl, rfl, hk, hneg⟩

/-- C24: `setZoomStack` with a stack of two rectangles and the index 2, the
count of the stack: the index passes the test
`zoomRectIndex < 0 || zoomRectIndex > count` unchanged, and the stack is then
read at position 2, outside of it. -/
theorem C24_setZoomStack_index_at_count :
    ¬ ((2 : Int) < 0 ∨ (([square 0 100, square 20 80] : List QwtDoubleRect).length : Int) < 2) ∧
      ([square 0 100, square 20 80] : List QwtDoubleRect)[2]? = none ∧
      setZoomStack freshData [square 0 100, square 20 80] 2 = none := by
  refine ⟨by decide, rfl, ?_⟩
  unfold setZoomStack
  simp [freshData]

/-- C25, as stated, fails: with `maxStackDepth == 0`, `setZoomBase(base)` for a
base other than the scale rectangle of the plot leaves two rectangles on the
stack and the position 1. -/
theorem C25_setZoomBase_ignores_depth :
    ∃ o, setZoomBase { freshData with maxStackDepth := 0 } (some (square 0 100))
        (square 0 200) = some o ∧
      o.data.maxStackDepth = 0 ∧ o.data.zoomStack.length = 2 ∧ o.data.zoomRectIndex = 1 ∧
      ¬ o.data.withinDepth := by
  have hne : square 0 200 ≠ square 0 100 := by norm_num [square]
  refine ⟨⟨⟨1, [(square 0 200).united (square 0 100), square 0 100], 0⟩, []⟩, ?_, rfl, rfl, rfl,
    ?_⟩
  · unfold setZoomBase
    simp only [ne_eq, hne, not_false_eq_true, if_true]
    rfl
  · unfold PrivateData.withinDepth
    simp

/-- What the operations leave behind when they return, on a valid zoomer with
`maxStackDepth >= 0` whose stack is within the depth: `zoom(rect)`,
`zoom(offset)` and `setZoomStack` leave the stack within the depth,
`setMaxStackDepth(d)` with `d >= 0` brings it within `d`, and `setZoomBase(rect)`
leaves the base with at most one rectangle above it. -/
theorem within_depth_steps (d : PrivateData) (hv : d.valid) (h0 : 0 ≤ d.maxStackDepth)
    (hw : d.withinDepth) :
    (∀ rect o, zoom d rect = some o → o.data.withinDepth) ∧
      (∀ offset o, zoomOffset d offset = some o → o.data.withinDepth) ∧
      (∀ depth o, 0 ≤ depth → setMaxStackDepth d depth = some o → o.data.withinDepth) ∧
      (∀ st i o, st.length < 2147483648 → setZoomStack d st i = some o →
        o.data.withinDepth) ∧
      (∀ s base o, setZoomBase d (some s) base = some o →
        o.data.zoomStack.length ≤ 2 ∧ o.data.zoomRectIndex + 1 ≤ o.data.zoomStack.length ∧
          o.data.maxStackDepth = d.maxStackDepth) := by
  obtain ⟨hidx, hlen, hm1, hm2⟩ := hv
  obtain ⟨hw1, hw2⟩ := hw
  refine ⟨?_, ?_, ?_, ?_, ?_⟩
  · intro rect o h
    obtain ⟨base, hb⟩ := valid_zoomBase d ⟨hidx, hlen, hm1, hm2⟩
    obtain ⟨cur, hc⟩ := valid_zoomRect d ⟨hidx, hlen, hm1, hm2⟩
    rcases zoom_total d rect base cur ⟨hidx, hlen, hm1, hm2⟩ hb hc with e | ⟨_, hd, e⟩
    · rw [e] at h
      cases h
      exact ⟨hw1, hw2⟩
    · rw [e] at h
      cases h
      unfold PrivateData.withinDepth
      simp only [List.length_append, List.length_take, List.length_singleton]
      constructor <;> omega
  · intro offset o h
    obtain ⟨k, r, hk, _, e⟩ := zoomOffset_total d offset ⟨hidx, hlen, hm1, hm2⟩
    rw [e] at h
    cases h
    unfold PrivateData.withinDepth
    simp only
    constructor <;> omega
  · intro depth o hd h
    by_cases hk : depth < 0 ∨ (d.zoomStack.length : Int) - 1 ≤ depth
    · rw [setMaxStackDepth_keep d depth hk] at h
      cases h
      unfold PrivateData.withinDepth
      simp only
      constructor <;> omega
    · obtain ⟨r, _, e⟩ := setMaxStackDepth_unzoom d depth ⟨hidx, hlen, hm1, hm2⟩ hd (by omega)
      rw [e] at h
      cases h
      unfold PrivateData.withinDepth
      simp only [List.length_take]
      constructor <;> omega
  · intro st i o hst h
    rcases setZoomStack_cases d st i o hst h with hsame | ⟨hacc, hs, hmsd, hlt, _⟩
    · rw [hsame]
      exact ⟨hw1, hw2⟩
    · unfold PrivateData.withinDepth
      rw [hs, hmsd]
      constructor <;> omega
  · intro s base o h
    unfold setZoomBase at h
    simp only at h
    split_ifs at h <;> cases h <;> simp

/-- The method `setZoomBase(rect)` returns for every rectangle, on a zoomer
attached to a plot. -/
theorem setZoomBase_total (d : PrivateData) (s base : QwtDoubleRect) :
    ∃ o, setZoomBase d (some s) base = some o := by
  unfold setZoomBase
  simp only
  split_ifs <;> exact ⟨_, rfl⟩

/-- The method `setMaxStackDepth` returns on every valid zoomer. -/
theorem setMaxStackDepth_total (d : PrivateData) (depth : Int) (hv : d.valid) :
    ∃ o, setMaxStackDepth d depth = some o := by
  by_cases hk : depth < 0 ∨ (d.zoomStack.length : Int) - 1 ≤ depth
  · exact ⟨_, setMaxStackDepth_keep d depth hk⟩
  · obtain ⟨r, _, e⟩ := setMaxStackDepth_unzoom d depth hv (by omega) (by omega)
    exact ⟨_, e⟩

/-- C25, amended: on a valid zoomer with `maxStackDepth >= 0` whose stack is
within the depth, `zoom(rect)` and `zoom(offset)` return and leave the stack
within the depth (`count <= maxStackDepth + 1` and
`zoomRectIndex <= maxStackDepth`); `setMaxStackDepth(d)` with `d >= 0` returns
and brings it within `d`; `setZoomStack`, when it returns, leaves the stack
within the depth; `setZoomBase(rect)` returns, does not look at the depth and
leaves the base with at most one rectangle above it. -/
theorem C25_within_depth (d : PrivateData) (hv : d.valid) (h0 : 0 ≤ d.maxStackDepth)
    (hw : d.withinDepth) :
    (∀ rect, ∃ o, zoom d rect = some o ∧ o.data.withinDepth) ∧
      (∀ offset, ∃ o, zoomOffset d offset = some o ∧ o.data.withinDepth) ∧
      (∀ depth, 0 ≤ depth → ∃ o, setMaxStackDepth d depth = some o ∧ o.data.withinDepth) ∧
      (∀ st i o, st.length < 2147483648 → setZoomStack d st i = some o →
        o.data.withinDepth) ∧
      (∀ s base, ∃ o, setZoomBase d (some s) base = some o ∧
        o.data.zoomStack.length ≤ 2 ∧ o.data.zoomRectIndex + 1 ≤ o.data.zoomStack.length ∧
          o.data.maxStackDepth = d.maxStackDepth) := by
  obtain ⟨h1, h2, h3, h4, h5⟩ := within_depth_steps d hv h0 hw
  refine ⟨?_, ?_, ?_, h4, ?_⟩
  · intro rect
    obtain ⟨base, hb⟩ := valid_zoomBase d hv
    obtain ⟨cur, hc⟩ := valid_zoomRect d hv
    rcases zoom_total d rect base cur hv hb hc with e | ⟨_, _, e⟩
    · exact ⟨_, e, h1 rect _ e⟩
    · exact ⟨_, e, h1 rect _ e⟩
  · intro offset
    obtain ⟨k, r, _, _, e⟩ := zoomOffset_total d offset hv
    exact ⟨_, e, h2 offset _ e⟩
  · intro depth hd
    obtain ⟨o, e⟩ := setMaxStackDepth_total d depth hv
    exact ⟨o, e, h3 depth o hd e⟩
  · intro s base
    obtain ⟨o, e⟩ := setZoomBase_total d s base
    exact ⟨o, e, h5 s base o e⟩

theorem C25_within_depth_witness :
    (∀ rect, ∃ o, zoom { sampleData with maxStackDepth := 2 } rect = some o ∧
        o.data.withinDepth) ∧
      (∀ offset, ∃ o, zoomOffset { sampleData with maxStackDepth := 2 } offset = some o ∧
        o.data.withinDepth) ∧
      (∀ depth, 0 ≤ depth →
        ∃ o, setMaxStackDepth { sampleData with maxStackDepth := 2 } depth = some o ∧
          o.data.withinDepth) ∧
      (∀ st i o, st.length < 2147483648 →
        setZoomStack { sampleData with maxStackDepth := 2 } st i = some o →
        o.data.withinDepth) ∧
      (∀ s base,
        ∃ o, setZoomBase { sampleData with maxStackDepth := 2 } (some s) base = some o ∧
          o.data.zoomStack.length ≤ 2 ∧
          o.data.zoomRectIndex + 1 ≤ o.data.zoomStack.length ∧
          o.data.maxStackDepth = (2 : Int)) :=
  C25_within_depth { sampleData with maxStackDepth := 2 } (by decide) (by decide)
    ⟨by decide, by decide⟩

/-! ## The metrics map -/

namespace QwtMetricsMap

/-- A rectangle built from its first corner, its width and its height is the
rectangle it was. -/
theorem ofSize_self (r : QRect) : QRect.ofSize (r.x1 - 0) (r.y1 - 0) r.width r.height = r := by
  cases r
  simp only [QRect.ofSize, QRect.width, QRect.height, QRect.mk.injEq]
  refine ⟨?_, ?_, ?_, ?_⟩ <;> ring

/-- A rectangle is the rectangle from its top-left to its bottom-right
corner. -/
theorem ofPoints_corners (r : QRect) : QRect.ofPoints r.topLeft r.bottomRight = r := rfl

/-- Without a painter `layoutToDevice` returns the rectangle from the
transformed top-left to the transformed bottom-right corner. -/
theorem layoutToDeviceRect_corners (m : QwtMetricsMap) (rect : QRect) :
    m.layoutToDeviceRect rect = mapCorners m.layoutToDevice rect := by
  unfold layoutToDeviceRect mapCorners
  by_cases hi : m.isIdentity = true
  · rw [if_pos hi]
    simp only [layoutToDevice, if_pos hi, ofPoints_corners]
  · rw [if_neg hi]
    dsimp only
    generalize m.layoutToDevice rect.topLeft = a
    generalize m.layoutToDevice rect.bottomRight = b
    cases a with
    | none => rfl
    | some topLeft =>
      cases b with
      | none => rfl
      | some bottomRight =>
        simp only [ofSize_self]

/-- Without a painter `deviceToLayout` returns the rectangle from the
transformed top-left to the transformed bottom-right corner. -/
theorem deviceToLayoutRect_corners (m : QwtMetricsMap) (rect : QRect) :
    m.deviceToLayoutRect rect = mapCorners m.deviceToLayout rect := by
  unfold deviceToLayoutRect mapCorners
  by_cases hi : m.isIdentity = true
  · rw [if_pos hi]
    simp only [deviceToLayout, if_pos hi, ofPoints_corners]
  · rw [if_neg hi]

/-- C21 fails for `screenToLayout` and `layoutToScreen`: the rectangle
overloads of `layoutToDevice` and `deviceToLayout` return the rectangle from
the transformed top-left to the transformed bottom-right corner, but with 4
layout units per screen pixel `screenToLayout(QRect(0, 0, 1, 1))` is
`QRect(0, 0, 4, 4)`, its width the transformed width, where both transformed
corners are the point (0, 0); and `layoutToScreen(QRect(0, 0, 8, 8))` is
`QRect(0, 0, 2, 2)`, where the transformed corners are (0, 0) and (2, 2), a
width of 3. -/
theorem C21_screen_rect_transforms_size :
    (∀ (m : QwtMetricsMap) (rect : QRect),
        m.layoutToDeviceRect rect = mapCorners m.layoutToDevice rect ∧
          m.deviceToLayoutRect rect = mapCorners m.deviceToLayout rect) ∧
      sampleMetrics.screenToLayoutRect (QRect.ofSize 0 0 1 1) = some (QRect.ofSize 0 0 4 4) ∧
      mapCorners sampleMetrics.screenToLayout (QRect.ofSize 0 0 1 1) =
        some (QRect.ofSize 0 0 1 1) ∧
      sampleMetrics.layoutToScreenRect (QRect.ofSize 0 0 8 8) = some (QRect.ofSize 0 0 2 2) ∧
      mapCorners sampleMetrics.layoutToScreen (QRect.ofSize 0 0 8 8) =
        some (QRect.ofSize 0 0 3 3) := by
  refine ⟨fun m rect => ⟨layoutToDeviceRect_corners m rect, deviceToLayoutRect_corners m rect⟩,
    ?_, ?_, ?_, ?_⟩
  · norm_num [screenToLayoutRect, sampleMetrics, screenToLayoutX, screenToLayoutY, qRound,
      QRect.ofSize, QRect.width, QRect.height]
  · norm_num [mapCorners, screenToLayout, sampleMetrics, screenToLayoutX, screenToLayoutY,
      qRound, QRect.ofSize, QRect.topLeft, QRect.bottomRight, QRect.ofPoints]
  · norm_num [layoutToScreenRect, sampleMetrics, layoutToScreenX, layoutToScreenY, qRound,
      QRect.ofSize, QRect.width, QRect.height]
  · norm_num [mapCorners, layoutToScreen, sampleMetrics, layoutToScreenX, layoutToScreenY,
      qRound, QRect.ofSize, QRect.topLeft, QRect.bottomRight, QRect.ofPoints]

end QwtMetricsMap

/-! ## The scale map -/

namespace QwtScaleMap

/-- C23, as stated, fails: a non-degenerate scale interval is not enough.  With
the scale interval from 0 to 100 and the paint interval from 5 to 5 the values
50 and 60 are both transformed to the pixel 5, `invTransform(5)` divides by
zero, and no inverse whatsoever returns both 50 and 60 for the pixel 5. -/
theorem C23_flat_paint_interval :
    flatScaleMap.s0 ≠ flatScaleMap.s1 ∧
      flatScaleMap.s0 ≤ 50 ∧ (50 : ℚ) ≤ flatScaleMap.s1 ∧
      flatScaleMap.transform 50 = some 5 ∧ flatScaleMap.transform 60 = some 5 ∧
      flatScaleMap.invTransform 5 = none ∧
      ∀ inv : ℚ → Option ℚ,
        ¬ ((flatScaleMap.transform 50).bind inv = some 50 ∧
          (flatScaleMap.transform 60).bind inv = some 60) := by
  have h50 : flatScaleMap.transform 50 = some 5 := by
    norm_num [flatScaleMap, transform, setScaleInterval, setPaintInterval]
  have h60 : flatScaleMap.transform 60 = some 5 := by
    norm_num [flatScaleMap, transform, setScaleInterval, setPaintInterval]
  refine ⟨?_, ?_, ?_, h50, h60, ?_, ?_⟩
  · norm_num [flatScaleMap, setScaleInterval, setPaintInterval]
  · norm_num [flatScaleMap, setScaleInterval, setPaintInterval]
  · norm_num [flatScaleMap, setScaleInterval, setPaintInterval]
  · norm_num [flatScaleMap, invTransform, setScaleInterval, setPaintInterval]
  · intro inv h
    rw [h50, h60] at h
    simp only [Option.some_bind] at h
    have h1 := h.1.symm.trans h.2
    norm_num at h1

/-- C23, amended: for a linear scale map whose scale interval and whose paint
interval are both non-degenerate, `transform(v)` is the pixel
p0 + (v - s0) * (p1 - p0) / (s1 - s0) and `invTransform` takes it back to `v`,
for every `v`. -/
theorem C23_round_trip (m : QwtScaleMap) (v : ℚ) (hs : m.s0 ≠ m.s1) (hp : m.p0 ≠ m.p1) :
    m.transform v = some (m.p0 + (v - m.s0) * (m.p1 - m.p0) / (m.s1 - m.s0)) ∧
      m.invTransform (m.p0 + (v - m.s0) * (m.p1 - m.p0) / (m.s1 - m.s0)) = some v ∧
      (m.transform v).bind m.invTransform = some v := by
  have hs1 : m.s1 - m.s0 ≠ 0 := fun h => hs (sub_eq_zero.mp h).symm
  have hp1 : m.p1 - m.p0 ≠ 0 := fun h => hp (sub_eq_zero.mp h).symm
  have ht : m.transform v = some (m.p0 + (v - m.s0) * (m.p1 - m.p0) / (m.s1 - m.s0)) := by
    unfold transform
    rw [if_neg (fun h => hs h.symm)]
  have hi : m.invTransform (m.p0 + (v - m.s0) * (m.p1 - m.p0) / (m.s1 - m.s0)) = some v := by
    unfold invTransform
    rw [if_neg (fun h => hp h.symm)]
    congr 1
    field_simp
    ring
  refine ⟨ht, hi, ?_⟩
  rw [ht, Option.some_bind, hi]

theorem C23_round_trip_witness :
    sampleScaleMap.transform 50 = some 250 ∧ sampleScaleMap.invTransform 250 = some 50 ∧
      (sampleScaleMap.transform 50).bind sampleScaleMap.invTransform = some 50 := by
  have h := C23_round_trip sampleScaleMap 50
    (by norm_num [sampleScaleMap, setScaleInterval, setPaintInterval])
    (by norm_num [sampleScaleMap, setScaleInterval, setPaintInterval])
  have hv : sampleScaleMap.p0 + (50 - sampleScaleMap.s0) *
      (sampleScaleMap.p1 - sampleScaleMap.p0) / (sampleScaleMap.s1 - sampleScaleMap.s0) =
      250 := by
    norm_num [sampleScaleMap, setScaleInterval, setPaintInterval]
  rw [hv] at h
  exact h

end QwtScaleMap

/-! ## `closestPoint` -/

/-- What the loop of `closestPoint` returns: a squared distance that is not
above `dmin` nor above the squared distance of any point; and either nothing
was found, or the index found is the first of a point at that squared
distance, which is below `dmin`. -/
theorem closestLoop_spec (xMap yMap : ℚ → ℚ) (pos : QPoint) (l : List (ℚ × ℚ)) (i index : Int)
    (dmin : ℚ) :
    (∀ p ∈ l, (closestLoop xMap yMap pos l i (index, dmin)).2 ≤ sqrDistance xMap yMap pos p) ∧
      (closestLoop xMap yMap pos l i (index, dmin)).2 ≤ dmin ∧
      (closestLoop xMap yMap pos l i (index, dmin) = (index, dmin) ∨
        ∃ k p, k < l.length ∧ l[k]? = some p ∧
          closestLoop xMap yMap pos l i (index, dmin) =
            (i + (k : Int), sqrDistance xMap yMap pos p) ∧
          sqrDistance xMap yMap pos p < dmin ∧
          ∀ j q, j < k → l[j]? = some q →
            sqrDistance xMap yMap pos p < sqrDistance xMap yMap pos q) := by
  induction l generalizing i index dmin with
  | nil =>
    refine ⟨fun p hp => absurd hp (List.not_mem_nil p), le_refl _, Or.inl rfl⟩
  | cons a t ih =>
    by_cases hf : sqrDistance xMap yMap pos a < dmin
    · have hstep : closestLoop xMap yMap pos (a :: t) i (index, dmin) =
          closestLoop xMap yMap pos t (i + 1) (i, sqrDistance xMap yMap pos a) := by
        simp only [closestLoop, if_pos hf]
      rw [hstep]
      obtain ⟨h1, h2, h3⟩ := ih (i + 1) i (sqrDistance xMap yMap pos a)
      refine ⟨?_, le_trans h2 hf.le, Or.inr ?_⟩
      · intro p hp
        rcases List.mem_cons.mp hp with h | h
        · rw [h]; exact h2
        · exact h1 p h
      · rcases h3 with h | ⟨k, p, hk, hp, he, hlt, hfirst⟩
        · refine ⟨0, a, Nat.succ_pos _, List.getElem?_cons_zero, ?_, hf, ?_⟩
          · rw [h]; simp
          · intro j q hj
            exact absurd hj (Nat.not_lt_zero j)
        · refine ⟨k + 1, p, Nat.succ_lt_succ hk, ?_, ?_, lt_trans hlt hf, ?_⟩
          · simpa using hp
          · rw [he]
            push_cast
            congr 1
            ring
          · intro j q hj hq
            cases j with
            | zero =>
              simp only [List.getElem?_cons_zero, Option.some.injEq] at hq
              rw [← hq]
              exact hlt
            | succ j1 =>
              simp only [List.getElem?_cons_succ] at hq
              exact hfirst j1 q (Nat.lt_of_succ_lt_succ hj) hq
    · have hstep : closestLoop xMap yMap pos (a :: t) i (index, dmin) =
          closestLoop xMap yMap pos t (i + 1) (index, dmin) := by
        simp only [closestLoop, if_neg hf]
      rw [hstep]
      obtain ⟨h1, h2, h3⟩ := ih (i + 1) index dmin
      have hge : dmin ≤ sqrDistance xMap yMap pos a := not_lt.mp hf
      refine ⟨?_, h2, ?_⟩
      · intro p hp
        rcases List.mem_cons.mp hp with h | h
        · rw [h]; exact le_trans h2 hge
        · exact h1 p h
      · rcases h3 with h | ⟨k, p, hk, hp, he, hlt, hfirst⟩
        · exact Or.inl h
        · refine Or.inr ⟨k + 1, p, Nat.succ_lt_succ hk, ?_, ?_, hlt, ?_⟩
          · simpa using hp
          · rw [he]
            push_cast
            congr 1
            ring
          · intro j q hj hq
            cases j with
            | zero =>
              simp only [List.getElem?_cons_zero, Option.some.injEq] at hq
              rw [← hq]
              exact lt_of_lt_of_le hlt hge
            | succ j1 =>
              simp only [List.getElem?_cons_succ] at hq
              exact hfirst j1 q (Nat.lt_of_succ_lt_succ hj) hq

/-- For a curve with a plot and with points, at most 2^31 - 1 of them,
`closestPoint` runs its loop over all points. -/
theorem closestPoint_eq (xMap yMap : ℚ → ℚ) (data : List (ℚ × ℚ)) (pos : QPoint)
    (hne : data ≠ []) (hsz : data.length < 2147483648) :
    closestPoint (some (xMap, yMap)) data pos =
      ((closestLoop xMap yMap pos data 0 (-1, 10000000000)).1,
        some (closestLoop xMap yMap pos data 0 (-1, 10000000000)).2) := by
  have hpos : 0 < data.length := List.length_pos.mpr hne
  unfold closestPoint
  simp only [toInt_of_lt _ hsz]
  rw [if_neg (by omega)]
  simp only [Int.toNat_ofNat, List.take_length]

/-- When some point has a squared distance to `pos`, as computed in `double`,
below 1.0e10, `closestPoint` returns the lowest index of a point whose computed
squared distance is minimal; when no point has, it returns -1. -/
theorem closestPoint_found (xMap yMap : ℚ → ℚ) (data : List (ℚ × ℚ)) (pos : QPoint)
    (hne : data ≠ []) (hsz : data.length < 2147483648) :
    ((∃ p ∈ data, sqrDistance xMap yMap pos p < 10000000000) →
        ∃ k p, k < data.length ∧ data[k]? = some p ∧
          closestPoint (some (xMap, yMap)) data pos =
            ((k : Int), some (sqrDistance xMap yMap pos p)) ∧
          (∀ q ∈ data, sqrDistance xMap yMap pos p ≤ sqrDistance xMap yMap pos q) ∧
          ∀ j q, j < k → data[j]? = some q →
            sqrDistance xMap yMap pos p < sqrDistance xMap yMap pos q) ∧
      ((∀ p ∈ data, 10000000000 ≤ sqrDistance xMap yMap pos p) →
        closestPoint (some (xMap, yMap)) data pos = (-1, some 10000000000)) := by
  obtain ⟨h1, _, h3⟩ := closestLoop_spec xMap yMap pos data 0 (-1) 10000000000
  have he := closestPoint_eq xMap yMap data pos hne hsz
  refine ⟨?_, ?_⟩
  · rintro ⟨p0, hp0, hlt0⟩
    rcases h3 with h | ⟨k, p, hk, hp, hr, _, hfirst⟩
    · have h2 := h1 p0 hp0
      rw [h] at h2
      exact absurd hlt0 (not_lt.mpr h2)
    · refine ⟨k, p, hk, hp, ?_, ?_, hfirst⟩
      · rw [he, hr, zero_add]
      · intro q hq
        have h2 := h1 q hq
        rw [hr] at h2
        exact h2
  · intro hall
    rcases h3 with h | ⟨k, p, _, hp, _, hlt, _⟩
    · rw [he, h]
    · exact absurd hlt (not_lt.mpr (hall p (List.getElem?_mem hp)))

/-- C22: the search starts from `dmin = 1.0e10` and takes a point only when its
squared distance is below `dmin`, so a curve attached to a plot whose only
point lies 100000 pixels from `pos` (a squared distance of exactly 1.0e10) has
no index found: `closestPoint` returns -1, although the curve has a point, and
stores the square root of 1.0e10 in `*dist`.  And the distances compared are
rounded: of the points `(10, 0)` and `(2 ^ -60, 0)` the second is closer to the
position `(5, 0)`, but both squared distances are 25 in `double`, and
`closestPoint` returns the index 0. -/
theorem C22_far_point_not_found :
    ([((100000 : ℚ), (0 : ℚ))] : List (ℚ × ℚ)) ≠ [] ∧
      sqrDistance (fun v => v) (fun v => v) ⟨0, 0⟩ (100000, 0) = 10000000000 ∧
      closestPoint (some (fun v => v, fun v => v)) [(100000, 0)] ⟨0, 0⟩ =
        (-1, some 10000000000) ∧
      closestPoint (some (fun v => v, fun v => v)) [(10, 0), (1 / 1152921504606846976, 0)]
        ⟨5, 0⟩ = (0, some 25) ∧
      |(1 / 1152921504606846976 : ℚ) - 5| < |(10 : ℚ) - 5| := by
  refine ⟨by simp, ?_, ?_, ?_, ?_⟩
  · norm_num [sqrDistance, Double.fl_zero, Double.fl_100000, Double.fl_10000000000]
  · norm_num [closestPoint, toInt, closestLoop, sqrDistance, Double.fl_zero,
      Double.fl_100000, Double.fl_10000000000]
  · norm_num [closestPoint, toInt, closestLoop, sqrDistance, Double.fl_zero,
      Double.fl_5, Double.fl_25, Double.fl_tiny_sub_5]
  · rw [abs_of_neg (by norm_num), abs_of_pos (by norm_num)]
    norm_num

/-! ## `drawPolyline` in split mode -/

/-- With enough fuel, and a number of points that leaves room for the last
increment of the counter, the split loop returns. -/
theorem splitLoop_total (numPoints : Int) (hn : numPoints ≤ 2147483627) (fuel : Nat) (i : Int)
    (hf : numPoints - i ≤ fuel) : ∃ calls, splitLoop numPoints numPoints fuel i = some calls := by
  induction fuel generalizing i with
  | zero =>
    refine ⟨[], ?_⟩
    unfold splitLoop
    rw [if_neg (by push_cast at hf; omega)]
  | succ fuel ih =>
    unfold splitLoop
    by_cases hi : i < numPoints
    · obtain ⟨calls, hc⟩ := ih (i + 20) (by push_cast at hf; omega)
      refine ⟨(i, min (20 + 1) (numPoints - i)) :: calls, ?_⟩
      rw [if_pos hi]
      simp only []
      rw [if_neg (by omega), hc]
    · exact ⟨[], by rw [if_neg hi]⟩

/-- What the split loop returns from the counter `i` on: every chunk starts
before the end of the array and has 21 points, or those that are left; the
chunks start at `i`, `i + 20`, `i + 40` and so on; no segment before `i` is
drawn, and every segment from `i` on is drawn by exactly one chunk. -/
theorem splitLoop_spec (numPoints : Int) (fuel : Nat) (i : Int) (calls : List (Int × Int))
    (h : splitLoop numPoints numPoints fuel i = some calls) :
    (∀ c ∈ calls, i ≤ c.1 ∧ c.1 < numPoints ∧ c.2 = min 21 (numPoints - c.1)) ∧
      calls.map Prod.fst = (List.range calls.length).map (fun (j : Nat) => i + 20 * (j : Int)) ∧
      (∀ k, k < i → (calls.filter (drawsSegment k)).length = 0) ∧
      (∀ k, i ≤ k → k + 1 < numPoints → (calls.filter (drawsSegment k)).length = 1) := by
  induction fuel generalizing i calls with
  | zero =>
    unfold splitLoop at h
    by_cases hi : i < numPoints
    · rw [if_pos hi] at h
      exact absurd h (by simp)
    · rw [if_neg hi] at h
      simp only [Option.some.injEq] at h
      subst h
      refine ⟨by simp, by simp, by simp, ?_⟩
      intro k hk hk1
      omega
  | succ fuel ih =>
    unfold splitLoop at h
    by_cases hi : i < numPoints
    · rw [if_pos hi] at h
      simp only [] at h
      by_cases ho : (2147483647 : Int) < i + 20
      · rw [if_pos ho] at h
        exact absurd h (by simp)
      · rw [if_neg ho] at h
        cases hr : splitLoop numPoints numPoints fuel (i + 20) with
        | none =>
          rw [hr] at h
          exact absurd h (by simp)
        | some rest =>
          rw [hr] at h
          simp only [Option.some.injEq] at h
          subst h
          obtain ⟨h1, h2, h3, h4⟩ := ih (i + 20) rest hr
          have hcov : ∀ k, i ≤ k → k + 1 < numPoints → k < i + 20 →
              drawsSegment k (i, min (20 + 1) (numPoints - i)) = true := by
            intro k hk hk1 hk2
            simp only [drawsSegment, decide_eq_true_eq]
            rcases min_choice (20 + 1 : Int) (numPoints - i) with hm | hm <;> rw [hm] <;>
              constructor <;> omega
          have hnot : ∀ k, (k < i ∨ i + 20 ≤ k) →
              drawsSegment k (i, min (20 + 1) (numPoints - i)) = false := by
            intro k hk
            simp only [drawsSegment, decide_eq_false_iff_not, not_and, not_lt]
            intro hk0
            have hm : min (20 + 1 : Int) (numPoints - i) ≤ 20 + 1 := min_le_left _ _
            omega
          refine ⟨?_, ?_, ?_, ?_⟩
          · intro c hc
            rcases List.mem_cons.mp hc with hc1 | hc1
            · rw [hc1]
              exact ⟨le_refl _, hi, rfl⟩
            · obtain ⟨a1, a2, a3⟩ := h1 c hc1
              exact ⟨by omega, a2, a3⟩
          · rw [List.map_cons, List.length_cons, List.range_succ_eq_map, List.map_cons,
              List.map_map, h2]
            congr 1
            · simp
            · apply List.map_congr_left
              intro j _
              simp only [Function.comp, Nat.succ_eq_add_one]
              push_cast
              ring
          · intro k hk
            rw [List.filter_cons, hnot k (Or.inl hk)]
            simp only [Bool.false_eq_true, if_false]
            exact h3 k (by omega)
          · intro k hk hk1
            by_cases hk2 : k < i + 20
            · rw [List.filter_cons, hcov k hk hk1 hk2]
              simp only [if_true, List.length_cons, h3 k hk2]
            · rw [List.filter_cons, hnot k (Or.inr (not_lt.mp hk2))]
              simp only [Bool.false_eq_true, if_false]
              exact h4 k (not_lt.mp hk2) hk1
    · rw [if_neg hi] at h
      simp only [Option.some.injEq] at h
      subst h
      refine ⟨by simp, by simp, by simp, ?_⟩
      intro k hk hk1
      omega

/-- C27: in split mode (a raster paint engine and a pen at least 2 wide), for
a clipped polygon of at most 2147483627 points, `drawPolyline` returns after
drawing chunks of at least 1 and at most 21 points that lie within the point
array, the chunk number `j` starting at the index `20 * j`, and every segment
from a point `k` to the point `k + 1` of the polygon is drawn by exactly one
chunk. -/
theorem C27_split_chunks {α : Type} (cpa : List α) (penWidth : Int)
    (hw : 2 ≤ penWidth) (hn : cpa.length ≤ 2147483627) :
    ∃ calls, drawPolyline true penWidth cpa = some calls ∧
      (∀ c ∈ calls, 1 ≤ c.2 ∧ c.2 ≤ 21 ∧ 0 ≤ c.1 ∧ c.1 + c.2 ≤ (cpa.length : Int)) ∧
      calls.map Prod.fst = (List.range calls.length).map (fun (j : Nat) => 20 * (j : Int)) ∧
      ∀ k : Int, 0 ≤ k → k + 1 < (cpa.length : Int) →
        (calls.filter (drawsSegment k)).length = 1 := by
  have hlt : cpa.length < 2147483648 := by omega
  have hdef : drawPolyline true penWidth cpa =
      splitLoop (cpa.length : Int) (cpa.length : Int) cpa.length 0 := by
    unfold drawPolyline
    simp only [toInt_of_lt _ hlt, ge_iff_le, hw, Bool.true_and, decide_True, and_self, if_true]
  obtain ⟨calls, hc⟩ := splitLoop_total (cpa.length : Int) (by omega) cpa.length 0 (by omega)
  obtain ⟨h1, h2, _, h4⟩ := splitLoop_spec (cpa.length : Int) cpa.length 0 calls hc
  refine ⟨calls, by rw [hdef, hc], ?_, ?_, ?_⟩
  · intro c hcm
    obtain ⟨a1, a2, a3⟩ := h1 c hcm
    rw [a3]
    rcases min_choice (21 : Int) ((cpa.length : Int) - c.1) with hm | hm
    · have hle : (21 : Int) ≤ (cpa.length : Int) - c.1 := by
        rw [← hm]; exact min_le_right _ _
      rw [hm]
      refine ⟨by omega, by omega, a1, by omega⟩
    · have hle : (cpa.length : Int) - c.1 ≤ 21 := by
        rw [← hm]; exact min_le_left _ _
      rw [hm]
      refine ⟨by omega, by omega, a1, by omega⟩
  · rw [h2]
    apply List.map_congr_left
    intro j _
    ring
  · intro k hk hk1
    exact h4 k hk hk1

theorem C27_split_chunks_witness :
    ∃ calls, drawPolyline true 2 (List.replicate 45 (0 : Int)) = some calls ∧
      (∀ c ∈ calls, 1 ≤ c.2 ∧ c.2 ≤ 21 ∧ 0 ≤ c.1 ∧
        c.1 + c.2 ≤ ((List.replicate 45 (0 : Int)).length : Int)) ∧
      calls.map Prod.fst = (List.range calls.length).map (fun (j : Nat) => 20 * (j : Int)) ∧
      ∀ k : Int, 0 ≤ k → k + 1 < ((List.replicate 45 (0 : Int)).length : Int) →
        (calls.filter (drawsSegment k)).length = 1 :=
  C27_split_chunks (List.replicate 45 (0 : Int)) 2 (by decide) (by decide)

/-! ## `drawLines` with a curve fitter -/

/-- The loop that fills the buffer of `drawLines`, run over the indices from
`k` to the last of the curve on a buffer as long as the curve, stays inside
the buffer: it leaves the first `k` entries and writes the transformed points
of the curve to the others. -/
theorem fillPoints_range (c : Curve) (xMap yMap : ℚ → ℚ) (m k : Nat) (points : List (ℚ × ℚ))
    (hlen : points.length = c.data.length) (hk : k + m = c.data.length) :
    fillPoints c xMap yMap ((List.range' k m).map (fun (j : Nat) => 0 + (j : Int))) points =
      some (points.take k ++ (c.data.drop k).map (fun p => (xMap p.1, yMap p.2))) := by
  induction m generalizing k points with
  | zero =>
    have hkn : k = c.data.length := by omega
    simp [fillPoints, hkn, ← hlen]
  | succ m ih =>
    have hkl : k < c.data.length := by omega
    have hkp : k < points.length := by omega
    rw [List.range'_succ, List.map_cons]
    unfold fillPoints
    rw [if_pos (by constructor <;> omega)]
    have hidx : (0 + (k : Int)).toNat = k := by omega
    rw [hidx, List.getElem?_eq_getElem hkl]
    simp only []
    rw [ih (k + 1) _ (by rw [List.length_set]; exact hlen) (by omega)]
    congr 1
    rw [List.drop_eq_getElem_cons hkl, List.map_cons, List.take_succ,
      List.getElem?_set_self hkp, List.set_take,
      List.set_eq_of_length_le (List.length_take_le k points)]
    simp

/-- Called for the range of a buffer shorter than the index it starts from,
the fitted branch of `drawLines` writes outside the buffer: for the points 1
and 2 of a curve of three points the buffer has two entries, and the second
write goes to `points[2]`. -/
theorem drawLines_unguarded :
    drawLines sampleCurve (fun v => v) (fun v => v) 1 2 = none := by
  simp [drawLines, sampleCurve, fillPoints, List.range_succ]

/-- C28: with the attribute `Fitted` and a curve fitter set, on a curve of
fewer than 2^31 points, `drawCurve` with the style `Lines` reaches `fitCurve`
for every `from` and `to` without an access outside the buffer or the data:
every curve point `i` is written, transformed, to `points[i]` of a buffer as
long as the curve; and `draw` on such a curve of style `Lines` returns. -/
theorem C28_fitted_buffer_in_bounds (c : Curve) (xMap yMap : ℚ → ℚ) (first last : Int)
    (hf : c.fitted = true) (hc : c.curveFitter = true) (hsz : c.data.length < 2147483648) :
    drawCurve c CurveStyle.Lines xMap yMap first last =
        some (if c.data = [] then Drawn.nothing
          else Drawn.fitting (c.data.map (fun p => (xMap p.1, yMap p.2)))) ∧
      (c.style = CurveStyle.Lines →
        ∀ painter, draw c painter xMap yMap first last = some Drawn.nothing ∨
          draw c painter xMap yMap first last =
            some (Drawn.fitting (c.data.map (fun p => (xMap p.1, yMap p.2))))) := by
  have hcurve : ∀ a b : Int, drawCurve c CurveStyle.Lines xMap yMap a b =
      some (if c.data = [] then Drawn.nothing
        else Drawn.fitting (c.data.map (fun p => (xMap p.1, yMap p.2)))) := by
    intro a b
    unfold drawCurve
    simp only [hf, if_true, Curve.dataSize, toInt_of_lt _ hsz]
    unfold drawLines
    by_cases he : c.data = []
    · simp [he]
    · have hpos : 0 < c.data.length := List.length_pos.mpr he
      have hsize : (c.data.length : Int) - 1 - 0 + 1 = (c.data.length : Int) := by ring
      simp only [hsize, Int.toNat_ofNat, hf, hc, and_self, if_true, if_neg he]
      rw [if_neg (by omega)]
      have hfill := fillPoints_range c xMap yMap c.data.length 0
        (List.replicate c.data.length (0, 0)) (by simp) (by omega)
      rw [List.range_eq_range', hfill]
      simp
  refine ⟨hcurve first last, ?_⟩
  intro hs painter
  unfold draw
  by_cases h0 : ¬ painter = true ∨ c.dataSize ≤ 0
  · rw [if_pos h0]
    exact Or.inl rfl
  · rw [if_neg h0]
    simp only [hs, hcurve]
    split_ifs
    · exact Or.inl rfl
    · exact Or.inr rfl
    · exact Or.inl rfl
    · exact Or.inl rfl
    · exact Or.inr rfl
    · exact Or.inl rfl

theorem C28_fitted_buffer_in_bounds_witness :
    drawCurve sampleCurve CurveStyle.Lines (fun v => v) (fun v => v) 1 2 =
        some (if sampleCurve.data = [] then Drawn.nothing
          else Drawn.fitting (sampleCurve.data.map (fun p => ((fun v => v) p.1,
            (fun v => v) p.2)))) ∧
      (sampleCurve.style = CurveStyle.Lines →
        ∀ painter,
          draw sampleCurve painter (fun v => v) (fun v => v) 1 2 = some Drawn.nothing ∨
          draw sampleCurve painter (fun v => v) (fun v => v) 1 2 =
            some (Drawn.fitting (sampleCurve.data.map (fun p => ((fun v => v) p.1,
              (fun v => v) p.2))))) :=
  C28_fitted_buffer_in_bounds sampleCurve (fun v => v) (fun v => v) 1 2 rfl rfl (by decide)

end Qwt
